import Mathlib

/-!
omni-logger: dispatch engine, drivers and registry.

A shallow embedding of the Go package `omnilogger` (`logger_core.go`, `logger.go`,
`model/model.go`, `pkg/driver.go`, the drivers under `OmniLogger/` and `pkg/drivers/`).

Modelling conventions:

* Go maps and slices are reference types. The level-enable map of a `Config` is an address
  into `World.maps`; a driver slice is a header (array address, length, capacity) into
  `World.arrays`. Copying a `Config` or a slice header copies the address, not the contents.
* A driver is its method set acting on a state `σ` that stands for everything behind the
  drivers (files, buffers, ...). Driver methods are taken to return; a driver is never `nil`.
* The goroutines of `logWritter` are small-step tasks picked by a scheduler `Env.sched`;
  every property is proved for every scheduler.
* `World.calls` and `World.stdout` record the driver calls made and the lines the engine
  prints itself.
* `fmt.Sprintf`, the clock, the scheduler and the slice growth policy are inputs (`Env`);
  the call stack is an explicit list of frames.
-/

namespace omnilogger

/-! ## Data model (`model/model.go`, `config`) -/

/-- LogLevel is `type LogLevel string`. -/
abbrev LogLevel := String

def DEBUG : LogLevel := "DEBUG"
def INFO : LogLevel := "INFO"
def WARN : LogLevel := "WARN"
def ERROR : LogLevel := "ERROR"
def FATAL : LogLevel := "FATAL"

/-- Dynamic values held behind `interface{}` in the context metadata. -/
inductive Value where
  | str (s : String)
  | int (n : Int)
  | bool (b : Bool)
  | null
deriving DecidableEq

/-- Contents of a Go `map[string]α`: the entries, one per key. -/
abbrev GoMap (α : Type) := List (String × α)

/-- Index expression `m[k]` with the comma-ok result as an option. -/
def mapIndex {α : Type} (m : GoMap α) (k : String) : Option α :=
  match m with
  | [] => none
  | (k0, v) :: rest => if k = k0 then some v else mapIndex rest k

/-- Assignment `m[k] = v`: the entry for `k` is inserted or replaced. -/
def mapAssign {α : Type} (m : GoMap α) (k : String) (v : α) : GoMap α :=
  (k, v) :: m.filter (fun e => !decide (e.1 = k))

/-- Context holds contextual information for a log entry. -/
structure Context where
  TransactionID : String
  UserID : String
  MetaData : GoMap Value
deriving DecidableEq

/-- MessageData represents the structure of a log message. -/
structure MessageData where
  Level : String
  Message : String
  StackTrace : String
  Context : Option omnilogger.Context
  Timestamp : String
deriving DecidableEq

/-- Config of the engine: `LogLevels` is a map reference, `none` being the nil map. -/
structure Config where
  LogLevels : Option Nat := none
deriving DecidableEq

/-- Slice header `[]pkg.LoggerDriver`: backing array, length, capacity; all zero is nil. -/
structure Slice where
  arr : Nat := 0
  len : Nat := 0
  cap : Nat := 0
deriving DecidableEq

/-- LoggerDriver is the interface of `pkg/driver.go`; each method returns its Go results
together with the new state behind the drivers. An error is `some text`, nil is `none`. -/
structure LoggerDriver (σ : Type) where
  WriteLog : String → σ → Option String × σ
  FormatLog : MessageData → σ → (String × Option String) × σ

/-- OmniLogger is the main structure for the logger. -/
structure OmniLogger where
  config : Config := {}
  context : Option Context := none
  drivers : Slice := {}
deriving DecidableEq

/-- One call made on a driver, tagged with the position of the driver in the engine's
driver list, with the arguments passed and the results returned. -/
inductive Call where
  | FormatLog (driver : Nat) (messageData : MessageData) (out : String) (err : Option String)
  | WriteLog (driver : Nat) (message : String) (err : Option String)
deriving DecidableEq

/-- Position of the driver a call was made on. -/
def Call.driver : Call → Nat
  | .FormatLog i _ _ _ => i
  | .WriteLog i _ _ => i

/-- Whether the call is a `FormatLog` call. -/
def Call.isFormat : Call → Bool
  | .FormatLog _ _ _ _ => true
  | .WriteLog _ _ _ => false

/-- Whether the call is a `WriteLog` call. -/
def Call.isWrite : Call → Bool
  | .FormatLog _ _ _ _ => false
  | .WriteLog _ _ _ => true

/-- The program state: heap of level-enable maps, heap of driver arrays, the package
variable `instance` (field `singleton`; nil is `none`), the state behind the drivers, and
the record of driver calls and of lines printed by the engine. -/
structure World (σ : Type) where
  maps : List (GoMap Bool)
  arrays : List (List (LoggerDriver σ))
  singleton : Option OmniLogger
  ext : σ
  calls : List Call
  stdout : List String

/-- A stack frame as `runtime.Caller` reports it. -/
structure Frame where
  file : String
  line : Nat
  function : String
deriving DecidableEq

/-- Inputs from the Go runtime and library for one call into the logger. -/
structure Env where
  sprintf : String → List Value → String
  now : String
  sched : Nat → Nat
  growCap : Nat → Nat → Nat

/-- How a call into the logger ends. -/
inductive Outcome where
  | returned
  | exited (status : Nat)
  | panicked (reason : String)
deriving DecidableEq

/-! ## Heap access -/

/-- The entries of the map a reference points to; a nil map reads as empty. -/
def derefMap {σ : Type} (w : World σ) : Option Nat → GoMap Bool
  | none => []
  | some a => (w.maps[a]?).getD []

/-- The elements of a slice: the first `len` slots of its backing array. -/
def readSlice {σ : Type} (w : World σ) (s : Slice) : List (LoggerDriver σ) :=
  ((w.arrays[s.arr]?).getD []).take s.len

/-- Built-in `append(s, xs...)`: written in place when the capacity suffices, otherwise
copied to a fresh array whose capacity the runtime's growth policy picks. -/
def append {σ : Type} (growCap : Nat → Nat → Nat) (s : Slice) (xs : List (LoggerDriver σ))
    (w : World σ) : Slice × World σ :=
  if s.len + xs.length ≤ s.cap then
    let old := (w.arrays[s.arr]?).getD []
    ({ s with len := s.len + xs.length },
     { w with arrays := w.arrays.set s.arr (old.take s.len ++ xs ++ old.drop (s.len + xs.length)) })
  else
    ({ arr := w.arrays.length, len := s.len + xs.length,
       cap := max (s.len + xs.length) (growCap s.cap (s.len + xs.length)) },
     { w with arrays := w.arrays ++ [readSlice w s ++ xs] })

/-! ## Dispatch engine (`logger_core.go`) -/

/-- Frames below `runtime.Caller`: index 0 is the function calling it. -/
def runtimeCaller (skip : Nat) (cs : List Frame) : Option Frame := cs[skip]?

/-- captureStackTrace captures the stack trace of the caller: `runtime.Caller(4)`. -/
def OmniLogger.captureStackTrace (_l : OmniLogger) (cs : List Frame) : String :=
  match runtimeCaller 4 (⟨"logger_core.go", 31, "omnilogger.(*OmniLogger).captureStackTrace"⟩ :: cs) with
  | none => "unknown"
  | some f => f.file ++ ":" ++ toString f.line ++ " " ++ f.function

def OmniLogger.levelToString (_l : OmniLogger) (level : LogLevel) : String := level

/-- The comma-ok lookup `enabled, ok := l.config.LogLevels[level]`. -/
def OmniLogger.lookupLevel {σ : Type} (l : OmniLogger) (w : World σ) (level : LogLevel) : Bool × Bool :=
  match mapIndex (derefMap w l.config.LogLevels) level with
  | some enabled => (enabled, true)
  | none => (false, false)

/-- Program points of the goroutine started for one driver. -/
inductive Task where
  | callFormat
  | reportFormat (out : String) (err : String)
  | callWrite (out : String)
  | reportWrite (err : String)
  | done
deriving DecidableEq

/-- Whether the goroutine has run to its deferred `wg.Done()`. -/
def Task.isDone : Task → Bool
  | .done => true
  | _ => false

/-- One step of the goroutine body for the driver at position `i`. -/
def stepTask {σ : Type} (d : LoggerDriver σ) (i : Nat) (messageData : MessageData) :
    Task → World σ → Task × World σ
  | .callFormat, w =>
    let r := d.FormatLog messageData w.ext
    let w1 := { w with ext := r.2, calls := w.calls ++ [Call.FormatLog i messageData r.1.1 r.1.2] }
    match r.1.2 with
    | some err => (.reportFormat r.1.1 err, w1)
    | none => (.callWrite r.1.1, w1)
  | .reportFormat out err, w =>
    (.callWrite out, { w with stdout := w.stdout ++ ["Error formatting log: " ++ err] })
  | .callWrite out, w =>
    let r := d.WriteLog out w.ext
    let w1 := { w with ext := r.2, calls := w.calls ++ [Call.WriteLog i out r.1] }
    match r.1 with
    | some err => (.reportWrite err, w1)
    | none => (.done, w1)
  | .reportWrite err, w =>
    (.done, { w with stdout := w.stdout ++ ["Error writing log: " ++ err] })
  | .done, w => (.done, w)

/-- Positions of the goroutines that have not finished. -/
def runnable (ts : List Task) : List Nat :=
  (List.range ts.length).filter (fun i => !(ts.getD i Task.done).isDone)

/-- The unfinished goroutine the scheduler picks at step `t`, if there is one. -/
def pick (sched : Nat → Nat) (t : Nat) (ts : List Task) : Option Nat :=
  match runnable ts with
  | [] => none
  | i0 :: rest => some ((i0 :: rest).getD (sched t % (rest.length + 1)) i0)

/-- One scheduling step: the picked goroutine makes one step of its body. -/
def schedStep {σ : Type} (sched : Nat → Nat) (ds : List (LoggerDriver σ)) (messageData : MessageData)
    (t : Nat) (ts : List Task) (w : World σ) : Option (List Task × World σ) :=
  match pick sched t ts with
  | none => none
  | some i =>
    match ds[i]? with
    | none => none
    | some d =>
      let r := stepTask d i messageData (ts.getD i Task.done) w
      some (ts.set i r.1, r.2)

/-- The goroutines run interleaved until `wg.Wait()` can return, that is until no
goroutine is left unfinished. -/
def runTasks {σ : Type} (sched : Nat → Nat) (ds : List (LoggerDriver σ)) (messageData : MessageData) :
    Nat → Nat → List Task → World σ → List Task × World σ
  | 0, _, ts, w => (ts, w)
  | fuel + 1, t, ts, w =>
    match schedStep sched ds messageData t ts w with
    | none => (ts, w)
    | some r => runTasks sched ds messageData fuel (t + 1) r.1 r.2

/-- The fan-out of `logWritter`: one goroutine per driver, then `wg.Wait()`. Every goroutine
needs at most four steps. -/
def fanOut {σ : Type} (sched : Nat → Nat) (ds : List (LoggerDriver σ)) (messageData : MessageData)
    (w : World σ) : List Task × World σ :=
  runTasks sched ds messageData (4 * ds.length) 0 (ds.map (fun _ => Task.callFormat)) w

/-- logWritter writes a log message to all configured drivers. -/
def OmniLogger.logWritter {σ : Type} (l : OmniLogger) (level : LogLevel) (message : String)
    (env : Env) (cs : List Frame) (w : World σ) : World σ :=
  let r := l.lookupLevel w level
  if !r.2 || !r.1 then w
  else
    let stack := l.captureStackTrace (⟨"logger_core.go", 45, "omnilogger.(*OmniLogger).logWritter"⟩ :: cs)
    let timestamp := env.now
    let messageData : MessageData :=
      { Level := l.levelToString level, Message := message, StackTrace := stack,
        Context := l.context, Timestamp := timestamp }
    (fanOut env.sched (readSlice w l.drivers) messageData w).2

/-- The gate of `OmniLogger/logger_core.go`: `if ok := l.config.LogLevels[level]; !ok`. -/
def OmniLogger.gateSingleValue {σ : Type} (l : OmniLogger) (w : World σ) (level : LogLevel) : Bool :=
  (l.lookupLevel w level).1

/-- AddCustomLogLevel is the assignment `l.config.LogLevels[level] = enabled`; it panics on a nil map. -/
def OmniLogger.AddCustomLogLevel {σ : Type} (l : OmniLogger) (level : LogLevel) (enabled : Bool)
    (w : World σ) : Outcome × World σ :=
  match l.config.LogLevels with
  | none => (Outcome.panicked "assignment to entry in nil map", w)
  | some a =>
    (Outcome.returned,
     { w with maps := w.maps.set a (mapAssign ((w.maps[a]?).getD []) level enabled) })

def OmniLogger.Debugf {σ : Type} (l : OmniLogger) (format : String) (args : List Value)
    (env : Env) (cs : List Frame) (w : World σ) : Outcome × World σ :=
  let message := env.sprintf format args
  (Outcome.returned,
   l.logWritter DEBUG message env (⟨"logger_core.go", 87, "omnilogger.(*OmniLogger).Debugf"⟩ :: cs) w)

def OmniLogger.Infof {σ : Type} (l : OmniLogger) (format : String) (args : List Value)
    (env : Env) (cs : List Frame) (w : World σ) : Outcome × World σ :=
  let message := env.sprintf format args
  (Outcome.returned,
   l.logWritter INFO message env (⟨"logger_core.go", 92, "omnilogger.(*OmniLogger).Infof"⟩ :: cs) w)

def OmniLogger.Warnf {σ : Type} (l : OmniLogger) (format : String) (args : List Value)
    (env : Env) (cs : List Frame) (w : World σ) : Outcome × World σ :=
  let message := env.sprintf format args
  (Outcome.returned,
   l.logWritter WARN message env (⟨"logger_core.go", 97, "omnilogger.(*OmniLogger).Warnf"⟩ :: cs) w)

def OmniLogger.Errorf {σ : Type} (l : OmniLogger) (format : String) (args : List Value)
    (env : Env) (cs : List Frame) (w : World σ) : Outcome × World σ :=
  let message := env.sprintf format args
  (Outcome.returned,
   l.logWritter ERROR message env (⟨"logger_core.go", 102, "omnilogger.(*OmniLogger).Errorf"⟩ :: cs) w)

/-- Fatalf logs at FATAL and then calls `os.Exit(1)`. -/
def OmniLogger.Fatalf {σ : Type} (l : OmniLogger) (format : String) (args : List Value)
    (env : Env) (cs : List Frame) (w : World σ) : Outcome × World σ :=
  let message := env.sprintf format args
  let w1 := l.logWritter FATAL message env (⟨"logger_core.go", 107, "omnilogger.(*OmniLogger).Fatalf"⟩ :: cs) w
  (Outcome.exited 1, w1)

/-- Logf interpolates, calls `logWritter` and then calls `os.Exit(1)` (line 114). -/
def OmniLogger.Logf {σ : Type} (l : OmniLogger) (level : LogLevel) (format : String) (args : List Value)
    (env : Env) (cs : List Frame) (w : World σ) : Outcome × World σ :=
  let message := env.sprintf format args
  let w1 := l.logWritter level message env (⟨"logger_core.go", 113, "omnilogger.(*OmniLogger).Logf"⟩ :: cs) w
  (Outcome.exited 1, w1)

def OmniLogger.Log {σ : Type} (l : OmniLogger) (level : LogLevel) (message : String)
    (env : Env) (cs : List Frame) (w : World σ) : Outcome × World σ :=
  (Outcome.returned,
   l.logWritter level message env (⟨"logger_core.go", 118, "omnilogger.(*OmniLogger).Log"⟩ :: cs) w)

def OmniLogger.Debug {σ : Type} (l : OmniLogger) (message : String)
    (env : Env) (cs : List Frame) (w : World σ) : Outcome × World σ :=
  (Outcome.returned,
   l.logWritter DEBUG message env (⟨"logger_core.go", 122, "omnilogger.(*OmniLogger).Debug"⟩ :: cs) w)

def OmniLogger.Info {σ : Type} (l : OmniLogger) (message : String)
    (env : Env) (cs : List Frame) (w : World σ) : Outcome × World σ :=
  (Outcome.returned,
   l.logWritter INFO message env (⟨"logger_core.go", 126, "omnilogger.(*OmniLogger).Info"⟩ :: cs) w)

def OmniLogger.Warn {σ : Type} (l : OmniLogger) (message : String)
    (env : Env) (cs : List Frame) (w : World σ) : Outcome × World σ :=
  (Outcome.returned,
   l.logWritter WARN message env (⟨"logger_core.go", 130, "omnilogger.(*OmniLogger).Warn"⟩ :: cs) w)

def OmniLogger.Error {σ : Type} (l : OmniLogger) (message : String)
    (env : Env) (cs : List Frame) (w : World σ) : Outcome × World σ :=
  (Outcome.returned,
   l.logWritter ERROR message env (⟨"logger_core.go", 134, "omnilogger.(*OmniLogger).Error"⟩ :: cs) w)

/-- Fatal logs at FATAL and then calls `os.Exit(1)`. -/
def OmniLogger.Fatal {σ : Type} (l : OmniLogger) (message : String)
    (env : Env) (cs : List Frame) (w : World σ) : Outcome × World σ :=
  let w1 := l.logWritter FATAL message env (⟨"logger_core.go", 138, "omnilogger.(*OmniLogger).Fatal"⟩ :: cs) w
  (Outcome.exited 1, w1)

/-! ## Registry (`logger.go`) -/

/-- NewOmniLogger creates a new logger with the given configuration, context and drivers;
`drivers` is the slice holding the variadic arguments. -/
def NewOmniLogger (config : Config) (ctx : Option Context) (drivers : Slice) : OmniLogger :=
  { config := config, drivers := drivers, context := ctx }

/-- The slice the compiler builds for variadic arguments `d1, d2, ...`: a fresh array. -/
def variadic {σ : Type} (ds : List (LoggerDriver σ)) (w : World σ) : Slice × World σ :=
  match ds with
  | [] => ({}, w)
  | _ => ({ arr := w.arrays.length, len := ds.length, cap := ds.length },
          { w with arrays := w.arrays ++ [ds] })

/-- ensureInstance creates the shared engine, zeroed, when the package variable is nil. -/
def ensureInstance {σ : Type} (w : World σ) : World σ :=
  match w.singleton with
  | none => { w with singleton := some {} }
  | some _ => w

/-- AddConfig updates the configuration of the singleton logger instance. -/
def AddConfig {σ : Type} (config : Config) (w : World σ) : World σ :=
  let w1 := ensureInstance w
  { w1 with singleton := w1.singleton.map (fun l => { l with config := config }) }

/-- AddDriver appends one or more logging drivers to the singleton logger instance. -/
def AddDriver {σ : Type} (drivers : List (LoggerDriver σ)) (env : Env) (w : World σ) : World σ :=
  let w1 := ensureInstance w
  match w1.singleton with
  | none => w1
  | some l =>
    let r := append env.growCap l.drivers drivers w1
    { r.2 with singleton := some { l with drivers := r.1 } }

/-- GetOmniLoggerWithContext retrieves a copy of the global logger instance with a
specified context; the error result is always nil. -/
def GetOmniLoggerWithContext {σ : Type} (ctx : Context) (w : World σ) : OmniLogger × World σ :=
  let w1 := ensureInstance w
  let l := w1.singleton.getD {}
  ({ config := l.config, drivers := l.drivers, context := some ctx }, w1)

/-- The engine the package variable `instance` points to once `ensureInstance` has run. -/
def sharedEngine {σ : Type} (w : World σ) : OmniLogger :=
  (ensureInstance w).singleton.getD {}

def Warnf {σ : Type} (format : String) (args : List Value)
    (env : Env) (cs : List Frame) (w : World σ) : Outcome × World σ :=
  let w1 := ensureInstance w
  (sharedEngine w1).Warnf format args env (⟨"logger.go", 52, "omnilogger.Warnf"⟩ :: cs) w1

def Debugf {σ : Type} (format : String) (args : List Value)
    (env : Env) (cs : List Frame) (w : World σ) : Outcome × World σ :=
  let w1 := ensureInstance w
  (sharedEngine w1).Debugf format args env (⟨"logger.go", 63, "omnilogger.Debugf"⟩ :: cs) w1

def Infof {σ : Type} (format : String) (args : List Value)
    (env : Env) (cs : List Frame) (w : World σ) : Outcome × World σ :=
  let w1 := ensureInstance w
  (sharedEngine w1).Infof format args env (⟨"logger.go", 68, "omnilogger.Infof"⟩ :: cs) w1

def Errorf {σ : Type} (format : String) (args : List Value)
    (env : Env) (cs : List Frame) (w : World σ) : Outcome × World σ :=
  let w1 := ensureInstance w
  (sharedEngine w1).Errorf format args env (⟨"logger.go", 73, "omnilogger.Errorf"⟩ :: cs) w1

/-- Logf formats and logs a message at a specified log level (free function). -/
def Logf {σ : Type} (level : LogLevel) (format : String) (args : List Value)
    (env : Env) (cs : List Frame) (w : World σ) : Outcome × World σ :=
  let w1 := ensureInstance w
  (sharedEngine w1).Logf level format args env (⟨"logger.go", 58, "omnilogger.Logf"⟩ :: cs) w1

/-- Log logs a message at a specified log level (free function). -/
def Log {σ : Type} (level : LogLevel) (message : String)
    (env : Env) (cs : List Frame) (w : World σ) : Outcome × World σ :=
  let w1 := ensureInstance w
  (sharedEngine w1).Log level message env (⟨"logger.go", 84, "omnilogger.Log"⟩ :: cs) w1

def Debug {σ : Type} (message : String)
    (env : Env) (cs : List Frame) (w : World σ) : Outcome × World σ :=
  let w1 := ensureInstance w
  (sharedEngine w1).Debug message env (⟨"logger.go", 89, "omnilogger.Debug"⟩ :: cs) w1

def Info {σ : Type} (message : String)
    (env : Env) (cs : List Frame) (w : World σ) : Outcome × World σ :=
  let w1 := ensureInstance w
  (sharedEngine w1).Info message env (⟨"logger.go", 94, "omnilogger.Info"⟩ :: cs) w1

def Warn {σ : Type} (message : String)
    (env : Env) (cs : List Frame) (w : World σ) : Outcome × World σ :=
  let w1 := ensureInstance w
  (sharedEngine w1).Warn message env (⟨"logger.go", 99, "omnilogger.Warn"⟩ :: cs) w1

def Error {σ : Type} (message : String)
    (env : Env) (cs : List Frame) (w : World σ) : Outcome × World σ :=
  let w1 := ensureInstance w
  (sharedEngine w1).Error message env (⟨"logger.go", 104, "omnilogger.Error"⟩ :: cs) w1

def Fatal {σ : Type} (message : String)
    (env : Env) (cs : List Frame) (w : World σ) : Outcome × World σ :=
  let w1 := ensureInstance w
  (sharedEngine w1).Fatal message env (⟨"logger.go", 109, "omnilogger.Fatal"⟩ :: cs) w1

def Fatalf {σ : Type} (format : String) (args : List Value)
    (env : Env) (cs : List Frame) (w : World σ) : Outcome × World σ :=
  let w1 := ensureInstance w
  (sharedEngine w1).Fatalf format args env (⟨"logger.go", 78, "omnilogger.Fatalf"⟩ :: cs) w1

/-! ## The fan-out with its WaitGroup (`logger_core.go`, lines 55 to 74)

The same loop as `fanOut`, at a finer grain: the goroutine of `logWritter` itself takes
part, `wg.Add(1)`, `go`, the deferred `wg.Done()` and `wg.Wait()` are steps of their own,
and a driver call is split into its invocation and its return. A driver call takes effect,
and enters the record of calls, when it returns. -/

/-- Program points of `logWritter` from the loop on. -/
inductive MainPc where
  | loop (k : Nat)
  | spawn (k : Nat)
  | wait
  | returned
deriving DecidableEq

/-- Program points of the goroutine `func(driver)`. -/
inductive Worker where
  | callFormat
  | inFormat
  | reportFormat (out : String) (err : String)
  | callWrite (out : String)
  | inWrite (out : String)
  | reportWrite (err : String)
  | deferred
  | finished
deriving DecidableEq

/-- Whether the goroutine has run its deferred `wg.Done()`. -/
def Worker.isFinished : Worker → Bool
  | .finished => true
  | _ => false

/-- The running fan-out: where `logWritter` stands, the WaitGroup counter, the goroutines
started so far (the goroutine of the k-th driver is the k-th started), and the world. -/
structure Conc (σ : Type) where
  main : MainPc
  wg : Nat
  workers : List Worker
  world : World σ

/-- The fan-out as `logWritter` enters the loop: `var wg sync.WaitGroup`. -/
def concInit {σ : Type} (w : World σ) : Conc σ :=
  { main := MainPc.loop 0, wg := 0, workers := [], world := w }

/-- One step of `logWritter` itself, over `n` drivers: `wg.Add(1)`, `go func(driver)`,
leaving the loop, or passing `wg.Wait()`, which is possible only at counter zero. -/
def stepMain {σ : Type} (n : Nat) (s : Conc σ) : Conc σ :=
  match s.main with
  | .loop k =>
    if k < n then { s with wg := s.wg + 1, main := MainPc.spawn k }
    else { s with main := MainPc.wait }
  | .spawn k => { s with workers := s.workers ++ [Worker.callFormat], main := MainPc.loop (k + 1) }
  | .wait => if s.wg = 0 then { s with main := MainPc.returned } else s
  | .returned => s

/-- One step of the goroutine of the driver at position `i`. -/
def stepWorker {σ : Type} (d : LoggerDriver σ) (i : Nat) (messageData : MessageData)
    (s : Conc σ) : Conc σ :=
  match s.workers.getD i Worker.finished with
  | .callFormat => { s with workers := s.workers.set i Worker.inFormat }
  | .inFormat =>
    let r := d.FormatLog messageData s.world.ext
    let w1 : World σ :=
      { s.world with
        ext := r.2, calls := s.world.calls ++ [Call.FormatLog i messageData r.1.1 r.1.2] }
    match r.1.2 with
    | some err => { s with workers := s.workers.set i (Worker.reportFormat r.1.1 err), world := w1 }
    | none => { s with workers := s.workers.set i (Worker.callWrite r.1.1), world := w1 }
  | .reportFormat out err =>
    { s with
      workers := s.workers.set i (Worker.callWrite out),
      world := { s.world with stdout := s.world.stdout ++ ["Error formatting log: " ++ err] } }
  | .callWrite out => { s with workers := s.workers.set i (Worker.inWrite out) }
  | .inWrite out =>
    let r := d.WriteLog out s.world.ext
    let w1 : World σ :=
      { s.world with ext := r.2, calls := s.world.calls ++ [Call.WriteLog i out r.1] }
    match r.1 with
    | some err => { s with workers := s.workers.set i (Worker.reportWrite err), world := w1 }
    | none => { s with workers := s.workers.set i Worker.deferred, world := w1 }
  | .reportWrite err =>
    { s with
      workers := s.workers.set i Worker.deferred,
      world := { s.world with stdout := s.world.stdout ++ ["Error writing log: " ++ err] } }
  | .deferred => { s with workers := s.workers.set i Worker.finished, wg := s.wg - 1 }
  | .finished => s

/-- Whether `logWritter` itself can make a step: it has not returned and is not blocked in
`wg.Wait()`. -/
def mainEnabled {σ : Type} (s : Conc σ) : Bool :=
  match s.main with
  | .loop _ => true
  | .spawn _ => true
  | .wait => decide (s.wg = 0)
  | .returned => false

/-- The threads that can make a step: 0 is `logWritter`, `i + 1` the goroutine of driver `i`. -/
def enabledThreads {σ : Type} (s : Conc σ) : List Nat :=
  (if mainEnabled s then [0] else []) ++
    ((List.range s.workers.length).filter
      (fun i => !(s.workers.getD i Worker.finished).isFinished)).map (fun i => i + 1)

/-- One scheduling step: the scheduler picks an enabled thread, which makes one step. -/
def concStep {σ : Type} (sched : Nat → Nat) (ds : List (LoggerDriver σ))
    (messageData : MessageData) (t : Nat) (s : Conc σ) : Option (Conc σ) :=
  match enabledThreads s with
  | [] => none
  | e0 :: rest =>
    match (e0 :: rest).getD (sched t % (rest.length + 1)) e0 with
    | 0 => some (stepMain ds.length s)
    | i + 1 =>
      match ds[i]? with
      | none => none
      | some d => some (stepWorker d i messageData s)

/-- The fan-out after at most `fuel` scheduling steps. -/
def concRun {σ : Type} (sched : Nat → Nat) (ds : List (LoggerDriver σ))
    (messageData : MessageData) : Nat → Nat → Conc σ → Conc σ
  | 0, _, s => s
  | fuel + 1, t, s =>
    match concStep sched ds messageData t s with
    | none => s
    | some s1 => concRun sched ds messageData fuel (t + 1) s1

/-- `logWritter` observed after at most `fuel` scheduling steps of its fan-out; at a level
that is not enabled it has returned at once, with no goroutine started. -/
def OmniLogger.logWritterAfter {σ : Type} (l : OmniLogger) (level : LogLevel) (message : String)
    (env : Env) (cs : List Frame) (fuel : Nat) (w : World σ) : Conc σ :=
  let r := l.lookupLevel w level
  if !r.2 || !r.1 then { main := MainPc.returned, wg := 0, workers := [], world := w }
  else
    let stack := l.captureStackTrace (⟨"logger_core.go", 45, "omnilogger.(*OmniLogger).logWritter"⟩ :: cs)
    let timestamp := env.now
    let messageData : MessageData :=
      { Level := l.levelToString level, Message := message, StackTrace := stack,
        Context := l.context, Timestamp := timestamp }
    concRun env.sched (readSlice w l.drivers) messageData fuel 0 (concInit w)

/-! ## Specification vocabulary -/

/-- The calls made on the driver at position `i`, in the order they were made. -/
def callsOf (i : Nat) (cs : List Call) : List Call :=
  cs.filter (fun c => decide (c.driver = i))

/-- The driver at position `i` was served: one `FormatLog` on the record, then one `WriteLog`
on the string that `FormatLog` returned, whatever errors the two calls returned. -/
def Served {σ : Type} (d : LoggerDriver σ) (i : Nat) (md : MessageData) (h : List Call) : Prop :=
  ∃ out e r, h = [Call.FormatLog i md out e, Call.WriteLog i out r] ∧
    (∃ s, (d.FormatLog md s).1 = (out, e)) ∧ (∃ s, (d.WriteLog out s).1 = r)

/-- The calls a goroutine has made when it stands at a given program point. -/
def TaskHist {σ : Type} (d : LoggerDriver σ) (i : Nat) (md : MessageData) : Task → List Call → Prop
  | .callFormat, h => h = []
  | .reportFormat out err, h =>
    h = [Call.FormatLog i md out (some err)] ∧ ∃ s, (d.FormatLog md s).1 = (out, some err)
  | .callWrite out, h =>
    ∃ e, h = [Call.FormatLog i md out e] ∧ ∃ s, (d.FormatLog md s).1 = (out, e)
  | .reportWrite _, h => Served d i md h
  | .done, h => Served d i md h

/-- Invariant of the fan-out: the calls made since it started are, driver by driver, the
history of that driver's goroutine. -/
def FanInv {σ : Type} (ds : List (LoggerDriver σ)) (md : MessageData) (base : List Call)
    (ts : List Task) (w : World σ) : Prop :=
  ts.length = ds.length ∧ ∃ new, w.calls = base ++ new ∧ (∀ c ∈ new, c.driver < ds.length) ∧
    ∀ i d, ds[i]? = some d → TaskHist d i md (ts.getD i Task.done) (callsOf i new)

/-- Steps a goroutine still has to make, at most. -/
def Task.weight : Task → Nat
  | .callFormat => 4
  | .reportFormat _ _ => 3
  | .callWrite _ => 2
  | .reportWrite _ => 1
  | .done => 0

/-- Steps the fan-out still has to make, at most. -/
def remaining (ts : List Task) : Nat := (ts.map Task.weight).sum

/-- The record `logWritter` builds for an accepted call. -/
def recordOf (l : OmniLogger) (level : LogLevel) (message : String) (env : Env)
    (cs : List Frame) : MessageData :=
  { Level := level, Message := message,
    StackTrace := l.captureStackTrace
      (⟨"logger_core.go", 45, "omnilogger.(*OmniLogger).logWritter"⟩ :: cs),
    Context := l.context, Timestamp := env.now }

/-! ## Drivers (`OmniLogger/cli_driver.go`, `OmniLogger/json_cli_driver.go`,
`pkg/drivers/file_driver.go`, the test's `MockDriver`)

`range` over a Go map visits the entries in an order the runtime picks; the drivers take
that enumeration as the input `rangeOrder`. `json.Marshal` is the input `marshal`. -/

/-- Verb `%v` of package fmt on a metadata value. -/
def fmtV : Value → String
  | .str s => s
  | .int n => toString n
  | .bool b => if b then "true" else "false"
  | .null => "<nil>"

/-- CLIDriver.WriteLog prints the message as one line on standard output. -/
def CLIDriver.WriteLog (message : String) (out : List String) : Option String × List String :=
  (none, out ++ [message])

/-- CLIDriver.FormatLog renders a record as one line of text. -/
def CLIDriver.FormatLog (rangeOrder : GoMap Value → GoMap Value) (messageData : MessageData) :
    String × Option String :=
  let logEntry := "[" ++ messageData.Level ++ "] timestamp: " ++ messageData.Timestamp ++ " "
  match messageData.Context with
  | none =>
    (logEntry ++ (" trace: " ++ messageData.StackTrace ++ "  msg : " ++ messageData.Message ++ " "),
     none)
  | some ctx =>
    let logEntry :=
      if ctx.TransactionID ≠ "" then logEntry ++ ("transaction_id: " ++ ctx.TransactionID ++ " ")
      else logEntry
    let logEntry :=
      if ctx.UserID ≠ "" then logEntry ++ ("user_id: " ++ ctx.UserID ++ " ") else logEntry
    let logEntry :=
      (rangeOrder ctx.MetaData).foldl (fun acc kv => acc ++ (kv.1 ++ ": " ++ fmtV kv.2 ++ " "))
        logEntry
    (logEntry ++ (" trace: " ++ messageData.StackTrace ++ "  msg : " ++ messageData.Message ++ " "),
     none)

/-- The object `logEntry` that JsonCliDriver.FormatLog builds before `json.Marshal`. -/
def JsonCliDriver.logEntry (rangeOrder : GoMap Value → GoMap Value) (messageData : MessageData) :
    GoMap Value :=
  let logEntry : GoMap Value :=
    mapAssign (mapAssign [] "level" (Value.str messageData.Level)) "timestamp"
      (Value.str messageData.Timestamp)
  let logEntry :=
    match messageData.Context with
    | none => logEntry
    | some ctx =>
      let logEntry :=
        if ctx.TransactionID ≠ "" then mapAssign logEntry "transaction_id" (Value.str ctx.TransactionID)
        else logEntry
      let logEntry :=
        if ctx.UserID ≠ "" then mapAssign logEntry "user_id" (Value.str ctx.UserID) else logEntry
      (rangeOrder ctx.MetaData).foldl (fun acc kv => mapAssign acc kv.1 kv.2) logEntry
  let logEntry := mapAssign logEntry "stack_trace" (Value.str messageData.StackTrace)
  mapAssign logEntry "message" (Value.str messageData.Message)

/-- JsonCliDriver.FormatLog marshals the object; a marshal error gives the empty string. -/
def JsonCliDriver.FormatLog (marshal : GoMap Value → String × Option String)
    (rangeOrder : GoMap Value → GoMap Value) (messageData : MessageData) : String × Option String :=
  let r := marshal (JsonCliDriver.logEntry rangeOrder messageData)
  match r.2 with
  | some err => ("", some err)
  | none => (r.1, none)

/-- The object `logEntry` that FileDriver.FormatLog builds before `json.Marshal`. -/
def FileDriver.logEntry (rangeOrder : GoMap Value → GoMap Value) (messageData : MessageData) :
    GoMap Value :=
  let logEntry : GoMap Value :=
    mapAssign (mapAssign [] "level" (Value.str messageData.Level)) "timestamp"
      (Value.str messageData.Timestamp)
  let logEntry :=
    match messageData.Context with
    | none => logEntry
    | some ctx =>
      let logEntry :=
        if ctx.TransactionID ≠ "" then mapAssign logEntry "transaction_id" (Value.str ctx.TransactionID)
        else logEntry
      let logEntry :=
        if ctx.UserID ≠ "" then mapAssign logEntry "user_id" (Value.str ctx.UserID) else logEntry
      (rangeOrder ctx.MetaData).foldl (fun acc kv => mapAssign acc kv.1 kv.2) logEntry
  let logEntry := mapAssign logEntry "stack_trace" (Value.str messageData.StackTrace)
  mapAssign logEntry "message" (Value.str messageData.Message)

/-- FileDriver.FormatLog marshals the object; a marshal error gives the empty string. -/
def FileDriver.FormatLog (marshal : GoMap Value → String × Option String)
    (rangeOrder : GoMap Value → GoMap Value) (messageData : MessageData) : String × Option String :=
  let r := marshal (FileDriver.logEntry rangeOrder messageData)
  match r.2 with
  | some err => ("", some err)
  | none => (r.1, none)

/-- MockDriver of `omnilog_test.go`: its state is the list `messages`. -/
def MockDriver : LoggerDriver (List String) where
  WriteLog := fun message messages => (none, messages ++ [message])
  FormatLog := fun messageData messages => ((messageData.Message, none), messages)

/-! ## Example values (from `omnilog_test.go` and `main.go`) -/

/-- A driver whose `FormatLog` fails with the empty string and whose `WriteLog` fails too;
its state lists the strings it was asked to write. -/
def failingDriver : LoggerDriver (List String) where
  WriteLog := fun message written => (some "disk full", written ++ [message])
  FormatLog := fun _ written => (("", some "cannot format"), written)

/-- The world of `TestOmniLogger`: the test's level map at address 0 and the level map of
`main.go` at address 1; the array holding the mock driver at address 0 and an array holding
a failing driver next to the mock at address 1. -/
def testWorld : World (List String) :=
  { maps := [[("DEBUG", true), ("INFO", false), ("WARN", false), ("ERROR", true)],
             [("DEBUG", true), ("INFO", true), ("WARN", true), ("ERROR", true), ("FATAL", true)]],
    arrays := [[MockDriver], [failingDriver, MockDriver]],
    singleton := none, ext := [], calls := [], stdout := [] }

/-- The engine of `TestOmniLogger`: `NewOmniLogger(config, nil, mockDriver)`. -/
def testLogger : OmniLogger :=
  NewOmniLogger { LogLevels := some 0 } none { arr := 0, len := 1, cap := 1 }

/-- An engine over the failing driver followed by the mock driver. -/
def failingLogger : OmniLogger :=
  NewOmniLogger { LogLevels := some 0 } none { arr := 1, len := 2, cap := 2 }

/-- An engine with the level map of `main.go` (all five levels on) over the failing driver
followed by the mock driver. -/
def mainLogger : OmniLogger :=
  NewOmniLogger { LogLevels := some 1 } none { arr := 1, len := 2, cap := 2 }

/-- Runtime inputs for the examples: the scheduler always picks the first unfinished
goroutine. -/
def testEnv : Env :=
  { sprintf := fun format _ => format, now := "2024-05-01T10:00:00Z",
    sched := fun _ => 0, growCap := fun cap need => 2 * cap + need }

/-- Runtime inputs with a scheduler that prefers the last unfinished goroutine. -/
def lastFirstEnv : Env :=
  { sprintf := fun format _ => format, now := "2024-05-01T10:00:00Z",
    sched := fun t => t + 1, growCap := fun _ need => need }

/-- The call stack of an application function `main.main` calling the logger. -/
def testStack : List Frame :=
  [⟨"main.go", 40, "main.main"⟩, ⟨"proc.go", 271, "runtime.main"⟩,
   ⟨"asm_amd64.s", 1695, "runtime.goexit"⟩]

/-- The entry point a log statement goes through. -/
inductive EntryPoint where
  | Log (level : LogLevel)
  | Debug
  | Info
  | Warn
  | Error

/-- The level an entry point logs at. -/
def EntryPoint.level : EntryPoint → LogLevel
  | .Log level => level
  | .Debug => DEBUG
  | .Info => INFO
  | .Warn => WARN
  | .Error => ERROR

/-- One submitted log statement with its runtime inputs and call stack. -/
structure LogCall where
  env : Env
  stack : List Frame
  entry : EntryPoint
  message : String

/-- The statement executed on an engine. -/
def LogCall.run {σ : Type} (c : LogCall) (l : OmniLogger) (w : World σ) : Outcome × World σ :=
  match c.entry with
  | .Log level => l.Log level c.message c.env c.stack w
  | .Debug => l.Debug c.message c.env c.stack w
  | .Info => l.Info c.message c.env c.stack w
  | .Warn => l.Warn c.message c.env c.stack w
  | .Error => l.Error c.message c.env c.stack w

/-- Log statements made one after another on an engine. -/
def logAll {σ : Type} (l : OmniLogger) : List LogCall → World σ → World σ
  | [], w => w
  | c :: rest, w => logAll l rest (c.run l w).2

/-- The metadata map of the record's context; empty when the context is nil. -/
def MessageData.metaData (messageData : MessageData) : GoMap Value :=
  match messageData.Context with
  | none => []
  | some ctx => ctx.MetaData

/-- The keys of a map. -/
def mapKeys {α : Type} (m : GoMap α) : List String := m.map Prod.fst

/-- A record whose context metadata uses the names `level` and `message` as keys. -/
def collisionRecord : MessageData :=
  { Level := "INFO", Message := "upload started", StackTrace := "main.go:40 main.main",
    Context := some { TransactionID := "tx123", UserID := "user456",
                      MetaData := [("level", Value.str "verbose"),
                                   ("message", Value.str "from metadata")] },
    Timestamp := "2024-05-01T10:00:00Z" }

/-- The record of `TestFileDriverWithFormatting`. -/
def fileTestRecord : MessageData :=
  { Level := "INFO", Message := "This is a formatted log message",
    StackTrace := "example.go:123 main.someFunction",
    Context := some { TransactionID := "tx123", UserID := "user456",
                      MetaData := [("extra", Value.str "metadata")] },
    Timestamp := "2024-05-01T10:00:00Z" }

/-- The record of `TestCLIDriver_FormatLog_NoContext`, at a given timestamp. -/
def cliTestRecordNoContext (timestamp : String) : MessageData :=
  { Level := INFO, Message := "Test message without context", StackTrace := "file.go:123",
    Context := none, Timestamp := timestamp }

/-- The record of `TestCLIDriver_FormatLog_WithContext`, at a given timestamp. -/
def cliTestRecordWithContext (timestamp : String) : MessageData :=
  { Level := INFO, Message := "Test message with context", StackTrace := "file.go:123",
    Context := some { TransactionID := "tx123", UserID := "user456",
                      MetaData := [("key", Value.str "value")] },
    Timestamp := timestamp }

/-! ## Registry histories and heap well-formedness -/

/-- The backing array of a slice holds at least the `len` elements of the slice. -/
@[reducible] def Slice.Backed {σ : Type} (w : World σ) (s : Slice) : Prop :=
  s.len ≤ ((w.arrays[s.arr]?).getD []).length

/-- A slice as the Go runtime keeps it: backed, and with an allocated array whenever it has
capacity. -/
@[reducible] def Slice.Valid {σ : Type} (w : World σ) (s : Slice) : Prop :=
  s.Backed w ∧ (0 < s.cap → s.arr < w.arrays.length)

/-- The driver slice of the singleton, when there is one, is valid. A world in which the
package variable is still nil is well formed. -/
@[reducible] def World.WellFormed {σ : Type} (w : World σ) : Prop :=
  match w.singleton with
  | none => True
  | some l => l.drivers.Valid w

/-- A mutating call on the registry. -/
inductive RegistryOp (σ : Type) where
  | AddDriver (drivers : List (LoggerDriver σ)) (env : Env)
  | AddConfig (config : Config)

/-- The call executed. -/
def RegistryOp.apply {σ : Type} : RegistryOp σ → World σ → World σ
  | .AddDriver drivers env, w => omnilogger.AddDriver drivers env w
  | .AddConfig config, w => omnilogger.AddConfig config w

/-- Registry calls made one after another. -/
def applyOps {σ : Type} (ops : List (RegistryOp σ)) (w : World σ) : World σ :=
  ops.foldl (fun acc op => op.apply acc) w

/-- The drivers passed to the `AddDriver` calls of a history, in call order. -/
def addedDrivers {σ : Type} : List (RegistryOp σ) → List (LoggerDriver σ)
  | [] => []
  | .AddDriver drivers _ :: rest => drivers ++ addedDrivers rest
  | .AddConfig _ :: rest => addedDrivers rest

/-- The config in force after a history: that of the last `AddConfig`, if any. -/
def lastConfig {σ : Type} : List (RegistryOp σ) → Config → Config
  | [], c => c
  | .AddDriver _ _ :: rest, c => lastConfig rest c
  | .AddConfig config :: rest, _ => lastConfig rest config

/-- What holds between the driver slice `e` of a derived engine and the registry from the
derivation on: `e` is backed, the singleton exists with a valid driver slice, and if that
slice shares the array of `e` it is at least as long. -/
def Isolated {σ : Type} (e : Slice) (w : World σ) : Prop :=
  e.Backed w ∧ ∃ l, w.singleton = some l ∧ l.drivers.Valid w ∧
    (l.drivers.arr = e.arr → e.len ≤ l.drivers.len)

instance World.decidableWellFormed {σ : Type} (w : World σ) : Decidable w.WellFormed :=
  match h : w.singleton with
  | none => isTrue (by simp [World.WellFormed, h])
  | some l => decidable_of_iff (l.drivers.Valid w) (by simp [World.WellFormed, h])

/-- The registry after `AddConfig(config)` and `AddDriver(mockDriver)` in the test's world,
where `config` is the test's level map. -/
def registryWorld : World (List String) :=
  AddDriver [MockDriver] testEnv (AddConfig { LogLevels := some 0 } testWorld)

/-- The context of `main.go`. -/
def mainContext : Context :=
  { TransactionID := "tx123", UserID := "user456",
    MetaData := [("ip", Value.str "192.168.1.1"), ("operation", Value.str "file upload")] }

/-- A history of registry calls: a driver is added, the config is replaced by the map of
`main.go`, and two more drivers are added. -/
def laterOps : List (RegistryOp (List String)) :=
  [RegistryOp.AddDriver [failingDriver] testEnv,
   RegistryOp.AddConfig { LogLevels := some 1 },
   RegistryOp.AddDriver [MockDriver, failingDriver] lastFirstEnv]

/-- The engine `main.go` derives: `GetOmniLoggerWithContext(*context)` on the registry. -/
def contextLogger : OmniLogger := (GetOmniLoggerWithContext mainContext registryWorld).1

/-- A second engine derived from the same registry, with an empty context. -/
def secondLogger : OmniLogger :=
  (GetOmniLoggerWithContext { TransactionID := "", UserID := "", MetaData := [] }
    (GetOmniLoggerWithContext mainContext registryWorld).2).1

/-- The world after both derivations. -/
def derivedWorld : World (List String) :=
  (GetOmniLoggerWithContext { TransactionID := "", UserID := "", MetaData := [] }
    (GetOmniLoggerWithContext mainContext registryWorld).2).2

/-- The world after `contextLogger.AddCustomLogLevel(TRACE, true)` as in `main.go`. -/
def traceWorld : World (List String) :=
  (contextLogger.AddCustomLogLevel "TRACE" true derivedWorld).2

/-! ## Call-site vocabulary -/

/-- The text `"<file>:<line> <function>"` for a frame. -/
def renderFrame (f : Frame) : String :=
  f.file ++ ":" ++ toString f.line ++ " " ++ f.function

/-- The stack traces carried by the records of the `FormatLog` calls in a call record. -/
def stackTraces : List Call → List String
  | [] => []
  | .FormatLog _ messageData _ _ :: rest => messageData.StackTrace :: stackTraces rest
  | .WriteLog _ _ _ :: rest => stackTraces rest

/-- An engine with every built-in level on (the level map of `main.go`) over the mock
driver, as `NewOmniLogger(config, nil, mockDriver)`. -/
def allLevelsLogger : OmniLogger :=
  NewOmniLogger { LogLevels := some 1 } none { arr := 0, len := 1, cap := 1 }

/-- The registry after `AddDriver(mockDriver)` and `AddConfig(config)` with the level map
of `main.go`. -/
def allLevelsRegistry : World (List String) :=
  AddConfig { LogLevels := some 1 } (AddDriver [MockDriver] testEnv testWorld)

/-! ## Invariant of the fan-out with its WaitGroup -/

/-- The calls a goroutine has seen return when it stands at a given program point. -/
def WorkerHist {σ : Type} (d : LoggerDriver σ) (i : Nat) (md : MessageData) :
    Worker → List Call → Prop
  | .callFormat, h => h = []
  | .inFormat, h => h = []
  | .reportFormat out err, h =>
    h = [Call.FormatLog i md out (some err)] ∧ ∃ s, (d.FormatLog md s).1 = (out, some err)
  | .callWrite out, h =>
    ∃ e, h = [Call.FormatLog i md out e] ∧ ∃ s, (d.FormatLog md s).1 = (out, e)
  | .inWrite out, h =>
    ∃ e, h = [Call.FormatLog i md out e] ∧ ∃ s, (d.FormatLog md s).1 = (out, e)
  | .reportWrite _, h => Served d i md h
  | .deferred, h => Served d i md h
  | .finished, h => Served d i md h

/-- What a started goroutine holds of the WaitGroup counter: 1 until its `wg.Done()`. -/
def Worker.live : Worker → Nat
  | .finished => 0
  | _ => 1

/-- Number of started goroutines that have not run `wg.Done()`. -/
def unfinished (ws : List Worker) : Nat :=
  (ws.map Worker.live).sum

/-- What `logWritter` has added to the counter for a goroutine it has not started yet. -/
def MainPc.pending : MainPc → Nat
  | .spawn _ => 1
  | _ => 0

/-- How many goroutines are started when `logWritter` stands at a program point. -/
def MainPc.position (n : Nat) : MainPc → List Worker → Prop
  | .loop k, ws => ws.length = k ∧ k ≤ n
  | .spawn k, ws => ws.length = k ∧ k < n
  | .wait, ws => ws.length = n
  | .returned, ws => ws.length = n

/-- Invariant of the fan-out: the goroutines started match the loop position, the counter
counts the goroutines that have not run `wg.Done()` plus the one about to be started, the
counter is zero once `logWritter` is past `wg.Wait()`, and the calls made since the start
are, driver by driver, the history of that driver's goroutine. -/
def ConcInv {σ : Type} (ds : List (LoggerDriver σ)) (md : MessageData) (base : List Call)
    (s : Conc σ) : Prop :=
  s.main.position ds.length s.workers ∧
  s.wg = unfinished s.workers + s.main.pending ∧
  (s.main = MainPc.returned → s.wg = 0) ∧
  ∃ new, s.world.calls = base ++ new ∧ (∀ c ∈ new, c.driver < ds.length) ∧
    ∀ i d, ds[i]? = some d →
      WorkerHist d i md (s.workers.getD i Worker.callFormat) (callsOf i new)

/-- Steps a goroutine still has to make, at most. -/
def Worker.weight : Worker → Nat
  | .callFormat => 7
  | .inFormat => 6
  | .reportFormat _ _ => 5
  | .callWrite _ => 4
  | .inWrite _ => 3
  | .reportWrite _ => 2
  | .deferred => 1
  | .finished => 0

/-- Steps `logWritter` itself still has to make over `n` drivers. -/
def MainPc.weight (n : Nat) : MainPc → Nat
  | .loop k => 2 * (n - k) + 2
  | .spawn k => 2 * (n - k) + 1
  | .wait => 1
  | .returned => 0

/-- Steps the whole fan-out still has to make, at most. -/
def concMeasure {σ : Type} (n : Nat) (s : Conc σ) : Nat :=
  s.main.weight n + (s.workers.map Worker.weight).sum + 7 * (n - s.workers.length)

/-! ## The coarse fan-out as a view of the fan-out with its WaitGroup -/

/-- The program point of `stepTask` a goroutine of the finer model stands at: an invocation
that has not returned counts as not made, the deferred `wg.Done()` as the end. -/
def absTask : Worker → Task
  | .callFormat => Task.callFormat
  | .inFormat => Task.callFormat
  | .reportFormat out err => Task.reportFormat out err
  | .callWrite out => Task.callWrite out
  | .inWrite out => Task.callWrite out
  | .reportWrite err => Task.reportWrite err
  | .deferred => Task.done
  | .finished => Task.done

/-- The task list of `fanOut` over `n` drivers seen in a state of the finer model; a
goroutine not started yet stands at its first call. -/
def absTasks (n : Nat) (ws : List Worker) : List Task :=
  (List.range n).map (fun i => absTask (ws.getD i Worker.callFormat))

/-- The position of `i` in a list of thread numbers, 0 when it is not there. -/
def positionOf (i : Nat) : List Nat → Nat
  | [] => 0
  | j :: rest => if j = i then 0 else positionOf i rest + 1

/-! ## Replaying a record of calls on the drivers -/

/-- The state behind the drivers after the recorded calls are made on the drivers `ds`, in
the recorded order, from the state `s`. It is `none` when a record names a position without
a driver or a result other than the one the driver's method returns at that point. -/
def replay {σ : Type} (ds : List (LoggerDriver σ)) : List Call → σ → Option σ
  | [], s => some s
  | Call.FormatLog i messageData out err :: rest, s =>
    match ds[i]? with
    | none => none
    | some d =>
      if (d.FormatLog messageData s).1 = (out, err) then
        replay ds rest (d.FormatLog messageData s).2
      else none
  | Call.WriteLog i message err :: rest, s =>
    match ds[i]? with
    | none => none
    | some d =>
      if (d.WriteLog message s).1 = err then replay ds rest (d.WriteLog message s).2
      else none

/-! # Properties -/

/-! ## Facts about maps -/

theorem mapIndex_mapAssign_same {α : Type} (m : GoMap α) (k : String) (v : α) :
    mapIndex (mapAssign m k v) k = some v := by
  simp [mapAssign, mapIndex]

theorem mapIndex_filter_ne {α : Type} (m : GoMap α) (k k1 : String) (h : k1 ≠ k) :
    mapIndex (m.filter (fun e => !decide (e.1 = k))) k1 = mapIndex m k1 := by
  induction m with
  | nil => rfl
  | cons e rest ih =>
    obtain ⟨k0, v0⟩ := e
    by_cases hk : k0 = k
    · subst hk
      have h1 : ¬ (k1 = k0) := h
      simp [List.filter, mapIndex, h1, ih]
    · by_cases hk1 : k1 = k0
      · simp [List.filter, mapIndex, hk, hk1]
      · simp [List.filter, mapIndex, hk, hk1, ih]

theorem mapIndex_mapAssign_other {α : Type} (m : GoMap α) (k k1 : String) (v : α) (h : k1 ≠ k) :
    mapIndex (mapAssign m k v) k1 = mapIndex m k1 := by
  unfold mapAssign
  rw [mapIndex, if_neg h]
  exact mapIndex_filter_ne m k k1 h

/-! ## The fan-out: frame, history and completion -/

theorem stepTask_frame {σ : Type} (d : LoggerDriver σ) (i : Nat) (md : MessageData) (t : Task)
    (w : World σ) :
    (stepTask d i md t w).2.maps = w.maps ∧ (stepTask d i md t w).2.arrays = w.arrays ∧
      (stepTask d i md t w).2.singleton = w.singleton := by
  cases t <;> simp only [stepTask] <;> (try split) <;> simp

theorem schedStep_frame {σ : Type} (sched : Nat → Nat) (ds : List (LoggerDriver σ))
    (md : MessageData) (t : Nat) (ts : List Task) (w : World σ) (r : List Task × World σ)
    (h : schedStep sched ds md t ts w = some r) :
    r.2.maps = w.maps ∧ r.2.arrays = w.arrays ∧ r.2.singleton = w.singleton := by
  unfold schedStep at h
  cases hp : pick sched t ts with
  | none => simp [hp] at h
  | some i =>
    cases hd : ds[i]? with
    | none => simp [hp, hd] at h
    | some d =>
      simp only [hp, hd, Option.some.injEq] at h
      subst h
      exact stepTask_frame d i md _ w

theorem runTasks_frame {σ : Type} (sched : Nat → Nat) (ds : List (LoggerDriver σ))
    (md : MessageData) (fuel : Nat) :
    ∀ (t : Nat) (ts : List Task) (w : World σ),
      (runTasks sched ds md fuel t ts w).2.maps = w.maps ∧
      (runTasks sched ds md fuel t ts w).2.arrays = w.arrays ∧
      (runTasks sched ds md fuel t ts w).2.singleton = w.singleton := by
  induction fuel with
  | zero => intro t ts w; simp [runTasks]
  | succ n ih =>
    intro t ts w
    cases hs : schedStep sched ds md t ts w with
    | none => simp [runTasks, hs]
    | some r =>
      have h1 := ih (t + 1) r.1 r.2
      have h2 := schedStep_frame sched ds md t ts w r hs
      simp only [runTasks, hs]
      exact ⟨h1.1.trans h2.1, h1.2.1.trans h2.2.1, h1.2.2.trans h2.2.2⟩

theorem stepTask_hist {σ : Type} (d : LoggerDriver σ) (i : Nat) (md : MessageData) (t : Task)
    (w : World σ) (h : List Call) (H : TaskHist d i md t h) :
    ∃ add, (stepTask d i md t w).2.calls = w.calls ++ add ∧ (∀ c ∈ add, c.driver = i) ∧
      TaskHist d i md (stepTask d i md t w).1 (h ++ add) := by
  cases t with
  | callFormat =>
    simp only [TaskHist] at H
    subst H
    refine ⟨[Call.FormatLog i md (d.FormatLog md w.ext).1.1 (d.FormatLog md w.ext).1.2], ?_, ?_, ?_⟩
    · simp only [stepTask]; split <;> rfl
    · intro c hc; simp at hc; subst hc; rfl
    · simp only [stepTask]
      split
      · rename_i err herr
        simp only [TaskHist, List.nil_append]
        refine ⟨by rw [herr], w.ext, ?_⟩
        rw [← herr]
      · rename_i herr
        simp only [TaskHist, List.nil_append]
        exact ⟨none, by rw [herr], w.ext, by rw [← herr]⟩
  | reportFormat out err =>
    simp only [TaskHist] at H
    refine ⟨[], by simp [stepTask], by simp, ?_⟩
    simp only [stepTask, TaskHist, List.append_nil]
    exact ⟨some err, H.1, H.2⟩
  | callWrite out =>
    simp only [TaskHist] at H
    obtain ⟨e, hh, hs⟩ := H
    subst hh
    refine ⟨[Call.WriteLog i out (d.WriteLog out w.ext).1], ?_, ?_, ?_⟩
    · simp only [stepTask]; split <;> rfl
    · intro c hc; simp at hc; subst hc; rfl
    · have hserved : Served d i md
          ([Call.FormatLog i md out e] ++ [Call.WriteLog i out (d.WriteLog out w.ext).1]) :=
        ⟨out, e, (d.WriteLog out w.ext).1, rfl, hs, w.ext, rfl⟩
      simp only [stepTask]
      split <;> exact hserved
  | reportWrite err =>
    simp only [TaskHist] at H
    refine ⟨[], by simp [stepTask], by simp, ?_⟩
    simpa [stepTask, TaskHist] using H
  | done =>
    simp only [TaskHist] at H
    refine ⟨[], by simp [stepTask], by simp, ?_⟩
    simpa [stepTask, TaskHist] using H

theorem callsOf_append (i : Nat) (a b : List Call) :
    callsOf i (a ++ b) = callsOf i a ++ callsOf i b := by
  simp [callsOf]

theorem callsOf_same (i : Nat) (add : List Call) (h : ∀ c ∈ add, c.driver = i) :
    callsOf i add = add := by
  unfold callsOf
  rw [List.filter_eq_self]
  intro c hc
  simp [h c hc]

theorem callsOf_other (i j : Nat) (add : List Call) (h : ∀ c ∈ add, c.driver = i) (hij : j ≠ i) :
    callsOf j add = [] := by
  unfold callsOf
  rw [List.filter_eq_nil_iff]
  intro c hc
  simp [h c hc, Ne.symm hij]

theorem pick_spec (sched : Nat → Nat) (t : Nat) (ts : List Task) (i : Nat)
    (h : pick sched t ts = some i) : i < ts.length ∧ (ts.getD i Task.done).isDone = false := by
  unfold pick at h
  cases hr : runnable ts with
  | nil => simp [hr] at h
  | cons i0 rest =>
    simp only [hr, Option.some.injEq] at h
    have hlt : sched t % (rest.length + 1) < (i0 :: rest).length := by
      simp only [List.length_cons]
      exact Nat.mod_lt _ (Nat.succ_pos _)
    have hmem : i ∈ runnable ts := by
      rw [hr, ← h, List.getD_eq_getElem _ _ hlt]
      exact List.getElem_mem hlt
    unfold runnable at hmem
    rw [List.mem_filter, List.mem_range] at hmem
    refine ⟨hmem.1, ?_⟩
    simpa using hmem.2

theorem pick_none (sched : Nat → Nat) (t : Nat) (ts : List Task)
    (h : pick sched t ts = none) : ∀ i, i < ts.length → (ts.getD i Task.done).isDone = true := by
  unfold pick at h
  cases hr : runnable ts with
  | cons i0 rest => simp [hr] at h
  | nil =>
    intro i hi
    by_contra hnd
    have hmem : i ∈ runnable ts := by
      unfold runnable
      rw [List.mem_filter, List.mem_range]
      exact ⟨hi, by simpa using hnd⟩
    rw [hr] at hmem
    exact List.not_mem_nil _ hmem

theorem schedStep_spec {σ : Type} (sched : Nat → Nat) (ds : List (LoggerDriver σ))
    (md : MessageData) (t : Nat) (ts : List Task) (w : World σ) (r : List Task × World σ)
    (h : schedStep sched ds md t ts w = some r) :
    ∃ i d, i < ts.length ∧ (ts.getD i Task.done).isDone = false ∧ ds[i]? = some d ∧
      r = (ts.set i (stepTask d i md (ts.getD i Task.done) w).1,
           (stepTask d i md (ts.getD i Task.done) w).2) := by
  unfold schedStep at h
  cases hp : pick sched t ts with
  | none => simp [hp] at h
  | some i =>
    cases hd : ds[i]? with
    | none => simp [hp, hd] at h
    | some d =>
      simp only [hp, hd, Option.some.injEq] at h
      have hs := pick_spec sched t ts i hp
      exact ⟨i, d, hs.1, hs.2, hd, h.symm⟩

theorem schedStep_none {σ : Type} (sched : Nat → Nat) (ds : List (LoggerDriver σ))
    (md : MessageData) (t : Nat) (ts : List Task) (w : World σ) (hlen : ts.length = ds.length)
    (h : schedStep sched ds md t ts w = none) :
    ∀ i, i < ts.length → (ts.getD i Task.done).isDone = true := by
  unfold schedStep at h
  cases hp : pick sched t ts with
  | none => exact pick_none sched t ts hp
  | some i =>
    have hs := pick_spec sched t ts i hp
    have hi : i < ds.length := hlen ▸ hs.1
    simp [hp, List.getElem?_eq_getElem hi] at h

theorem schedStep_inv {σ : Type} (sched : Nat → Nat) (ds : List (LoggerDriver σ))
    (md : MessageData) (base : List Call) (t : Nat) (ts : List Task) (w : World σ)
    (r : List Task × World σ) (h : schedStep sched ds md t ts w = some r)
    (inv : FanInv ds md base ts w) : FanInv ds md base r.1 r.2 := by
  obtain ⟨i, d, hi, _, hd, hr⟩ := schedStep_spec sched ds md t ts w r h
  obtain ⟨hlen, new, hcalls, hbound, hhist⟩ := inv
  obtain ⟨add, hadd, hdrv, hnext⟩ :=
    stepTask_hist d i md (ts.getD i Task.done) w (callsOf i new) (hhist i d hd)
  subst hr
  refine ⟨by simpa using hlen, new ++ add, ?_, ?_, ?_⟩
  · simp only []
    rw [hadd, hcalls, List.append_assoc]
  · intro c hc
    rcases List.mem_append.mp hc with hc | hc
    · exact hbound c hc
    · rw [hdrv c hc, ← hlen]; exact hi
  · intro j dj hj
    by_cases hji : j = i
    · subst hji
      have hdd : dj = d := by rw [hd] at hj; exact (Option.some.inj hj).symm
      subst hdd
      have hget : (ts.set j (stepTask dj j md (ts.getD j Task.done) w).1).getD j Task.done
          = (stepTask dj j md (ts.getD j Task.done) w).1 := by
        simp [List.getElem?_set_self hi]
      simp only []
      rw [hget, callsOf_append, callsOf_same j add hdrv]
      exact hnext
    · have hget : (ts.set i (stepTask d i md (ts.getD i Task.done) w).1).getD j Task.done
          = ts.getD j Task.done := by
        simp [List.getElem?_set_ne (Ne.symm hji)]
      simp only []
      rw [hget, callsOf_append, callsOf_other i j add hdrv hji, List.append_nil]
      exact hhist j dj hj

theorem runTasks_inv {σ : Type} (sched : Nat → Nat) (ds : List (LoggerDriver σ))
    (md : MessageData) (base : List Call) (fuel : Nat) :
    ∀ (t : Nat) (ts : List Task) (w : World σ), FanInv ds md base ts w →
      FanInv ds md base (runTasks sched ds md fuel t ts w).1 (runTasks sched ds md fuel t ts w).2 := by
  induction fuel with
  | zero => intro t ts w inv; simpa [runTasks] using inv
  | succ n ih =>
    intro t ts w inv
    cases hs : schedStep sched ds md t ts w with
    | none => simpa [runTasks, hs] using inv
    | some r =>
      simp only [runTasks, hs]
      exact ih (t + 1) r.1 r.2 (schedStep_inv sched ds md base t ts w r hs inv)

theorem stepTask_weight {σ : Type} (d : LoggerDriver σ) (i : Nat) (md : MessageData) (t : Task)
    (w : World σ) (h : t.isDone = false) : (stepTask d i md t w).1.weight < t.weight := by
  cases t <;> simp only [stepTask] <;> (try split) <;> simp [Task.weight, Task.isDone] at h ⊢

theorem remaining_set (ts : List Task) (i : Nat) (t1 : Task) (hi : i < ts.length)
    (h : t1.weight < (ts.getD i Task.done).weight) :
    remaining (ts.set i t1) < remaining ts := by
  induction ts generalizing i with
  | nil => simp at hi
  | cons t0 rest ih =>
    cases i with
    | zero =>
      simp only [List.getD_cons_zero] at h
      simp only [remaining, List.set_cons_zero, List.map_cons, List.sum_cons]
      omega
    | succ j =>
      simp only [List.getD_cons_succ] at h
      have hj : j < rest.length := by simpa using hi
      have := ih j hj h
      simp only [remaining, List.set_cons_succ, List.map_cons, List.sum_cons] at this ⊢
      omega

theorem remaining_zero (ts : List Task) (h : remaining ts = 0) : ∀ t ∈ ts, t = Task.done := by
  induction ts with
  | nil => simp
  | cons t0 rest ih =>
    simp only [remaining, List.map_cons, List.sum_cons] at h
    intro t ht
    rcases List.mem_cons.mp ht with ht | ht
    · subst ht
      cases t <;> simp [Task.weight] at h ⊢
    · exact ih (by simp only [remaining]; omega) t ht

theorem all_done_of_isDone (ts : List Task)
    (h : ∀ i, i < ts.length → (ts.getD i Task.done).isDone = true) : ∀ t ∈ ts, t = Task.done := by
  intro t ht
  obtain ⟨i, hi, hget⟩ := List.getElem_of_mem ht
  have := h i hi
  rw [List.getD_eq_getElem _ _ hi, hget] at this
  cases t <;> simp [Task.isDone] at this ⊢

theorem runTasks_done {σ : Type} (sched : Nat → Nat) (ds : List (LoggerDriver σ))
    (md : MessageData) (fuel : Nat) :
    ∀ (t : Nat) (ts : List Task) (w : World σ), ts.length = ds.length → remaining ts ≤ fuel →
      ∀ x ∈ (runTasks sched ds md fuel t ts w).1, x = Task.done := by
  induction fuel with
  | zero =>
    intro t ts w _ hrem
    simp only [runTasks]
    exact remaining_zero ts (by omega)
  | succ n ih =>
    intro t ts w hlen hrem
    cases hs : schedStep sched ds md t ts w with
    | none =>
      simp only [runTasks, hs]
      exact all_done_of_isDone ts (schedStep_none sched ds md t ts w hlen hs)
    | some r =>
      simp only [runTasks, hs]
      obtain ⟨i, d, hi, hnd, _, hr⟩ := schedStep_spec sched ds md t ts w r hs
      have hlt := remaining_set ts i (stepTask d i md (ts.getD i Task.done) w).1 hi
        (stepTask_weight d i md _ w hnd)
      subst hr
      exact ih (t + 1) _ _ (by simpa using hlen) (by simp only []; omega)

theorem remaining_start {σ : Type} (ds : List (LoggerDriver σ)) :
    remaining (ds.map (fun _ => Task.callFormat)) = 4 * ds.length := by
  induction ds with
  | nil => rfl
  | cons d rest ih =>
    simp only [remaining, List.map_cons, List.sum_cons, List.length_cons, Task.weight] at ih ⊢
    omega

theorem fanInv_start {σ : Type} (ds : List (LoggerDriver σ)) (md : MessageData) (w : World σ) :
    FanInv ds md w.calls (ds.map (fun _ => Task.callFormat)) w := by
  refine ⟨by simp, [], by simp, by simp, ?_⟩
  intro i d hd
  have hi : i < ds.length := (List.getElem?_eq_some.mp hd).1
  have hget : (ds.map (fun _ => Task.callFormat)).getD i Task.done = Task.callFormat := by
    rw [List.getD_eq_getElem _ _ (by simpa using hi)]
    simp
  rw [hget]
  simp [TaskHist, callsOf]

/-- What the fan-out does, for every scheduler: all goroutines finish, only the state behind
the drivers and the two records change, and every driver position is served once. -/
theorem fanOut_spec {σ : Type} (sched : Nat → Nat) (ds : List (LoggerDriver σ))
    (md : MessageData) (w : World σ) :
    (∀ x ∈ (fanOut sched ds md w).1, x = Task.done) ∧
    (fanOut sched ds md w).2.maps = w.maps ∧ (fanOut sched ds md w).2.arrays = w.arrays ∧
    (fanOut sched ds md w).2.singleton = w.singleton ∧
    ∃ new, (fanOut sched ds md w).2.calls = w.calls ++ new ∧
      (∀ c ∈ new, c.driver < ds.length) ∧
      ∀ i d, ds[i]? = some d → Served d i md (callsOf i new) := by
  have hdone := runTasks_done sched ds md (4 * ds.length) 0 (ds.map (fun _ => Task.callFormat)) w
    (by simp) (by rw [remaining_start])
  have hframe := runTasks_frame sched ds md (4 * ds.length) 0 (ds.map (fun _ => Task.callFormat)) w
  obtain ⟨_, new, hcalls, hbound, hhist⟩ :=
    runTasks_inv sched ds md w.calls (4 * ds.length) 0 (ds.map (fun _ => Task.callFormat)) w
      (fanInv_start ds md w)
  refine ⟨hdone, hframe.1, hframe.2.1, hframe.2.2, new, hcalls, hbound, ?_⟩
  intro i d hd
  have hh := hhist i d hd
  have hget : (runTasks sched ds md (4 * ds.length) 0 (ds.map (fun _ => Task.callFormat)) w).1.getD i
      Task.done = Task.done := by
    by_cases hi : i < (runTasks sched ds md (4 * ds.length) 0
        (ds.map (fun _ => Task.callFormat)) w).1.length
    · rw [List.getD_eq_getElem _ _ hi]
      exact hdone _ (List.getElem_mem hi)
    · exact List.getD_eq_default _ _ (Nat.le_of_not_lt hi)
  rw [hget] at hh
  exact hh

theorem lookupLevel_enabled {σ : Type} (l : OmniLogger) (w : World σ) (level : LogLevel)
    (h : mapIndex (derefMap w l.config.LogLevels) level = some true) :
    l.lookupLevel w level = (true, true) := by
  simp [OmniLogger.lookupLevel, h]

theorem lookupLevel_disabled {σ : Type} (l : OmniLogger) (w : World σ) (level : LogLevel)
    (h : mapIndex (derefMap w l.config.LogLevels) level ≠ some true) :
    (l.lookupLevel w level).1 = false := by
  unfold OmniLogger.lookupLevel
  cases hm : mapIndex (derefMap w l.config.LogLevels) level with
  | none => rfl
  | some b =>
    cases b with
    | false => rfl
    | true => exact absurd hm h

theorem logWritter_disabled {σ : Type} (l : OmniLogger) (level : LogLevel) (message : String)
    (env : Env) (cs : List Frame) (w : World σ)
    (h : mapIndex (derefMap w l.config.LogLevels) level ≠ some true) :
    l.logWritter level message env cs w = w := by
  simp [OmniLogger.logWritter, lookupLevel_disabled l w level h]

theorem logWritter_enabled {σ : Type} (l : OmniLogger) (level : LogLevel) (message : String)
    (env : Env) (cs : List Frame) (w : World σ)
    (h : mapIndex (derefMap w l.config.LogLevels) level = some true) :
    l.logWritter level message env cs w =
      (fanOut env.sched (readSlice w l.drivers)
        { Level := level, Message := message,
          StackTrace := l.captureStackTrace
            (⟨"logger_core.go", 45, "omnilogger.(*OmniLogger).logWritter"⟩ :: cs),
          Context := l.context, Timestamp := env.now } w).2 := by
  simp [OmniLogger.logWritter, lookupLevel_enabled l w level h, OmniLogger.levelToString]

/-- Dispatch at an enabled level: heap and singleton untouched, every driver position of the
engine served once with the record of the call. -/
theorem logWritter_serves {σ : Type} (l : OmniLogger) (level : LogLevel) (message : String)
    (env : Env) (cs : List Frame) (w : World σ)
    (h : mapIndex (derefMap w l.config.LogLevels) level = some true) :
    (l.logWritter level message env cs w).maps = w.maps ∧
    (l.logWritter level message env cs w).arrays = w.arrays ∧
    (l.logWritter level message env cs w).singleton = w.singleton ∧
    ∃ new, (l.logWritter level message env cs w).calls = w.calls ++ new ∧
      (∀ c ∈ new, c.driver < (readSlice w l.drivers).length) ∧
      ∀ i d, (readSlice w l.drivers)[i]? = some d →
        Served d i (recordOf l level message env cs) (callsOf i new) := by
  rw [logWritter_enabled l level message env cs w h]
  exact (fanOut_spec env.sched (readSlice w l.drivers) _ w).2

/-! ## Level gating -/

/-- C1: a log call at a level that is absent from the level-enable set, or mapped to false,
returns with the world as it was: no `FormatLog` and no `WriteLog` call is made on any
driver. It holds for `Log` and for the `Debug`/`Info`/`Warn`/`Error` wrapper of the level;
absence and `false` give the same result, and the single-value gate of
`OmniLogger/logger_core.go` rejects the level too. -/
theorem disabled_level_reaches_no_driver {σ : Type} (l : OmniLogger) (level : LogLevel)
    (message : String) (env : Env) (cs : List Frame) (w : World σ)
    (h : mapIndex (derefMap w l.config.LogLevels) level = none ∨
         mapIndex (derefMap w l.config.LogLevels) level = some false) :
    l.Log level message env cs w = (Outcome.returned, w) ∧
    (l.Log level message env cs w).2.calls = w.calls ∧
    (level = DEBUG → l.Debug message env cs w = (Outcome.returned, w)) ∧
    (level = INFO → l.Info message env cs w = (Outcome.returned, w)) ∧
    (level = WARN → l.Warn message env cs w = (Outcome.returned, w)) ∧
    (level = ERROR → l.Error message env cs w = (Outcome.returned, w)) ∧
    l.gateSingleValue w level = false := by
  have hne : mapIndex (derefMap w l.config.LogLevels) level ≠ some true := by
    rcases h with h | h <;> simp [h]
  refine ⟨?_, ?_, ?_, ?_, ?_, ?_, ?_⟩
  · simp [OmniLogger.Log, logWritter_disabled l level message env _ w hne]
  · simp [OmniLogger.Log, logWritter_disabled l level message env _ w hne]
  · intro hl; subst hl
    simp [OmniLogger.Debug, logWritter_disabled l DEBUG message env _ w hne]
  · intro hl; subst hl
    simp [OmniLogger.Info, logWritter_disabled l INFO message env _ w hne]
  · intro hl; subst hl
    simp [OmniLogger.Warn, logWritter_disabled l WARN message env _ w hne]
  · intro hl; subst hl
    simp [OmniLogger.Error, logWritter_disabled l ERROR message env _ w hne]
  · exact lookupLevel_disabled l w level hne

/-- Witness for C1: in the test's world INFO is mapped to false and TRACE is absent. -/
theorem disabled_level_reaches_no_driver_witness :
    (mapIndex (derefMap testWorld testLogger.config.LogLevels) "INFO" = some false ∧
     mapIndex (derefMap testWorld testLogger.config.LogLevels) "TRACE" = none) ∧
    testLogger.Log "INFO" "This is an info message" testEnv testStack testWorld
      = (Outcome.returned, testWorld) ∧
    testLogger.Log "TRACE" "trace" testEnv testStack testWorld = (Outcome.returned, testWorld) :=
  ⟨⟨by decide, by decide⟩,
   (disabled_level_reaches_no_driver testLogger "INFO" "This is an info message" testEnv
      testStack testWorld (Or.inr (by decide))).1,
   (disabled_level_reaches_no_driver testLogger "TRACE" "trace" testEnv
      testStack testWorld (Or.inl (by decide))).1⟩

theorem served_counts {σ : Type} (d : LoggerDriver σ) (i : Nat) (md : MessageData)
    (h : List Call) (hs : Served d i md h) :
    (h.filter Call.isFormat).length = 1 ∧ (h.filter Call.isWrite).length = 1 := by
  obtain ⟨out, e, r, hh, _, _⟩ := hs
  subst hh
  simp [List.filter, Call.isFormat, Call.isWrite]

theorem served_record {σ : Type} (d : LoggerDriver σ) (i : Nat) (md : MessageData)
    (h : List Call) (hs : Served d i md h) (j : Nat) (m : MessageData) (out : String)
    (e : Option String) (hmem : Call.FormatLog j m out e ∈ h) : m = md := by
  obtain ⟨out1, e1, r, hh, _, _⟩ := hs
  subst hh
  simp at hmem
  exact hmem.2.1

theorem replay_append {σ : Type} (ds : List (LoggerDriver σ)) (a b : List Call) :
    ∀ (s : σ), replay ds (a ++ b) s = (replay ds a s).bind (replay ds b) := by
  induction a with
  | nil => intro s; rfl
  | cons c rest ih =>
    intro s
    cases c with
    | FormatLog i md out err =>
      simp only [List.cons_append, replay]
      cases ds[i]? with
      | none => rfl
      | some d =>
        simp only []
        split
        · exact ih _
        · rfl
    | WriteLog i m err =>
      simp only [List.cons_append, replay]
      cases ds[i]? with
      | none => rfl
      | some d =>
        simp only []
        split
        · exact ih _
        · rfl

/-- What a goroutine step adds to the record is what it did to the state behind the drivers:
replaying the added calls on the drivers gives the new state. -/
theorem stepTask_replay {σ : Type} (ds : List (LoggerDriver σ)) (d : LoggerDriver σ) (i : Nat)
    (md : MessageData) (t : Task) (w : World σ) (hd : ds[i]? = some d) :
    ∃ add, (stepTask d i md t w).2.calls = w.calls ++ add ∧
      replay ds add w.ext = some (stepTask d i md t w).2.ext := by
  cases t with
  | callFormat =>
    refine ⟨[Call.FormatLog i md (d.FormatLog md w.ext).1.1 (d.FormatLog md w.ext).1.2], ?_, ?_⟩
    · simp only [stepTask]; split <;> rfl
    · have hext : (stepTask d i md Task.callFormat w).2.ext = (d.FormatLog md w.ext).2 := by
        simp only [stepTask]; split <;> rfl
      rw [hext]
      simp [replay, hd]
  | reportFormat out err => exact ⟨[], by simp [stepTask], by simp [stepTask, replay]⟩
  | callWrite out =>
    refine ⟨[Call.WriteLog i out (d.WriteLog out w.ext).1], ?_, ?_⟩
    · simp only [stepTask]; split <;> rfl
    · have hext : (stepTask d i md (Task.callWrite out) w).2.ext = (d.WriteLog out w.ext).2 := by
        simp only [stepTask]; split <;> rfl
      rw [hext]
      simp [replay, hd]
  | reportWrite err => exact ⟨[], by simp [stepTask], by simp [stepTask, replay]⟩
  | done => exact ⟨[], by simp [stepTask], by simp [stepTask, replay]⟩

theorem runTasks_replay {σ : Type} (sched : Nat → Nat) (ds : List (LoggerDriver σ))
    (md : MessageData) (fuel : Nat) :
    ∀ (t : Nat) (ts : List Task) (w : World σ),
      ∃ add, (runTasks sched ds md fuel t ts w).2.calls = w.calls ++ add ∧
        replay ds add w.ext = some (runTasks sched ds md fuel t ts w).2.ext := by
  induction fuel with
  | zero => intro t ts w; exact ⟨[], by simp [runTasks], by simp [runTasks, replay]⟩
  | succ n ih =>
    intro t ts w
    cases hs : schedStep sched ds md t ts w with
    | none => exact ⟨[], by simp [runTasks, hs], by simp [runTasks, hs, replay]⟩
    | some r =>
      obtain ⟨i, d, _, _, hd, hr⟩ := schedStep_spec sched ds md t ts w r hs
      obtain ⟨add1, hc1, hr1⟩ := stepTask_replay ds d i md (ts.getD i Task.done) w hd
      obtain ⟨add2, hc2, hr2⟩ := ih (t + 1) r.1 r.2
      have hw : r.2 = (stepTask d i md (ts.getD i Task.done) w).2 := by rw [hr]
      rw [hw] at hc2 hr2
      simp only [runTasks, hs]
      rw [hw]
      refine ⟨add1 ++ add2, ?_, ?_⟩
      · rw [hc2, hc1, List.append_assoc]
      · rw [replay_append, hr1]
        exact hr2

/-- Dispatch at an enabled level, tied to the drivers: the calls added to the record are, for
every driver of the engine, its `FormatLog` on the record of the call and then its `WriteLog`
on what that returned, and making exactly these calls on the drivers, in the recorded order,
turns the state behind the drivers into the one the dispatch leaves. -/
theorem logWritter_replay {σ : Type} (l : OmniLogger) (level : LogLevel) (message : String)
    (env : Env) (cs : List Frame) (w : World σ)
    (h : mapIndex (derefMap w l.config.LogLevels) level = some true) :
    ∃ new, (l.logWritter level message env cs w).calls = w.calls ++ new ∧
      (∀ c ∈ new, c.driver < (readSlice w l.drivers).length) ∧
      (∀ i d, (readSlice w l.drivers)[i]? = some d →
        Served d i (recordOf l level message env cs) (callsOf i new)) ∧
      replay (readSlice w l.drivers) new w.ext = some (l.logWritter level message env cs w).ext := by
  obtain ⟨_, _, _, new, hcalls, hbound, hserved⟩ := logWritter_serves l level message env cs w h
  refine ⟨new, hcalls, hbound, hserved, ?_⟩
  have hen := logWritter_enabled l level message env cs w h
  obtain ⟨add, hc, hr⟩ := runTasks_replay env.sched (readSlice w l.drivers)
    (recordOf l level message env cs) (4 * (readSlice w l.drivers).length) 0
    ((readSlice w l.drivers).map (fun _ => Task.callFormat)) w
  have hfan : l.logWritter level message env cs w
      = (runTasks env.sched (readSlice w l.drivers) (recordOf l level message env cs)
          (4 * (readSlice w l.drivers).length) 0
          ((readSlice w l.drivers).map (fun _ => Task.callFormat)) w).2 := hen
  rw [← hfan] at hc hr
  have hnew : new = add := by
    rw [hcalls] at hc
    exact List.append_cancel_left hc
  rw [hnew]
  exact hr

/-- C2: let `ds` be the drivers of the engine, the first `len` slots of the backing array
of its driver slice. A log call at a level mapped to true returns normally, and the calls it
adds to the record are, for every position `i` of `ds`, exactly one `FormatLog` followed by
one `WriteLog`, on no other position: the `FormatLog` is on the one record of the call (whose
level, message and context are those of the call) and returned what the driver `ds[i]`
returns on it, the `WriteLog` is on that output and returned what the driver returns on it.
These calls are really made: replaying them on `ds` in the recorded order turns the state
behind the drivers into the state the call leaves. The world returned is that of the fan-out
on this record, in which every goroutine has run to its end. Drivers are arbitrary, so this
includes drivers whose `FormatLog` or `WriteLog` return errors, and it holds for every
scheduler. -/
theorem enabled_level_serves_every_driver {σ : Type} (l : OmniLogger) (level : LogLevel)
    (message : String) (env : Env) (cs : List Frame) (w : World σ)
    (ds : List (LoggerDriver σ))
    (h : mapIndex (derefMap w l.config.LogLevels) level = some true)
    (hds : ds = ((w.arrays[l.drivers.arr]?).getD []).take l.drivers.len) :
    (l.Log level message env cs w).1 = Outcome.returned ∧
    ∃ md new,
      md.Level = level ∧ md.Message = message ∧ md.Context = l.context ∧
      (l.Log level message env cs w).2.calls = w.calls ++ new ∧
      (∀ c ∈ new, c.driver < ds.length) ∧
      (∀ i, i < ds.length →
        ((callsOf i new).filter Call.isFormat).length = 1 ∧
        ((callsOf i new).filter Call.isWrite).length = 1) ∧
      (∀ j m out e, Call.FormatLog j m out e ∈ new → m = md) ∧
      (∀ i d, ds[i]? = some d →
        ∃ out e r,
          callsOf i new = [Call.FormatLog i md out e, Call.WriteLog i out r] ∧
          (∃ s, (d.FormatLog md s).1 = (out, e)) ∧ (∃ s, (d.WriteLog out s).1 = r)) ∧
      replay ds new w.ext = some (l.Log level message env cs w).2.ext ∧
      (l.Log level message env cs w).2 = (fanOut env.sched ds md w).2 ∧
      (∀ x ∈ (fanOut env.sched ds md w).1, x = Task.done) := by
  have hread : readSlice w l.drivers = ds := by rw [hds]; rfl
  obtain ⟨new, hcalls, hbound, hserved, hreplay⟩ :=
    logWritter_replay l level message env
      (⟨"logger_core.go", 118, "omnilogger.(*OmniLogger).Log"⟩ :: cs) w h
  rw [hread] at hbound hserved hreplay
  refine ⟨rfl, recordOf l level message env
      (⟨"logger_core.go", 118, "omnilogger.(*OmniLogger).Log"⟩ :: cs), new, rfl, rfl, rfl,
    hcalls, hbound, ?_, ?_, hserved, hreplay, ?_, ?_⟩
  · intro i hi
    exact served_counts _ i _ _ (hserved i _ (List.getElem?_eq_getElem hi))
  · intro j m out e hmem
    have hj : j < ds.length := hbound _ hmem
    have hin : Call.FormatLog j m out e ∈ callsOf j new := by
      unfold callsOf
      rw [List.mem_filter]
      exact ⟨hmem, by simp [Call.driver]⟩
    exact served_record _ j _ _ (hserved j _ (List.getElem?_eq_getElem hj)) j m out e hin
  · rw [← hread]
    exact logWritter_enabled l level message env _ w h
  · rw [← hread]
    exact (fanOut_spec env.sched (readSlice w l.drivers) _ w).1

/-- Witness for C2: ERROR is enabled in the test's world; the engine holds a driver whose
two methods fail, followed by the mock driver. The call leaves four calls in the record, two
per driver, and both drivers' writes in the state behind them. -/
theorem enabled_level_serves_every_driver_witness :
    (mapIndex (derefMap testWorld failingLogger.config.LogLevels) ERROR = some true ∧
     [failingDriver, MockDriver]
       = ((testWorld.arrays[failingLogger.drivers.arr]?).getD []).take failingLogger.drivers.len) ∧
    ((failingLogger.Log ERROR "This is an error message" testEnv testStack testWorld).1
      = Outcome.returned ∧
     ∃ md new,
      md.Level = ERROR ∧ md.Message = "This is an error message" ∧
      md.Context = failingLogger.context ∧
      (failingLogger.Log ERROR "This is an error message" testEnv testStack testWorld).2.calls
        = testWorld.calls ++ new ∧
      (∀ c ∈ new, c.driver < [failingDriver, MockDriver].length) ∧
      (∀ i, i < [failingDriver, MockDriver].length →
        ((callsOf i new).filter Call.isFormat).length = 1 ∧
        ((callsOf i new).filter Call.isWrite).length = 1) ∧
      (∀ j m out e, Call.FormatLog j m out e ∈ new → m = md) ∧
      (∀ i d, [failingDriver, MockDriver][i]? = some d →
        ∃ out e r,
          callsOf i new = [Call.FormatLog i md out e, Call.WriteLog i out r] ∧
          (∃ s, (d.FormatLog md s).1 = (out, e)) ∧ (∃ s, (d.WriteLog out s).1 = r)) ∧
      replay [failingDriver, MockDriver] new testWorld.ext
        = some (failingLogger.Log ERROR "This is an error message" testEnv testStack
            testWorld).2.ext ∧
      (failingLogger.Log ERROR "This is an error message" testEnv testStack testWorld).2
        = (fanOut testEnv.sched [failingDriver, MockDriver] md testWorld).2 ∧
      (∀ x ∈ (fanOut testEnv.sched [failingDriver, MockDriver] md testWorld).1,
        x = Task.done)) ∧
    (failingLogger.Log ERROR "This is an error message" testEnv testStack testWorld).2.calls
      = [Call.FormatLog 0
           (recordOf failingLogger ERROR "This is an error message" testEnv
             (⟨"logger_core.go", 118, "omnilogger.(*OmniLogger).Log"⟩ :: testStack))
           "" (some "cannot format"),
         Call.WriteLog 0 "" (some "disk full"),
         Call.FormatLog 1
           (recordOf failingLogger ERROR "This is an error message" testEnv
             (⟨"logger_core.go", 118, "omnilogger.(*OmniLogger).Log"⟩ :: testStack))
           "This is an error message" none,
         Call.WriteLog 1 "This is an error message" none] ∧
    (failingLogger.Log ERROR "This is an error message" testEnv testStack testWorld).2.ext
      = ["", "This is an error message"] ∧
    (failingLogger.Log ERROR "This is an error message" lastFirstEnv testStack testWorld).2.ext
      = ["This is an error message", ""] :=
  ⟨⟨by decide, rfl⟩,
   enabled_level_serves_every_driver failingLogger ERROR "This is an error message" testEnv
     testStack testWorld [failingDriver, MockDriver] (by decide) rfl,
   by decide, by decide, by decide⟩

/-! ## The recording driver of the test -/

theorem fanOut_mock (sched : Nat → Nat) (md : MessageData) (w : World (List String)) :
    (fanOut sched [MockDriver] md w).2.ext = w.ext ++ [md.Message] := by
  simp [fanOut, runTasks, schedStep, pick, runnable, stepTask, MockDriver, Task.isDone,
    List.range, List.range.loop, Nat.mod_one]

theorem logWritter_mock (l : OmniLogger) (level : LogLevel) (message : String) (env : Env)
    (cs : List Frame) (w : World (List String)) (h : readSlice w l.drivers = [MockDriver]) :
    (l.logWritter level message env cs w).maps = w.maps ∧
    (l.logWritter level message env cs w).arrays = w.arrays ∧
    (l.logWritter level message env cs w).ext =
      if mapIndex (derefMap w l.config.LogLevels) level = some true then w.ext ++ [message]
      else w.ext := by
  by_cases hen : mapIndex (derefMap w l.config.LogLevels) level = some true
  · have hs := logWritter_serves l level message env cs w hen
    refine ⟨hs.1, hs.2.1, ?_⟩
    rw [if_pos hen, logWritter_enabled l level message env cs w hen, h, fanOut_mock]
  · rw [if_neg hen, logWritter_disabled l level message env cs w hen]
    exact ⟨rfl, rfl, rfl⟩

theorem run_mock (l : OmniLogger) (c : LogCall) (w : World (List String))
    (h : readSlice w l.drivers = [MockDriver]) :
    (c.run l w).2.maps = w.maps ∧ (c.run l w).2.arrays = w.arrays ∧
    (c.run l w).2.ext =
      if mapIndex (derefMap w l.config.LogLevels) c.entry.level = some true
      then w.ext ++ [c.message] else w.ext := by
  unfold LogCall.run
  cases c.entry with
  | Log level => exact logWritter_mock l level c.message c.env _ w h
  | Debug => exact logWritter_mock l DEBUG c.message c.env _ w h
  | Info => exact logWritter_mock l INFO c.message c.env _ w h
  | Warn => exact logWritter_mock l WARN c.message c.env _ w h
  | Error => exact logWritter_mock l ERROR c.message c.env _ w h

theorem logAll_mock (l : OmniLogger) (calls : List LogCall) :
    ∀ (w : World (List String)), readSlice w l.drivers = [MockDriver] →
      (logAll l calls w).ext = w.ext ++
        ((calls.filter (fun c =>
            decide (mapIndex (derefMap w l.config.LogLevels) c.entry.level = some true))).map
          (fun c => c.message)) := by
  induction calls with
  | nil => intro w _; simp [logAll]
  | cons c rest ih =>
    intro w h
    obtain ⟨hmaps, harrays, hext⟩ := run_mock l c w h
    have hread : readSlice (c.run l w).2 l.drivers = [MockDriver] := by
      simp only [readSlice, harrays]
      exact h
    have hderef : derefMap (c.run l w).2 l.config.LogLevels = derefMap w l.config.LogLevels := by
      cases hl : l.config.LogLevels <;> simp [derefMap, hmaps]
    have hstep := ih (c.run l w).2 hread
    rw [hderef] at hstep
    simp only [logAll]
    rw [hstep, hext]
    by_cases hen : mapIndex (derefMap w l.config.LogLevels) c.entry.level = some true
    · simp [hen, List.filter]
    · simp [hen, List.filter]

/-- C3: log statements made one after another on an engine whose only driver is the
recording driver (`FormatLog` returns the message, `WriteLog` appends to `messages`) leave in
`messages` what was there before followed by the messages of the statements whose level is
mapped to true, in submission order. With the test's enable set and the statements Debug,
Info, Error, started from an empty list, the recorded list is the debug message and then
the error message, for every scheduler and call stack. -/
theorem recording_driver_keeps_enabled_in_order (l : OmniLogger) (calls : List LogCall)
    (w : World (List String)) (h : readSlice w l.drivers = [MockDriver]) :
    (logAll l calls w).ext = w.ext ++
      ((calls.filter (fun c =>
          decide (mapIndex (derefMap w l.config.LogLevels) c.entry.level = some true))).map
        (fun c => c.message)) ∧
    ∀ (e1 e2 e3 : Env) (s1 s2 s3 : List Frame),
      (logAll testLogger
        [⟨e1, s1, EntryPoint.Debug, "This is a debug message"⟩,
         ⟨e2, s2, EntryPoint.Info, "This is an info message"⟩,
         ⟨e3, s3, EntryPoint.Error, "This is an error message"⟩] testWorld).ext
      = ["This is a debug message", "This is an error message"] := by
  refine ⟨logAll_mock l calls w h, ?_⟩
  intro e1 e2 e3 s1 s2 s3
  rw [logAll_mock testLogger _ testWorld (by rfl)]
  rfl

/-- Witness for C3: the scenario of `TestOmniLogger`, over a list that already holds an
older message, with a statement at a level that is absent from the enable set. -/
theorem recording_driver_keeps_enabled_in_order_witness :
    readSlice { testWorld with ext := ["earlier"] } testLogger.drivers = [MockDriver] ∧
    (logAll testLogger
      [⟨testEnv, testStack, EntryPoint.Debug, "This is a debug message"⟩,
       ⟨lastFirstEnv, testStack, EntryPoint.Log "TRACE", "not registered"⟩,
       ⟨testEnv, testStack, EntryPoint.Info, "This is an info message"⟩,
       ⟨lastFirstEnv, [], EntryPoint.Error, "This is an error message"⟩]
      { testWorld with ext := ["earlier"] }).ext
      = ["earlier", "This is a debug message", "This is an error message"] :=
  ⟨by rfl,
   (recording_driver_keeps_enabled_in_order testLogger _ { testWorld with ext := ["earlier"] }
      (by rfl)).1.trans (by decide)⟩

/-! ## Termination of the process: `Logf`, `Fatal`, `Fatalf` -/

/-- C4: `Logf` leaves the same world as `Log` on the interpolated message (same gating, same
driver calls, same record), but where `Log` returns to its caller `Logf` ends in
`os.Exit(1)`, at every level and whether or not the level is enabled; so does the free
function `Logf` of the registry. -/
theorem Logf_exits_where_Log_returns {σ : Type} (l : OmniLogger) (level : LogLevel)
    (format : String) (args : List Value) (env : Env) (cs : List Frame) (w : World σ) :
    (l.Logf level format args env cs w).2 = (l.Log level (env.sprintf format args) env cs w).2 ∧
    (l.Log level (env.sprintf format args) env cs w).1 = Outcome.returned ∧
    (l.Logf level format args env cs w).1 = Outcome.exited 1 ∧
    (Logf level format args env cs w).1 = Outcome.exited 1 ∧
    (testLogger.Logf INFO "upload of %s started" [Value.str "execute.go"] testEnv testStack
      testWorld) = (Outcome.exited 1, testWorld) := by
  refine ⟨?_, rfl, rfl, rfl, by rfl⟩
  simp [OmniLogger.Logf, OmniLogger.Log, OmniLogger.logWritter, OmniLogger.captureStackTrace,
    runtimeCaller]

/-- C5: `Fatal` and `Fatalf` end in `os.Exit(1)` whatever the level-enable set holds. When
FATAL is absent or false the world at exit is the world at the call (no driver is called).
When FATAL is mapped to true, with `ds` the drivers of the engine (the first `len` slots of
the backing array of its driver slice), the world at exit holds for every position of `ds`
exactly the `FormatLog` of that driver on the record of the call (level FATAL, the message,
the engine's context) followed by its `WriteLog` on what that returned, on no other
position; these calls were really made before the exit: replaying them on `ds` in the
recorded order gives the state behind the drivers at exit. -/
theorem fatal_always_exits_with_status_one {σ : Type} (l : OmniLogger) (message : String)
    (format : String) (args : List Value) (env : Env) (cs : List Frame) (w : World σ)
    (ds : List (LoggerDriver σ))
    (hds : ds = ((w.arrays[l.drivers.arr]?).getD []).take l.drivers.len) :
    (l.Fatal message env cs w).1 = Outcome.exited 1 ∧
    (l.Fatalf format args env cs w).1 = Outcome.exited 1 ∧
    (mapIndex (derefMap w l.config.LogLevels) FATAL ≠ some true →
      l.Fatal message env cs w = (Outcome.exited 1, w) ∧
      l.Fatalf format args env cs w = (Outcome.exited 1, w)) ∧
    (mapIndex (derefMap w l.config.LogLevels) FATAL = some true →
      (∃ md new,
        md.Level = FATAL ∧ md.Message = message ∧ md.Context = l.context ∧
        (l.Fatal message env cs w).2.calls = w.calls ++ new ∧
        (∀ c ∈ new, c.driver < ds.length) ∧
        (∀ i, i < ds.length →
          ((callsOf i new).filter Call.isFormat).length = 1 ∧
          ((callsOf i new).filter Call.isWrite).length = 1) ∧
        (∀ i d, ds[i]? = some d →
          ∃ out e r,
            callsOf i new = [Call.FormatLog i md out e, Call.WriteLog i out r] ∧
            (∃ s, (d.FormatLog md s).1 = (out, e)) ∧ (∃ s, (d.WriteLog out s).1 = r)) ∧
        replay ds new w.ext = some (l.Fatal message env cs w).2.ext) ∧
      (∃ md new,
        md.Level = FATAL ∧ md.Message = env.sprintf format args ∧ md.Context = l.context ∧
        (l.Fatalf format args env cs w).2.calls = w.calls ++ new ∧
        (∀ c ∈ new, c.driver < ds.length) ∧
        (∀ i, i < ds.length →
          ((callsOf i new).filter Call.isFormat).length = 1 ∧
          ((callsOf i new).filter Call.isWrite).length = 1) ∧
        (∀ i d, ds[i]? = some d →
          ∃ out e r,
            callsOf i new = [Call.FormatLog i md out e, Call.WriteLog i out r] ∧
            (∃ s, (d.FormatLog md s).1 = (out, e)) ∧ (∃ s, (d.WriteLog out s).1 = r)) ∧
        replay ds new w.ext = some (l.Fatalf format args env cs w).2.ext)) := by
  have hread : readSlice w l.drivers = ds := by rw [hds]; rfl
  refine ⟨rfl, rfl, ?_, ?_⟩
  · intro h
    simp [OmniLogger.Fatal, OmniLogger.Fatalf, logWritter_disabled l FATAL _ env _ w h]
  · intro h
    constructor
    · obtain ⟨new, hcalls, hbound, hserved, hreplay⟩ :=
        logWritter_replay l FATAL message env
          (⟨"logger_core.go", 138, "omnilogger.(*OmniLogger).Fatal"⟩ :: cs) w h
      rw [hread] at hbound hserved hreplay
      exact ⟨recordOf l FATAL message env
          (⟨"logger_core.go", 138, "omnilogger.(*OmniLogger).Fatal"⟩ :: cs), new, rfl, rfl, rfl,
        hcalls, hbound,
        fun i hi => served_counts _ i _ _ (hserved i _ (List.getElem?_eq_getElem hi)),
        hserved, hreplay⟩
    · obtain ⟨new, hcalls, hbound, hserved, hreplay⟩ :=
        logWritter_replay l FATAL (env.sprintf format args) env
          (⟨"logger_core.go", 107, "omnilogger.(*OmniLogger).Fatalf"⟩ :: cs) w h
      rw [hread] at hbound hserved hreplay
      exact ⟨recordOf l FATAL (env.sprintf format args) env
          (⟨"logger_core.go", 107, "omnilogger.(*OmniLogger).Fatalf"⟩ :: cs), new, rfl, rfl, rfl,
        hcalls, hbound,
        fun i hi => served_counts _ i _ _ (hserved i _ (List.getElem?_eq_getElem hi)),
        hserved, hreplay⟩

/-- Witness for C5: FATAL is absent from the test's level map and on in the map of `main.go`.
With it on, the failing driver and the mock driver are both called before the exit: four
calls are in the record and both writes in the state behind the drivers. -/
theorem fatal_always_exits_with_status_one_witness :
    ([MockDriver]
       = ((testWorld.arrays[testLogger.drivers.arr]?).getD []).take testLogger.drivers.len ∧
     [failingDriver, MockDriver]
       = ((testWorld.arrays[mainLogger.drivers.arr]?).getD []).take mainLogger.drivers.len ∧
     mapIndex (derefMap testWorld testLogger.config.LogLevels) FATAL ≠ some true ∧
     mapIndex (derefMap testWorld mainLogger.config.LogLevels) FATAL = some true) ∧
    (testLogger.Fatal "giving up" testEnv testStack testWorld = (Outcome.exited 1, testWorld) ∧
     testLogger.Fatalf "giving up: %v" [Value.int 3] testEnv testStack testWorld
       = (Outcome.exited 1, testWorld)) ∧
    (mainLogger.Fatal "giving up" testEnv testStack testWorld).1 = Outcome.exited 1 ∧
    (∃ md new,
      md.Level = FATAL ∧ md.Message = "giving up" ∧ md.Context = mainLogger.context ∧
      (mainLogger.Fatal "giving up" testEnv testStack testWorld).2.calls
        = testWorld.calls ++ new ∧
      (∀ c ∈ new, c.driver < [failingDriver, MockDriver].length) ∧
      (∀ i, i < [failingDriver, MockDriver].length →
        ((callsOf i new).filter Call.isFormat).length = 1 ∧
        ((callsOf i new).filter Call.isWrite).length = 1) ∧
      (∀ i d, [failingDriver, MockDriver][i]? = some d →
        ∃ out e r,
          callsOf i new = [Call.FormatLog i md out e, Call.WriteLog i out r] ∧
          (∃ s, (d.FormatLog md s).1 = (out, e)) ∧ (∃ s, (d.WriteLog out s).1 = r)) ∧
      replay [failingDriver, MockDriver] new testWorld.ext
        = some (mainLogger.Fatal "giving up" testEnv testStack testWorld).2.ext) ∧
    (mainLogger.Fatal "giving up" testEnv testStack testWorld).2.calls
      = [Call.FormatLog 0
           (recordOf mainLogger FATAL "giving up" testEnv
             (⟨"logger_core.go", 138, "omnilogger.(*OmniLogger).Fatal"⟩ :: testStack))
           "" (some "cannot format"),
         Call.WriteLog 0 "" (some "disk full"),
         Call.FormatLog 1
           (recordOf mainLogger FATAL "giving up" testEnv
             (⟨"logger_core.go", 138, "omnilogger.(*OmniLogger).Fatal"⟩ :: testStack))
           "giving up" none,
         Call.WriteLog 1 "giving up" none] ∧
    (mainLogger.Fatal "giving up" testEnv testStack testWorld).2.ext = ["", "giving up"] ∧
    (mainLogger.Fatalf "giving up: %v" [Value.int 3] lastFirstEnv testStack testWorld)
      = (Outcome.exited 1,
         (mainLogger.Fatalf "giving up: %v" [Value.int 3] lastFirstEnv testStack testWorld).2) ∧
    (mainLogger.Fatalf "giving up: %v" [Value.int 3] lastFirstEnv testStack testWorld).2.ext
      = ["giving up: %v", ""] :=
  ⟨⟨rfl, rfl, by decide, by decide⟩,
   (fatal_always_exits_with_status_one testLogger "giving up" "giving up: %v" [Value.int 3]
      testEnv testStack testWorld [MockDriver] rfl).2.2.1 (by decide),
   (fatal_always_exits_with_status_one mainLogger "giving up" "giving up: %v" [Value.int 3]
      testEnv testStack testWorld [failingDriver, MockDriver] rfl).1,
   ((fatal_always_exits_with_status_one mainLogger "giving up" "giving up: %v" [Value.int 3]
      testEnv testStack testWorld [failingDriver, MockDriver] rfl).2.2.2 (by decide)).1,
   by decide, by decide, rfl, by decide⟩

/-! ## Format errors do not skip the write -/

/-- C6: in a dispatch, the calls made on the driver at each position are exactly one
`FormatLog` on the record followed by one `WriteLog` whose argument is the string that
`FormatLog` call returned, whatever error `FormatLog` returned next to it. -/
theorem write_receives_what_format_returned {σ : Type} (l : OmniLogger) (level : LogLevel)
    (message : String) (env : Env) (cs : List Frame) (w : World σ)
    (h : mapIndex (derefMap w l.config.LogLevels) level = some true) :
    ∃ new, (l.logWritter level message env cs w).calls = w.calls ++ new ∧
      ∀ i d, (readSlice w l.drivers)[i]? = some d →
        ∃ out e r,
          callsOf i new = [Call.FormatLog i (recordOf l level message env cs) out e,
                           Call.WriteLog i out r] ∧
          (∃ s, (d.FormatLog (recordOf l level message env cs) s).1 = (out, e)) ∧
          (∃ s, (d.WriteLog out s).1 = r) := by
  obtain ⟨_, _, _, new, hcalls, _, hserved⟩ := logWritter_serves l level message env cs w h
  exact ⟨new, hcalls, hserved⟩

/-- Witness for C6: the first driver's `FormatLog` returns the empty string with an error;
its `WriteLog` is still called, with the empty string, and both errors are only printed. -/
theorem write_receives_what_format_returned_witness :
    mapIndex (derefMap testWorld failingLogger.config.LogLevels) DEBUG = some true ∧
    (∃ new, (failingLogger.logWritter DEBUG "x" testEnv testStack testWorld).calls
        = testWorld.calls ++ new ∧
      ∀ i d, (readSlice testWorld failingLogger.drivers)[i]? = some d →
        ∃ out e r,
          callsOf i new = [Call.FormatLog i (recordOf failingLogger DEBUG "x" testEnv testStack) out e,
                           Call.WriteLog i out r] ∧
          (∃ s, (d.FormatLog (recordOf failingLogger DEBUG "x" testEnv testStack) s).1 = (out, e)) ∧
          (∃ s, (d.WriteLog out s).1 = r)) ∧
    callsOf 0 (failingLogger.logWritter DEBUG "x" lastFirstEnv testStack testWorld).calls
      = [Call.FormatLog 0 (recordOf failingLogger DEBUG "x" lastFirstEnv testStack) ""
           (some "cannot format"),
         Call.WriteLog 0 "" (some "disk full")] ∧
    (failingLogger.logWritter DEBUG "x" lastFirstEnv testStack testWorld).stdout
      = ["Error formatting log: cannot format", "Error writing log: disk full"] :=
  ⟨by decide,
   write_receives_what_format_returned failingLogger DEBUG "x" testEnv testStack testWorld
     (by decide),
   by decide, by decide⟩

/-! ## JSON-style drivers: the serialised object -/

theorem mapIndex_mem {α : Type} (m : GoMap α) (k : String) (v : α)
    (h : mapIndex m k = some v) : (k, v) ∈ m := by
  induction m with
  | nil => simp [mapIndex] at h
  | cons e rest ih =>
    obtain ⟨k0, v0⟩ := e
    by_cases hk : k = k0
    · subst hk
      simp only [mapIndex, if_true, Option.some.injEq] at h
      subst h
      exact List.mem_cons_self _ _
    · simp only [mapIndex, if_neg hk] at h
      exact List.mem_cons_of_mem _ (ih h)

theorem foldl_assign_not_mem {α : Type} (es : GoMap α) (k : String) :
    ∀ (m : GoMap α), k ∉ mapKeys es →
      mapIndex (es.foldl (fun acc kv => mapAssign acc kv.1 kv.2) m) k = mapIndex m k := by
  induction es with
  | nil => intro m _; rfl
  | cons e rest ih =>
    intro m hk
    simp only [mapKeys, List.map_cons, List.mem_cons, not_or] at hk
    simp only [List.foldl_cons]
    rw [ih (mapAssign m e.1 e.2) hk.2]
    exact mapIndex_mapAssign_other m e.1 k e.2 hk.1

theorem foldl_assign_mem {α : Type} (es : GoMap α) (k : String) (v : α) :
    ∀ (m : GoMap α), (mapKeys es).Nodup → (k, v) ∈ es →
      mapIndex (es.foldl (fun acc kv => mapAssign acc kv.1 kv.2) m) k = some v := by
  induction es with
  | nil => intro m _ h; simp at h
  | cons e rest ih =>
    intro m hnd hmem
    simp only [mapKeys, List.map_cons, List.nodup_cons] at hnd
    simp only [List.foldl_cons]
    rcases List.mem_cons.mp hmem with heq | hin
    · subst heq
      rw [foldl_assign_not_mem rest k (mapAssign m k v) hnd.1]
      exact mapIndex_mapAssign_same m k v
    · exact ih (mapAssign m e.1 e.2) hnd.2 hin

theorem FileDriver_logEntry_eq :
    FileDriver.logEntry = JsonCliDriver.logEntry := rfl

theorem logEntry_fixed_last (rangeOrder : GoMap Value → GoMap Value) (md : MessageData) :
    mapIndex (JsonCliDriver.logEntry rangeOrder md) "stack_trace" = some (Value.str md.StackTrace) ∧
    mapIndex (JsonCliDriver.logEntry rangeOrder md) "message" = some (Value.str md.Message) := by
  constructor
  · unfold JsonCliDriver.logEntry
    simp only []
    rw [mapIndex_mapAssign_other _ "message" "stack_trace" _ (by decide)]
    exact mapIndex_mapAssign_same _ _ _
  · unfold JsonCliDriver.logEntry
    exact mapIndex_mapAssign_same _ _ _

theorem logEntry_other_key (rangeOrder : GoMap Value → GoMap Value) (md : MessageData)
    (k : String) (h1 : k ≠ "stack_trace") (h2 : k ≠ "message") :
    mapIndex (JsonCliDriver.logEntry rangeOrder md) k =
      match md.Context with
      | none =>
        mapIndex (mapAssign (mapAssign [] "level" (Value.str md.Level)) "timestamp"
          (Value.str md.Timestamp)) k
      | some ctx =>
        mapIndex ((rangeOrder ctx.MetaData).foldl (fun acc kv => mapAssign acc kv.1 kv.2)
          (if ctx.UserID ≠ "" then
            mapAssign
              (if ctx.TransactionID ≠ "" then
                mapAssign (mapAssign (mapAssign [] "level" (Value.str md.Level)) "timestamp"
                  (Value.str md.Timestamp)) "transaction_id" (Value.str ctx.TransactionID)
               else mapAssign (mapAssign [] "level" (Value.str md.Level)) "timestamp"
                  (Value.str md.Timestamp))
              "user_id" (Value.str ctx.UserID)
           else
              (if ctx.TransactionID ≠ "" then
                mapAssign (mapAssign (mapAssign [] "level" (Value.str md.Level)) "timestamp"
                  (Value.str md.Timestamp)) "transaction_id" (Value.str ctx.TransactionID)
               else mapAssign (mapAssign [] "level" (Value.str md.Level)) "timestamp"
                  (Value.str md.Timestamp)))) k := by
  unfold JsonCliDriver.logEntry
  simp only []
  rw [mapIndex_mapAssign_other _ "message" k _ h2, mapIndex_mapAssign_other _ "stack_trace" k _ h1]
  cases md.Context <;> rfl

/-- C7 (as amended): in the object a JSON-style driver serialises, `stack_trace` and `message`
always map to the record's stack trace and message; `level` and `timestamp` map to the
record's level and timestamp when no metadata key has that name; `transaction_id` and
`user_id` map to the context's ids when these are non-empty and no metadata key has that
name; every metadata key other than `stack_trace` and `message` maps to its metadata value.
`FileDriver` and `JsonCliDriver` build the same object, and `FormatLog` returns its
marshalled form when `json.Marshal` succeeds. -/
theorem json_entry_recovers_fields (rangeOrder : GoMap Value → GoMap Value) (md : MessageData)
    (hperm : (rangeOrder md.metaData).Perm md.metaData)
    (hnodup : (mapKeys md.metaData).Nodup) :
    (mapIndex (JsonCliDriver.logEntry rangeOrder md) "stack_trace" = some (Value.str md.StackTrace) ∧
     mapIndex (JsonCliDriver.logEntry rangeOrder md) "message" = some (Value.str md.Message)) ∧
    ("level" ∉ mapKeys md.metaData →
      mapIndex (JsonCliDriver.logEntry rangeOrder md) "level" = some (Value.str md.Level)) ∧
    ("timestamp" ∉ mapKeys md.metaData →
      mapIndex (JsonCliDriver.logEntry rangeOrder md) "timestamp" = some (Value.str md.Timestamp)) ∧
    (∀ ctx, md.Context = some ctx → ctx.TransactionID ≠ "" →
      "transaction_id" ∉ mapKeys ctx.MetaData →
      mapIndex (JsonCliDriver.logEntry rangeOrder md) "transaction_id"
        = some (Value.str ctx.TransactionID)) ∧
    (∀ ctx, md.Context = some ctx → ctx.UserID ≠ "" → "user_id" ∉ mapKeys ctx.MetaData →
      mapIndex (JsonCliDriver.logEntry rangeOrder md) "user_id" = some (Value.str ctx.UserID)) ∧
    (∀ k v, mapIndex md.metaData k = some v → k ≠ "stack_trace" → k ≠ "message" →
      mapIndex (JsonCliDriver.logEntry rangeOrder md) k = some v) ∧
    FileDriver.logEntry rangeOrder md = JsonCliDriver.logEntry rangeOrder md ∧
    (∀ marshal, (marshal (JsonCliDriver.logEntry rangeOrder md)).2 = none →
      JsonCliDriver.FormatLog marshal rangeOrder md
        = ((marshal (JsonCliDriver.logEntry rangeOrder md)).1, none) ∧
      FileDriver.FormatLog marshal rangeOrder md
        = ((marshal (JsonCliDriver.logEntry rangeOrder md)).1, none)) := by
  have hkeys : ∀ k, k ∈ mapKeys (rangeOrder md.metaData) ↔ k ∈ mapKeys md.metaData :=
    fun k => (hperm.map Prod.fst).mem_iff
  have hnd : (mapKeys (rangeOrder md.metaData)).Nodup :=
    ((hperm.map Prod.fst).nodup_iff).mpr hnodup
  refine ⟨logEntry_fixed_last rangeOrder md, ?_, ?_, ?_, ?_, ?_, rfl, ?_⟩
  · intro hk
    rw [logEntry_other_key rangeOrder md "level" (by decide) (by decide)]
    cases hc : md.Context with
    | none =>
      simp only []
      rw [mapIndex_mapAssign_other _ "timestamp" "level" _ (by decide)]
      exact mapIndex_mapAssign_same _ _ _
    | some ctx =>
      simp only [MessageData.metaData, hc] at hk hkeys
      simp only []
      rw [foldl_assign_not_mem _ "level" _ (fun hin => hk ((hkeys "level").mp hin))]
      split <;> split <;>
        simp [mapIndex_mapAssign_other, mapIndex_mapAssign_same]
  · intro hk
    rw [logEntry_other_key rangeOrder md "timestamp" (by decide) (by decide)]
    cases hc : md.Context with
    | none =>
      simp only []
      exact mapIndex_mapAssign_same _ _ _
    | some ctx =>
      simp only [MessageData.metaData, hc] at hk hkeys
      simp only []
      rw [foldl_assign_not_mem _ "timestamp" _ (fun hin => hk ((hkeys "timestamp").mp hin))]
      split <;> split <;>
        simp [mapIndex_mapAssign_other, mapIndex_mapAssign_same]
  · intro ctx hc htx hk
    rw [logEntry_other_key rangeOrder md "transaction_id" (by decide) (by decide)]
    simp only [MessageData.metaData, hc] at hkeys
    simp only [hc]
    rw [foldl_assign_not_mem _ "transaction_id" _
      (fun hin => hk ((hkeys "transaction_id").mp hin))]
    split <;> simp [htx, mapIndex_mapAssign_other, mapIndex_mapAssign_same]
  · intro ctx hc hu hk
    rw [logEntry_other_key rangeOrder md "user_id" (by decide) (by decide)]
    simp only [MessageData.metaData, hc] at hkeys
    simp only [hc]
    rw [foldl_assign_not_mem _ "user_id" _ (fun hin => hk ((hkeys "user_id").mp hin))]
    simp [hu, mapIndex_mapAssign_same]
  · intro k v hkv h1 h2
    rw [logEntry_other_key rangeOrder md k h1 h2]
    cases hc : md.Context with
    | none => simp [MessageData.metaData, hc, mapIndex] at hkv
    | some ctx =>
      simp only [MessageData.metaData, hc] at hkv hperm hnd
      simp only []
      exact foldl_assign_mem _ k v _ hnd (hperm.mem_iff.mpr (mapIndex_mem _ k v hkv))
  · intro marshal hm
    simp [JsonCliDriver.FormatLog, FileDriver.FormatLog, FileDriver_logEntry_eq, hm]

/-- Witness for C7: the record of `TestFileDriverWithFormatting`, with the metadata visited
in map order. -/
theorem json_entry_recovers_fields_witness :
    ((id fileTestRecord.metaData).Perm fileTestRecord.metaData ∧
     (mapKeys fileTestRecord.metaData).Nodup) ∧
    mapIndex (JsonCliDriver.logEntry id fileTestRecord) "level" = some (Value.str "INFO") ∧
    mapIndex (JsonCliDriver.logEntry id fileTestRecord) "user_id" = some (Value.str "user456") ∧
    mapIndex (JsonCliDriver.logEntry id fileTestRecord) "extra" = some (Value.str "metadata") :=
  ⟨⟨List.Perm.refl _, by decide⟩,
   (json_entry_recovers_fields id fileTestRecord (List.Perm.refl _) (by decide)).2.1 (by decide),
   (json_entry_recovers_fields id fileTestRecord (List.Perm.refl _) (by decide)).2.2.2.2.1
     _ rfl (by decide) (by decide),
   (json_entry_recovers_fields id fileTestRecord (List.Perm.refl _) (by decide)).2.2.2.2.2.1
     "extra" (Value.str "metadata") (by decide) (by decide) (by decide)⟩

/-- C7 as stated fails: with the metadata keys `level` and `message`, the serialised object
maps `level` to the metadata value instead of the record's level, and maps `message` to the
record's message instead of the metadata value; both drivers behave so. -/
theorem json_entry_metadata_key_collides :
    collisionRecord.Level = "INFO" ∧
    mapIndex (JsonCliDriver.logEntry id collisionRecord) "level" = some (Value.str "verbose") ∧
    mapIndex (JsonCliDriver.logEntry id collisionRecord) "level"
      ≠ some (Value.str collisionRecord.Level) ∧
    mapIndex collisionRecord.metaData "message" = some (Value.str "from metadata") ∧
    mapIndex (JsonCliDriver.logEntry id collisionRecord) "message" = some (Value.str "upload started") ∧
    mapIndex (JsonCliDriver.logEntry id collisionRecord) "message"
      ≠ mapIndex collisionRecord.metaData "message" ∧
    mapIndex (FileDriver.logEntry id collisionRecord) "level"
      ≠ some (Value.str collisionRecord.Level) ∧
    mapIndex (FileDriver.logEntry List.reverse collisionRecord) "message"
      ≠ mapIndex collisionRecord.metaData "message" := by
  decide

/-! ## The console driver -/

theorem foldl_append_eq (init : String) (l : List String) :
    l.foldl (fun r s => r ++ s) init = init ++ String.join l := by
  induction l generalizing init with
  | nil => simp [String.join]
  | cons x rest ih =>
    simp only [List.foldl_cons, String.join]
    rw [ih (init ++ x), ih ("" ++ x), String.empty_append, String.append_assoc]

theorem foldl_entries_eq (f : String × Value → String) (init : String) (l : GoMap Value) :
    l.foldl (fun acc kv => acc ++ f kv) init = init ++ String.join (l.map f) := by
  rw [← foldl_append_eq, List.foldl_map]

/-- C8: `CLIDriver.FormatLog` never returns an error, and its text is the level in brackets
and the timestamp, then (only with a non-nil context) the transaction id if non-empty, the
user id if non-empty and `key: value ` for each metadata entry as `range` visits them, then
the trace and the message. With a nil context the text is the header followed directly by
the trace part; the two records of the driver's tests give the strings the tests expect,
at every timestamp and for every enumeration order of the metadata. -/
theorem CLIDriver_FormatLog_exact (rangeOrder : GoMap Value → GoMap Value) (md : MessageData)
    (timestamp : String) :
    (CLIDriver.FormatLog rangeOrder md).2 = none ∧
    (CLIDriver.FormatLog rangeOrder md).1 =
      "[" ++ md.Level ++ "] timestamp: " ++ md.Timestamp ++ " " ++
      (match md.Context with
       | none => ""
       | some ctx =>
         (if ctx.TransactionID = "" then "" else "transaction_id: " ++ ctx.TransactionID ++ " ") ++
         (if ctx.UserID = "" then "" else "user_id: " ++ ctx.UserID ++ " ") ++
         String.join ((rangeOrder ctx.MetaData).map (fun kv => kv.1 ++ ": " ++ fmtV kv.2 ++ " "))) ++
      (" trace: " ++ md.StackTrace ++ "  msg : " ++ md.Message ++ " ") ∧
    (md.Context = none →
      (CLIDriver.FormatLog rangeOrder md).1 =
        "[" ++ md.Level ++ "] timestamp: " ++ md.Timestamp ++ " " ++
        (" trace: " ++ md.StackTrace ++ "  msg : " ++ md.Message ++ " ")) ∧
    CLIDriver.FormatLog rangeOrder (cliTestRecordNoContext timestamp) =
      ("[" ++ INFO ++ "] timestamp: " ++ timestamp ++
        "  trace: file.go:123  msg : Test message without context ", none) ∧
    ((rangeOrder [("key", Value.str "value")]).Perm [("key", Value.str "value")] →
      CLIDriver.FormatLog rangeOrder (cliTestRecordWithContext timestamp) =
        ("[" ++ INFO ++ "] timestamp: " ++ timestamp ++
          " transaction_id: tx123 user_id: user456 key: value  trace: file.go:123  msg : Test message with context ",
         none)) := by
  have hclosed : (CLIDriver.FormatLog rangeOrder md).1 =
      "[" ++ md.Level ++ "] timestamp: " ++ md.Timestamp ++ " " ++
      (match md.Context with
       | none => ""
       | some ctx =>
         (if ctx.TransactionID = "" then "" else "transaction_id: " ++ ctx.TransactionID ++ " ") ++
         (if ctx.UserID = "" then "" else "user_id: " ++ ctx.UserID ++ " ") ++
         String.join ((rangeOrder ctx.MetaData).map (fun kv => kv.1 ++ ": " ++ fmtV kv.2 ++ " "))) ++
      (" trace: " ++ md.StackTrace ++ "  msg : " ++ md.Message ++ " ") := by
    unfold CLIDriver.FormatLog
    cases md.Context with
    | none => simp
    | some ctx =>
      simp only []
      rw [foldl_entries_eq (fun kv => kv.1 ++ ": " ++ fmtV kv.2 ++ " ")]
      by_cases h1 : ctx.TransactionID = "" <;> by_cases h2 : ctx.UserID = "" <;>
        simp [h1, h2, String.append_assoc]
  refine ⟨?_, hclosed, ?_, ?_, ?_⟩
  · unfold CLIDriver.FormatLog
    cases md.Context <;> rfl
  · intro hc
    rw [hclosed, hc]
    simp
  · simp [CLIDriver.FormatLog, cliTestRecordNoContext, String.append_assoc]
  · intro hperm
    have hsingle : rangeOrder [("key", Value.str "value")] = [("key", Value.str "value")] :=
      List.perm_singleton.mp hperm
    simp [CLIDriver.FormatLog, cliTestRecordWithContext, hsingle, fmtV, String.append_assoc]

/-- Witness for C8: the two test records at a fixed timestamp, the metadata visited in
reverse map order. -/
theorem CLIDriver_FormatLog_exact_witness :
    ((cliTestRecordNoContext "2024-05-01T10:00:00Z").Context = none ∧
     (List.reverse [("key", Value.str "value")]).Perm [("key", Value.str "value")]) ∧
    (CLIDriver.FormatLog List.reverse (cliTestRecordNoContext "2024-05-01T10:00:00Z")).1 =
      "[" ++ (cliTestRecordNoContext "2024-05-01T10:00:00Z").Level ++ "] timestamp: " ++
        (cliTestRecordNoContext "2024-05-01T10:00:00Z").Timestamp ++ " " ++
      (" trace: " ++ (cliTestRecordNoContext "2024-05-01T10:00:00Z").StackTrace ++ "  msg : " ++
        (cliTestRecordNoContext "2024-05-01T10:00:00Z").Message ++ " ") ∧
    CLIDriver.FormatLog List.reverse (cliTestRecordWithContext "2024-05-01T10:00:00Z") =
      ("[" ++ INFO ++ "] timestamp: " ++ "2024-05-01T10:00:00Z" ++
        " transaction_id: tx123 user_id: user456 key: value  trace: file.go:123  msg : Test message with context ",
       none) :=
  ⟨⟨rfl, List.Perm.refl _⟩,
   (CLIDriver_FormatLog_exact List.reverse (cliTestRecordNoContext "2024-05-01T10:00:00Z")
      "2024-05-01T10:00:00Z").2.2.1 rfl,
   (CLIDriver_FormatLog_exact List.reverse (cliTestRecordNoContext "2024-05-01T10:00:00Z")
      "2024-05-01T10:00:00Z").2.2.2.2 (List.Perm.refl _)⟩

/-! ## Registry: slices, maps and derived engines -/

theorem append_frame {σ : Type} (g : Nat → Nat → Nat) (s : Slice) (xs : List (LoggerDriver σ))
    (w : World σ) :
    (append g s xs w).2.maps = w.maps ∧ (append g s xs w).2.singleton = w.singleton ∧
    (append g s xs w).2.ext = w.ext ∧ (append g s xs w).2.calls = w.calls := by
  unfold append
  split <;> simp

/-- Appending to a slice `r` leaves every other backed slice `e` reading the same elements,
also when both share the backing array, as long as `e` is not longer than `r`. -/
theorem append_read_other {σ : Type} (g : Nat → Nat → Nat) (r e : Slice)
    (xs : List (LoggerDriver σ)) (w : World σ) (hb : e.Backed w)
    (hle : r.arr = e.arr → e.len ≤ r.len) :
    readSlice (append g r xs w).2 e = readSlice w e ∧ e.Backed (append g r xs w).2 ∧
    ((append g r xs w).1.arr = e.arr → e.len ≤ (append g r xs w).1.len) := by
  unfold append
  split
  · -- written in place
    by_cases harr : r.arr = e.arr
    · have hlen := hle harr
      by_cases hin : r.arr < w.arrays.length
      · have hold : ((w.arrays[r.arr]?).getD []) = w.arrays[r.arr] := by
          simp [List.getElem?_eq_getElem hin]
        have hb1 : e.len ≤ (w.arrays[r.arr]).length := by
          have := hb
          simp only [Slice.Backed, ← harr, hold] at this
          exact this
        have htake : (List.take e.len
            (List.take r.len w.arrays[r.arr] ++ xs ++ List.drop (r.len + xs.length) w.arrays[r.arr]))
            = List.take e.len w.arrays[r.arr] := by
          rw [List.append_assoc, List.take_append_of_le_length
            (by rw [List.length_take]; omega), List.take_take]
          congr 1
          omega
        have hget : (w.arrays.set r.arr
            (List.take r.len w.arrays[r.arr] ++ xs ++ List.drop (r.len + xs.length) w.arrays[r.arr]))[e.arr]?
            = some (List.take r.len w.arrays[r.arr] ++ xs ++
                List.drop (r.len + xs.length) w.arrays[r.arr]) := by
          rw [← harr]
          exact List.getElem?_set_self hin
        refine ⟨?_, ?_, ?_⟩
        · simp only [readSlice, hold, hget, Option.getD_some, htake]
          rw [← harr, List.getElem?_eq_getElem hin, Option.getD_some]
        · simp only [Slice.Backed, hold, hget, Option.getD_some, List.length_append,
            List.length_take]
          omega
        · intro _
          simp only []
          omega
      · have hset2 : ∀ a, w.arrays.set r.arr a = w.arrays :=
          fun a => List.set_eq_of_length_le (Nat.le_of_not_lt hin)
        refine ⟨?_, ?_, ?_⟩
        · simp only [readSlice, hset2]
        · simp only [Slice.Backed, hset2]
          exact hb
        · intro _
          simp only []
          omega
    · have hne : r.arr ≠ e.arr := harr
      refine ⟨?_, ?_, ?_⟩
      · simp only [readSlice, List.getElem?_set_ne hne]
      · simp only [Slice.Backed, List.getElem?_set_ne hne]
        exact hb
      · intro h
        exact absurd h harr
  · -- copied to a fresh array
    by_cases hin : e.arr < w.arrays.length
    · have hget : ∀ a, (w.arrays ++ [a])[e.arr]? = w.arrays[e.arr]? :=
        fun a => List.getElem?_append_left hin
      refine ⟨?_, ?_, ?_⟩
      · simp only [readSlice, hget]
      · simp only [Slice.Backed, hget]
        exact hb
      · intro h
        simp only [] at h
        omega
    · have hzero : e.len = 0 := by
        have := hb
        simp only [Slice.Backed, List.getElem?_eq_none (Nat.le_of_not_lt hin),
          Option.getD_none, List.length_nil] at this
        omega
      refine ⟨?_, ?_, ?_⟩
      · simp [readSlice, hzero]
      · simp [Slice.Backed, hzero]
      · intro _
        omega

theorem readSlice_length {σ : Type} (w : World σ) (s : Slice) (hb : s.Backed w) :
    (readSlice w s).length = s.len := by
  simp only [readSlice, List.length_take]
  exact Nat.min_eq_left hb

/-- Appending to a valid slice gives a valid slice that reads as the old elements followed
by the new ones. -/
theorem append_read_self {σ : Type} (g : Nat → Nat → Nat) (r : Slice)
    (xs : List (LoggerDriver σ)) (w : World σ) (hv : r.Valid w) :
    readSlice (append g r xs w).2 (append g r xs w).1 = readSlice w r ++ xs ∧
    (append g r xs w).1.Valid (append g r xs w).2 := by
  obtain ⟨hb, hcap⟩ := hv
  have hlenR := readSlice_length w r hb
  unfold append
  split
  · rename_i hfit
    by_cases hin : r.arr < w.arrays.length
    · have hold : ((w.arrays[r.arr]?).getD []) = w.arrays[r.arr] := by
        simp [List.getElem?_eq_getElem hin]
      have hb1 : r.len ≤ (w.arrays[r.arr]).length := by
        have := hb
        simp only [Slice.Backed, hold] at this
        exact this
      have hget : ∀ a, (w.arrays.set r.arr a)[r.arr]? = some a :=
        fun a => List.getElem?_set_self hin
      have htl : (List.take r.len w.arrays[r.arr]).length = r.len := by
        rw [List.length_take]; omega
      refine ⟨?_, ?_, ?_⟩
      · simp only [readSlice, hold, hget, Option.getD_some]
        rw [List.take_append_of_le_length (by rw [List.length_append, htl]),
          List.take_of_length_le (by rw [List.length_append, htl])]
      · simp only [Slice.Backed, hold, hget, Option.getD_some, List.length_append, htl]
        omega
      · intro _
        simpa using hin
    · have hc0 : r.cap = 0 := by
        by_contra hne
        exact hin (hcap (Nat.pos_of_ne_zero hne))
      have hxs : xs = [] := by
        apply List.eq_nil_of_length_eq_zero
        omega
      have hl0 : r.len = 0 := by omega
      subst hxs
      refine ⟨?_, ?_, ?_⟩
      · simp [readSlice, hl0]
      · simp [Slice.Backed, hl0]
      · intro hpos
        simp only [] at hpos
        omega
  · have hget : ∀ a, (w.arrays ++ [a])[w.arrays.length]? = some a := by
      intro a
      simp
    refine ⟨?_, ?_, ?_⟩
    · simp only [readSlice, hget, Option.getD_some]
      have := hlenR
      simp only [readSlice] at this
      rw [List.take_of_length_le (by rw [List.length_append, this])]
    · simp only [Slice.Backed, hget, Option.getD_some, List.length_append]
      have := hlenR
      simp only [readSlice] at this
      omega
    · intro _
      simp

theorem ensureInstance_some {σ : Type} (w : World σ) (l : OmniLogger)
    (h : w.singleton = some l) : ensureInstance w = w := by
  simp [ensureInstance, h]

theorem sharedEngine_some {σ : Type} (w : World σ) (l : OmniLogger)
    (h : w.singleton = some l) : sharedEngine w = l := by
  simp [sharedEngine, ensureInstance, h]

theorem ensureInstance_wellFormed {σ : Type} (w : World σ) (h : w.WellFormed) :
    (ensureInstance w).arrays = w.arrays ∧ (ensureInstance w).maps = w.maps ∧
    ∃ l, (ensureInstance w).singleton = some l ∧ l.drivers.Valid (ensureInstance w) ∧
      l = sharedEngine w := by
  cases hs : w.singleton with
  | none =>
    refine ⟨by simp [ensureInstance, hs], by simp [ensureInstance, hs], {}, ?_, ?_, ?_⟩
    · simp [ensureInstance, hs]
    · simp [Slice.Valid, Slice.Backed]
    · simp [sharedEngine, ensureInstance, hs]
  | some l =>
    rw [ensureInstance_some w l hs]
    refine ⟨rfl, rfl, l, hs, ?_, (sharedEngine_some w l hs).symm⟩
    simp only [World.WellFormed, hs] at h
    exact h

/-- One registry call keeps a derived slice isolated and reading the same drivers, leaves
the level maps alone, appends the new drivers to the singleton's list and installs the
new config. -/
theorem apply_isolated {σ : Type} (e : Slice) (op : RegistryOp σ) (w : World σ)
    (h : Isolated e w) :
    Isolated e (op.apply w) ∧ readSlice (op.apply w) e = readSlice w e ∧
    (op.apply w).maps = w.maps ∧
    readSlice (op.apply w) (sharedEngine (op.apply w)).drivers
      = readSlice w (sharedEngine w).drivers ++ addedDrivers [op] ∧
    (sharedEngine (op.apply w)).config = lastConfig [op] (sharedEngine w).config ∧
    (sharedEngine (op.apply w)).context = (sharedEngine w).context := by
  obtain ⟨hb, l, hs, hv, hle⟩ := h
  rw [sharedEngine_some w l hs]
  cases op with
  | AddConfig config =>
    have happ : (RegistryOp.AddConfig config).apply w
        = { w with singleton := some { l with config := config } } := by
      simp [RegistryOp.apply, AddConfig, ensureInstance_some w l hs, hs]
    rw [happ]
    refine ⟨⟨hb, { l with config := config }, rfl, hv, hle⟩, rfl, rfl, ?_, ?_, ?_⟩
    · rw [sharedEngine_some _ { l with config := config } rfl]
      simp [addedDrivers, readSlice]
    · rw [sharedEngine_some _ { l with config := config } rfl]
      simp [lastConfig]
    · rw [sharedEngine_some _ { l with config := config } rfl]
  | AddDriver drivers env =>
    have happ : (RegistryOp.AddDriver drivers env).apply w
        = { (append env.growCap l.drivers drivers w).2 with
            singleton := some { l with drivers := (append env.growCap l.drivers drivers w).1 } } := by
      simp [RegistryOp.apply, AddDriver, ensureInstance_some w l hs, hs]
    obtain ⟨hread, hback, hle1⟩ := append_read_other env.growCap l.drivers e drivers w hb hle
    obtain ⟨hself, hvalid⟩ := append_read_self env.growCap l.drivers drivers w hv
    obtain ⟨hmaps, _, _, _⟩ := append_frame env.growCap l.drivers drivers w
    rw [happ]
    refine ⟨⟨hback, _, rfl, hvalid, hle1⟩, hread, hmaps, ?_, ?_, ?_⟩
    · rw [sharedEngine_some _ _ rfl]
      simpa [addedDrivers] using hself
    · rw [sharedEngine_some _ _ rfl]
      simp [lastConfig]
    · rw [sharedEngine_some _ _ rfl]

theorem applyOps_isolated {σ : Type} (e : Slice) (ops : List (RegistryOp σ)) :
    ∀ (w : World σ), Isolated e w →
      Isolated e (applyOps ops w) ∧ readSlice (applyOps ops w) e = readSlice w e ∧
      (applyOps ops w).maps = w.maps ∧
      readSlice (applyOps ops w) (sharedEngine (applyOps ops w)).drivers
        = readSlice w (sharedEngine w).drivers ++ addedDrivers ops ∧
      (sharedEngine (applyOps ops w)).config = lastConfig ops (sharedEngine w).config ∧
      (sharedEngine (applyOps ops w)).context = (sharedEngine w).context := by
  induction ops with
  | nil => intro w h; simp [applyOps, addedDrivers, lastConfig, h]
  | cons op rest ih =>
    intro w h
    obtain ⟨h1, hr1, hm1, hd1, hc1, hx1⟩ := apply_isolated e op w h
    obtain ⟨h2, hr2, hm2, hd2, hc2, hx2⟩ := ih (op.apply w) h1
    have hfold : applyOps (op :: rest) w = applyOps rest (op.apply w) := rfl
    rw [hfold]
    refine ⟨h2, hr2.trans hr1, hm2.trans hm1, ?_, ?_, hx2.trans hx1⟩
    · rw [hd2, hd1]
      cases op <;> simp [addedDrivers]
    · rw [hc2, hc1]
      cases op <;> simp [lastConfig]

theorem derive_isolated {σ : Type} (c : Context) (w : World σ) (hwf : w.WellFormed) :
    Isolated (GetOmniLoggerWithContext c w).1.drivers (GetOmniLoggerWithContext c w).2 ∧
    (GetOmniLoggerWithContext c w).1 =
      { config := (sharedEngine w).config, drivers := (sharedEngine w).drivers,
        context := some c } ∧
    (GetOmniLoggerWithContext c w).2.arrays = w.arrays ∧
    (GetOmniLoggerWithContext c w).2.maps = w.maps ∧
    sharedEngine (GetOmniLoggerWithContext c w).2 = sharedEngine w := by
  obtain ⟨harr, hmaps, l, hs, hv, hl⟩ := ensureInstance_wellFormed w hwf
  have hE : (GetOmniLoggerWithContext c w).1 =
      { config := l.config, drivers := l.drivers, context := some c } := by
    simp [GetOmniLoggerWithContext, hs]
  have hW : (GetOmniLoggerWithContext c w).2 = ensureInstance w := rfl
  rw [hE, hW, ← hl]
  exact ⟨⟨hv.1, l, hs, hv, fun _ => Nat.le_refl _⟩, rfl, harr, hmaps,
    sharedEngine_some _ l hs⟩

/-- C9: the engine returned by `GetOmniLoggerWithContext(c)` holds the registry's config
and driver slice as they are at that moment and the context `c`. After any later history of
`AddDriver` and `AddConfig` calls the engine reads the same driver list and gates every
level as at derivation, so a dispatch on it runs over exactly the drivers registered before
derivation; the registry's own engine reads the old list followed by all added drivers, in
call order, and holds the config of the last `AddConfig`. -/
theorem derived_engine_unaffected_by_registry {σ : Type} (c : Context)
    (ops : List (RegistryOp σ)) (w : World σ) (hwf : w.WellFormed) :
    (GetOmniLoggerWithContext c w).1.context = some c ∧
    (GetOmniLoggerWithContext c w).1.config = (sharedEngine w).config ∧
    (GetOmniLoggerWithContext c w).1.drivers = (sharedEngine w).drivers ∧
    readSlice (GetOmniLoggerWithContext c w).2 (GetOmniLoggerWithContext c w).1.drivers
      = readSlice w (sharedEngine w).drivers ∧
    readSlice (applyOps ops (GetOmniLoggerWithContext c w).2)
        (GetOmniLoggerWithContext c w).1.drivers
      = readSlice (GetOmniLoggerWithContext c w).2 (GetOmniLoggerWithContext c w).1.drivers ∧
    (∀ level,
      (GetOmniLoggerWithContext c w).1.lookupLevel
          (applyOps ops (GetOmniLoggerWithContext c w).2) level
        = (GetOmniLoggerWithContext c w).1.lookupLevel (GetOmniLoggerWithContext c w).2 level) ∧
    (∀ level message env cs,
      mapIndex (derefMap (GetOmniLoggerWithContext c w).2
          (GetOmniLoggerWithContext c w).1.config.LogLevels) level = some true →
      (GetOmniLoggerWithContext c w).1.logWritter level message env cs
          (applyOps ops (GetOmniLoggerWithContext c w).2)
        = (fanOut env.sched
            (readSlice (GetOmniLoggerWithContext c w).2 (GetOmniLoggerWithContext c w).1.drivers)
            (recordOf (GetOmniLoggerWithContext c w).1 level message env cs)
            (applyOps ops (GetOmniLoggerWithContext c w).2)).2) ∧
    readSlice (applyOps ops (GetOmniLoggerWithContext c w).2)
        (sharedEngine (applyOps ops (GetOmniLoggerWithContext c w).2)).drivers
      = readSlice w (sharedEngine w).drivers ++ addedDrivers ops ∧
    (sharedEngine (applyOps ops (GetOmniLoggerWithContext c w).2)).config
      = lastConfig ops (sharedEngine w).config := by
  obtain ⟨hiso, hE, harr, hmaps, hshared⟩ := derive_isolated c w hwf
  obtain ⟨_, hread, hm, hdrv, hcfg, _⟩ :=
    applyOps_isolated (GetOmniLoggerWithContext c w).1.drivers ops
      (GetOmniLoggerWithContext c w).2 hiso
  have hderef : ∀ a, derefMap (applyOps ops (GetOmniLoggerWithContext c w).2) a
      = derefMap (GetOmniLoggerWithContext c w).2 a := by
    intro a
    cases a <;> simp [derefMap, hm]
  have hsame : readSlice (GetOmniLoggerWithContext c w).2 (sharedEngine w).drivers
      = readSlice w (sharedEngine w).drivers := by
    simp only [readSlice, harr]
  refine ⟨by rw [hE], by rw [hE], by rw [hE], ?_, hread, ?_, ?_, ?_, ?_⟩
  · rw [hE]
    exact hsame
  · intro level
    simp only [OmniLogger.lookupLevel, hderef]
  · intro level message env cs hen
    have hen2 : mapIndex (derefMap (applyOps ops (GetOmniLoggerWithContext c w).2)
        (GetOmniLoggerWithContext c w).1.config.LogLevels) level = some true := by
      rw [hderef]
      exact hen
    rw [logWritter_enabled _ level message env cs _ hen2, hread]
    rfl
  · rw [hdrv, hshared, hsame]
  · rw [hcfg, hshared]

/-- Witness for C9: an engine derived from a registry holding the test's config and the mock
driver; afterwards three more drivers are added and the config is replaced. -/
theorem derived_engine_unaffected_by_registry_witness :
    registryWorld.WellFormed ∧
    readSlice (applyOps laterOps (GetOmniLoggerWithContext mainContext registryWorld).2)
        (GetOmniLoggerWithContext mainContext registryWorld).1.drivers
      = readSlice (GetOmniLoggerWithContext mainContext registryWorld).2
          (GetOmniLoggerWithContext mainContext registryWorld).1.drivers ∧
    (readSlice (applyOps laterOps (GetOmniLoggerWithContext mainContext registryWorld).2)
        (GetOmniLoggerWithContext mainContext registryWorld).1.drivers).length = 1 ∧
    (readSlice (applyOps laterOps (GetOmniLoggerWithContext mainContext registryWorld).2)
        (sharedEngine (applyOps laterOps
          (GetOmniLoggerWithContext mainContext registryWorld).2)).drivers).length = 4 ∧
    (GetOmniLoggerWithContext mainContext registryWorld).1.config = { LogLevels := some 0 } ∧
    (sharedEngine (applyOps laterOps
        (GetOmniLoggerWithContext mainContext registryWorld).2)).config = { LogLevels := some 1 } :=
  ⟨by decide,
   (derived_engine_unaffected_by_registry mainContext laterOps registryWorld (by decide)).2.2.2.2.1,
   by decide, by decide, by decide, by decide⟩

/-- Well-formedness is an invariant of the registry: it holds while the package variable is
nil and every registry call keeps it. -/
theorem wellFormed_of_history {σ : Type} (ops : List (RegistryOp σ)) (w : World σ)
    (hwf : w.WellFormed) : (applyOps ops w).WellFormed := by
  induction ops generalizing w with
  | nil => exact hwf
  | cons op rest ih =>
    apply ih
    obtain ⟨harr, _, l, hs, hv, _⟩ := ensureInstance_wellFormed w hwf
    have hens : op.apply w = op.apply (ensureInstance w) := by
      cases op <;> cases hw : w.singleton <;>
        simp [RegistryOp.apply, AddDriver, AddConfig, ensureInstance, hw]
    have hiso : Isolated ({} : Slice) (ensureInstance w) :=
      ⟨by simp [Slice.Backed], l, hs, hv, fun _ => Nat.zero_le _⟩
    obtain ⟨⟨_, l1, hs1, hv1, _⟩, _⟩ := apply_isolated {} op (ensureInstance w) hiso
    show (op.apply w).WellFormed
    rw [hens]
    simp only [World.WellFormed, hs1]
    exact hv1

/-! ## `AddCustomLogLevel` writes through the shared map -/

theorem addCustomLogLevel_spec {σ : Type} (l : OmniLogger) (level : LogLevel) (enabled : Bool)
    (w : World σ) (a : Nat) (hcfg : l.config.LogLevels = some a) (ha : a < w.maps.length) :
    (l.AddCustomLogLevel level enabled w).1 = Outcome.returned ∧
    derefMap (l.AddCustomLogLevel level enabled w).2 (some a)
      = mapAssign (derefMap w (some a)) level enabled ∧
    (∀ b, b ≠ some a → derefMap (l.AddCustomLogLevel level enabled w).2 b = derefMap w b) ∧
    (l.AddCustomLogLevel level enabled w).2.arrays = w.arrays ∧
    (l.AddCustomLogLevel level enabled w).2.singleton = w.singleton ∧
    (l.AddCustomLogLevel level enabled w).2.calls = w.calls := by
  have hrun : l.AddCustomLogLevel level enabled w =
      (Outcome.returned,
       { w with maps := w.maps.set a (mapAssign ((w.maps[a]?).getD []) level enabled) }) := by
    simp only [OmniLogger.AddCustomLogLevel, hcfg]
  rw [hrun]
  refine ⟨rfl, ?_, ?_, rfl, rfl, rfl⟩
  · simp [derefMap, List.getElem?_set_self ha]
  · intro b hb
    cases b with
    | none => rfl
    | some a1 =>
      have hne : a ≠ a1 := fun h => hb (by rw [h])
      simp [derefMap, List.getElem?_set_ne hne]

theorem sharedEngine_congr {σ τ : Type} (w1 : World σ) (w2 : World τ)
    (h : w1.singleton = w2.singleton) : sharedEngine w1 = sharedEngine w2 := by
  cases hs : w2.singleton with
  | none =>
    rw [hs] at h
    simp [sharedEngine, ensureInstance, h, hs]
  | some l =>
    rw [hs] at h
    rw [sharedEngine_some w1 l h, sharedEngine_some w2 l hs]

theorem lookupLevel_of_deref {σ : Type} (l : OmniLogger) (w1 w2 : World σ)
    (h : derefMap w1 l.config.LogLevels = derefMap w2 l.config.LogLevels) (level : LogLevel) :
    l.lookupLevel w1 level = l.lookupLevel w2 level := by
  simp only [OmniLogger.lookupLevel, h]

theorem lookupLevel_assigned {σ : Type} (l : OmniLogger) (w1 w2 : World σ) (a : Nat)
    (level : LogLevel) (enabled : Bool) (hcfg : l.config.LogLevels = some a)
    (h : derefMap w1 (some a) = mapAssign (derefMap w2 (some a)) level enabled) :
    l.lookupLevel w1 level = (enabled, true) ∧
    ∀ other, other ≠ level → l.lookupLevel w1 other = l.lookupLevel w2 other := by
  constructor
  · simp only [OmniLogger.lookupLevel, hcfg, h, mapIndex_mapAssign_same]
  · intro other hne
    simp only [OmniLogger.lookupLevel, hcfg, h, mapIndex_mapAssign_other _ level other enabled hne]

/-- C10 (as amended): an engine derived with `GetOmniLoggerWithContext` holds the same
level-enable map as the registry's engine. When that map is allocated,
`AddCustomLogLevel(level, enabled)` on the derived engine returns and sets the level to
`enabled` for the derived engine, for the registry's shared engine and for every other
engine derived from it; every other level is gated as before for all three; an engine whose
config holds another map, or the nil map, gates every level as before; driver arrays, the
singleton and the record of calls are untouched. -/
theorem custom_level_on_derived_engine_is_shared {σ : Type} (c c2 : Context)
    (level : LogLevel) (enabled : Bool) (w w1 w2 : World σ) (e e2 : OmniLogger) (a : Nat)
    (hcfg : (sharedEngine w).config.LogLevels = some a) (ha : a < w.maps.length)
    (he : GetOmniLoggerWithContext c w = (e, w1))
    (he2 : GetOmniLoggerWithContext c2 w1 = (e2, w2)) :
    (e.AddCustomLogLevel level enabled w2).1 = Outcome.returned ∧
    e.lookupLevel (e.AddCustomLogLevel level enabled w2).2 level = (enabled, true) ∧
    (sharedEngine (e.AddCustomLogLevel level enabled w2).2).lookupLevel
      (e.AddCustomLogLevel level enabled w2).2 level = (enabled, true) ∧
    e2.lookupLevel (e.AddCustomLogLevel level enabled w2).2 level = (enabled, true) ∧
    (∀ other, other ≠ level →
      e.lookupLevel (e.AddCustomLogLevel level enabled w2).2 other = e.lookupLevel w2 other ∧
      (sharedEngine (e.AddCustomLogLevel level enabled w2).2).lookupLevel
        (e.AddCustomLogLevel level enabled w2).2 other = (sharedEngine w2).lookupLevel w2 other ∧
      e2.lookupLevel (e.AddCustomLogLevel level enabled w2).2 other = e2.lookupLevel w2 other) ∧
    (∀ (l : OmniLogger), l.config.LogLevels ≠ some a → ∀ lv,
      l.lookupLevel (e.AddCustomLogLevel level enabled w2).2 lv = l.lookupLevel w2 lv) ∧
    (e.AddCustomLogLevel level enabled w2).2.arrays = w2.arrays ∧
    (e.AddCustomLogLevel level enabled w2).2.singleton = w2.singleton ∧
    (e.AddCustomLogLevel level enabled w2).2.calls = w2.calls := by
  have hw1 : w1 = ensureInstance w := by
    have := congrArg Prod.snd he
    exact this.symm
  have hee : e =
      { config := (sharedEngine w).config, drivers := (sharedEngine w).drivers,
        context := some c } := by
    have := congrArg Prod.fst he
    simp only [GetOmniLoggerWithContext] at this
    exact this.symm
  have hidem : ensureInstance (ensureInstance w) = ensureInstance w := by
    cases hs : w.singleton <;> simp [ensureInstance, hs]
  have hw2 : w2 = ensureInstance w := by
    have := congrArg Prod.snd he2
    simp only [GetOmniLoggerWithContext, hw1, hidem] at this
    exact this.symm
  have hsh : sharedEngine w2 = sharedEngine w := by
    rw [hw2]
    simp only [sharedEngine, hidem]
  have hee2 : e2 =
      { config := (sharedEngine w).config, drivers := (sharedEngine w).drivers,
        context := some c2 } := by
    have := congrArg Prod.fst he2
    simp only [GetOmniLoggerWithContext, hw1, hidem] at this
    exact this.symm
  have hmaps : w2.maps = w.maps := by
    rw [hw2]
    cases hs : w.singleton <;> simp [ensureInstance, hs]
  have hecfg : e.config.LogLevels = some a := by rw [hee]; exact hcfg
  have he2cfg : e2.config.LogLevels = some a := by rw [hee2]; exact hcfg
  obtain ⟨hret, hderef, hother, harr, hsing, hcalls⟩ :=
    addCustomLogLevel_spec e level enabled w2 a hecfg (by rw [hmaps]; exact ha)
  have hsh3 : sharedEngine (e.AddCustomLogLevel level enabled w2).2 = sharedEngine w := by
    rw [← hsh]
    exact sharedEngine_congr _ _ hsing
  have hshcfg : (sharedEngine w).config.LogLevels = some a := hcfg
  refine ⟨hret, (lookupLevel_assigned e _ w2 a level enabled hecfg hderef).1, ?_,
    (lookupLevel_assigned e2 _ w2 a level enabled he2cfg hderef).1, ?_, ?_, harr, hsing, hcalls⟩
  · rw [hsh3]
    exact (lookupLevel_assigned (sharedEngine w) _ w2 a level enabled hshcfg hderef).1
  · intro other hne
    refine ⟨(lookupLevel_assigned e _ w2 a level enabled hecfg hderef).2 other hne, ?_,
      (lookupLevel_assigned e2 _ w2 a level enabled he2cfg hderef).2 other hne⟩
    rw [hsh3, hsh]
    exact (lookupLevel_assigned (sharedEngine w) _ w2 a level enabled hshcfg hderef).2 other hne
  · intro l hl lv
    exact lookupLevel_of_deref l _ w2 (hother _ hl) lv

/-- Witness for C10: the registry of the test world, two derived engines, and
`AddCustomLogLevel(TRACE, true)` on the first. -/
theorem custom_level_on_derived_engine_is_shared_witness :
    ((sharedEngine registryWorld).config.LogLevels = some 0 ∧ 0 < registryWorld.maps.length ∧
     GetOmniLoggerWithContext mainContext registryWorld
       = (contextLogger, (GetOmniLoggerWithContext mainContext registryWorld).2) ∧
     GetOmniLoggerWithContext { TransactionID := "", UserID := "", MetaData := [] }
         (GetOmniLoggerWithContext mainContext registryWorld).2
       = (secondLogger, derivedWorld)) ∧
    (contextLogger.AddCustomLogLevel "TRACE" true derivedWorld).1 = Outcome.returned ∧
    (sharedEngine (contextLogger.AddCustomLogLevel "TRACE" true derivedWorld).2).lookupLevel
      (contextLogger.AddCustomLogLevel "TRACE" true derivedWorld).2 "TRACE" = (true, true) :=
  ⟨⟨by decide, by decide, rfl, rfl⟩,
   (custom_level_on_derived_engine_is_shared mainContext
      { TransactionID := "", UserID := "", MetaData := [] } "TRACE" true registryWorld
      (GetOmniLoggerWithContext mainContext registryWorld).2 derivedWorld contextLogger
      secondLogger 0 (by decide) (by decide) rfl rfl).1,
   (custom_level_on_derived_engine_is_shared mainContext
      { TransactionID := "", UserID := "", MetaData := [] } "TRACE" true registryWorld
      (GetOmniLoggerWithContext mainContext registryWorld).2 derivedWorld contextLogger
      secondLogger 0 (by decide) (by decide) rfl rfl).2.2.1⟩

/-- C10 as stated fails: after `AddCustomLogLevel(TRACE, true)` on a derived engine, the
registry's shared engine and a second derived engine, which both rejected TRACE before the
call, accept it; a `Log(TRACE, ...)` through the registry now reaches the registry's driver. -/
theorem custom_level_on_derived_engine_reaches_registry :
    (sharedEngine derivedWorld).lookupLevel derivedWorld "TRACE" = (false, false) ∧
    (sharedEngine traceWorld).lookupLevel traceWorld "TRACE" = (true, true) ∧
    secondLogger.lookupLevel derivedWorld "TRACE" = (false, false) ∧
    secondLogger.lookupLevel traceWorld "TRACE" = (true, true) ∧
    (Log "TRACE" "This is a custom log" testEnv testStack derivedWorld).2.ext = [] ∧
    (Log "TRACE" "This is a custom log" testEnv testStack traceWorld).2.ext
      = ["This is a custom log"] := by
  decide

/-! ## `AddCustomLogLevel` on an initialised level-enable set -/

/-- C11: on an engine whose level-enable map is allocated, `AddCustomLogLevel(level, b)`
returns and leaves the map with `level` mapped to `b`, whatever the token and whether or
not it was present; every other level is looked up as before; the engine's driver list and
the rest of the world are unchanged (the engine value itself, with its context, is not
written at all). A following `Log(level, m)` serves every driver position once when `b` is
true and leaves the world as it is when `b` is false. -/
theorem add_custom_level_sets_that_level_only {σ : Type} (l : OmniLogger) (level : LogLevel)
    (b : Bool) (message : String) (env : Env) (cs : List Frame) (w : World σ) (a : Nat)
    (hcfg : l.config.LogLevels = some a) (ha : a < w.maps.length) :
    (l.AddCustomLogLevel level b w).1 = Outcome.returned ∧
    mapIndex (derefMap (l.AddCustomLogLevel level b w).2 l.config.LogLevels) level = some b ∧
    (∀ other, other ≠ level →
      mapIndex (derefMap (l.AddCustomLogLevel level b w).2 l.config.LogLevels) other
        = mapIndex (derefMap w l.config.LogLevels) other) ∧
    readSlice (l.AddCustomLogLevel level b w).2 l.drivers = readSlice w l.drivers ∧
    (l.AddCustomLogLevel level b w).2.singleton = w.singleton ∧
    (l.AddCustomLogLevel level b w).2.ext = w.ext ∧
    (l.AddCustomLogLevel level b w).2.calls = w.calls ∧
    (b = true →
      (l.Log level message env cs (l.AddCustomLogLevel level b w).2).1 = Outcome.returned ∧
      ∃ new,
        (l.Log level message env cs (l.AddCustomLogLevel level b w).2).2.calls = w.calls ++ new ∧
        (∀ c ∈ new, c.driver < (readSlice w l.drivers).length) ∧
        ∀ i, i < (readSlice w l.drivers).length →
          ((callsOf i new).filter Call.isFormat).length = 1 ∧
          ((callsOf i new).filter Call.isWrite).length = 1) ∧
    (b = false →
      l.Log level message env cs (l.AddCustomLogLevel level b w).2
        = (Outcome.returned, (l.AddCustomLogLevel level b w).2)) := by
  obtain ⟨hret, hderef, _, harr, hsing, hcalls⟩ := addCustomLogLevel_spec l level b w a hcfg ha
  have hset : mapIndex (derefMap (l.AddCustomLogLevel level b w).2 l.config.LogLevels) level
      = some b := by
    rw [hcfg, hderef]
    exact mapIndex_mapAssign_same _ _ _
  have hread : readSlice (l.AddCustomLogLevel level b w).2 l.drivers = readSlice w l.drivers := by
    simp only [readSlice, harr]
  have hext : (l.AddCustomLogLevel level b w).2.ext = w.ext := by
    simp only [OmniLogger.AddCustomLogLevel, hcfg]
  refine ⟨hret, hset, ?_, hread, hsing, hext, hcalls, ?_, ?_⟩
  · intro other hne
    rw [hcfg, hderef]
    exact mapIndex_mapAssign_other _ level other b hne
  · intro hb
    subst hb
    obtain ⟨_, _, _, new, hnew, hbound, hserved⟩ :=
      logWritter_serves l level message env
        (⟨"logger_core.go", 118, "omnilogger.(*OmniLogger).Log"⟩ :: cs)
        (l.AddCustomLogLevel level true w).2 hset
    rw [hread] at hbound hserved
    refine ⟨rfl, new, ?_, hbound, ?_⟩
    · rw [← hcalls]
      exact hnew
    · intro i hi
      exact served_counts _ i _ _ (hserved i _ (List.getElem?_eq_getElem hi))
  · intro hb
    subst hb
    have hne : mapIndex (derefMap (l.AddCustomLogLevel level false w).2 l.config.LogLevels) level
        ≠ some true := by
      rw [hset]
      simp
    simp [OmniLogger.Log, logWritter_disabled l level message env _ _ hne]

/-- Witness for C11: `AddCustomLogLevel(TRACE, true)` as in `main.go`, on the engine of the
test, then `Log(TRACE, ...)`; and the empty token switched off. -/
theorem add_custom_level_sets_that_level_only_witness :
    (testLogger.config.LogLevels = some 0 ∧ 0 < testWorld.maps.length) ∧
    mapIndex (derefMap (testLogger.AddCustomLogLevel "TRACE" true testWorld).2
      testLogger.config.LogLevels) "TRACE" = some true ∧
    (testLogger.Log "TRACE" "This is a custom log" testEnv testStack
      (testLogger.AddCustomLogLevel "TRACE" true testWorld).2).2.ext = ["This is a custom log"] ∧
    testLogger.Log "" "nothing" testEnv testStack
        (testLogger.AddCustomLogLevel "" false testWorld).2
      = (Outcome.returned, (testLogger.AddCustomLogLevel "" false testWorld).2) :=
  ⟨⟨rfl, by decide⟩,
   (add_custom_level_sets_that_level_only testLogger "TRACE" true "This is a custom log" testEnv
      testStack testWorld 0 rfl (by decide)).2.1,
   by decide,
   (add_custom_level_sets_that_level_only testLogger "" false "nothing" testEnv
      testStack testWorld 0 rfl (by decide)).2.2.2.2.2.2.2.2 rfl⟩

/-! ## Engines whose level-enable map is nil -/

/-- C14: on an engine whose level-enable map is nil, `Log`, the four level wrappers and the
four `f` wrappers return with the world as it was (no driver is reached), and
`AddCustomLogLevel` panics with a write to a nil map, leaving the world as it was, for every
token and boolean. The engines the registry creates before any `AddConfig` (the zeroed
singleton and every engine derived from it) and `NewOmniLogger` on a zero `Config` hold the
nil map. -/
theorem nil_level_map_is_silent_and_rejects_custom_levels {σ : Type} (l : OmniLogger)
    (level : LogLevel) (b : Bool) (message format : String) (args : List Value) (env : Env)
    (cs : List Frame) (c : Context) (ctx : Option Context) (drivers : Slice) (w w0 : World σ)
    (hnil : l.config.LogLevels = none) :
    l.Log level message env cs w = (Outcome.returned, w) ∧
    l.Debug message env cs w = (Outcome.returned, w) ∧
    l.Info message env cs w = (Outcome.returned, w) ∧
    l.Warn message env cs w = (Outcome.returned, w) ∧
    l.Error message env cs w = (Outcome.returned, w) ∧
    l.Debugf format args env cs w = (Outcome.returned, w) ∧
    l.Infof format args env cs w = (Outcome.returned, w) ∧
    l.Warnf format args env cs w = (Outcome.returned, w) ∧
    l.Errorf format args env cs w = (Outcome.returned, w) ∧
    l.AddCustomLogLevel level b w = (Outcome.panicked "assignment to entry in nil map", w) ∧
    (w0.singleton = none →
      (sharedEngine w0).config.LogLevels = none ∧
      (GetOmniLoggerWithContext c w0).1.config.LogLevels = none) ∧
    (NewOmniLogger {} ctx drivers).config.LogLevels = none := by
  have hoff : ∀ lv, mapIndex (derefMap w l.config.LogLevels) lv ≠ some true := by
    intro lv
    simp [hnil, derefMap, mapIndex]
  refine ⟨?_, ?_, ?_, ?_, ?_, ?_, ?_, ?_, ?_, ?_, ?_, rfl⟩
  · simp [OmniLogger.Log, logWritter_disabled l level message env _ w (hoff level)]
  · simp [OmniLogger.Debug, logWritter_disabled l DEBUG message env _ w (hoff DEBUG)]
  · simp [OmniLogger.Info, logWritter_disabled l INFO message env _ w (hoff INFO)]
  · simp [OmniLogger.Warn, logWritter_disabled l WARN message env _ w (hoff WARN)]
  · simp [OmniLogger.Error, logWritter_disabled l ERROR message env _ w (hoff ERROR)]
  · simp [OmniLogger.Debugf, logWritter_disabled l DEBUG _ env _ w (hoff DEBUG)]
  · simp [OmniLogger.Infof, logWritter_disabled l INFO _ env _ w (hoff INFO)]
  · simp [OmniLogger.Warnf, logWritter_disabled l WARN _ env _ w (hoff WARN)]
  · simp [OmniLogger.Errorf, logWritter_disabled l ERROR _ env _ w (hoff ERROR)]
  · simp [OmniLogger.AddCustomLogLevel, hnil]
  · intro hs
    simp [sharedEngine, GetOmniLoggerWithContext, ensureInstance, hs]

/-- Witness for C14: the engine derived from the registry while the package variable is
still nil. -/
theorem nil_level_map_is_silent_and_rejects_custom_levels_witness :
    ((GetOmniLoggerWithContext mainContext testWorld).1.config.LogLevels = none ∧
     testWorld.singleton = none) ∧
    (GetOmniLoggerWithContext mainContext testWorld).1.Error "Error message: File not found"
        testEnv testStack (GetOmniLoggerWithContext mainContext testWorld).2
      = (Outcome.returned, (GetOmniLoggerWithContext mainContext testWorld).2) ∧
    (GetOmniLoggerWithContext mainContext testWorld).1.AddCustomLogLevel "TRACE" true
        (GetOmniLoggerWithContext mainContext testWorld).2
      = (Outcome.panicked "assignment to entry in nil map",
         (GetOmniLoggerWithContext mainContext testWorld).2) ∧
    (sharedEngine testWorld).config.LogLevels = none :=
  ⟨⟨rfl, rfl⟩,
   (nil_level_map_is_silent_and_rejects_custom_levels
      (GetOmniLoggerWithContext mainContext testWorld).1 "TRACE" true
      "Error message: File not found" "%s" [] testEnv testStack mainContext none {}
      (GetOmniLoggerWithContext mainContext testWorld).2 testWorld rfl).2.2.2.2.1,
   (nil_level_map_is_silent_and_rejects_custom_levels
      (GetOmniLoggerWithContext mainContext testWorld).1 "TRACE" true
      "Error message: File not found" "%s" [] testEnv testStack mainContext none {}
      (GetOmniLoggerWithContext mainContext testWorld).2 testWorld rfl).2.2.2.2.2.2.2.2.2.1,
   ((nil_level_map_is_silent_and_rejects_custom_levels
      (GetOmniLoggerWithContext mainContext testWorld).1 "TRACE" true
      "Error message: File not found" "%s" [] testEnv testStack mainContext none {}
      (GetOmniLoggerWithContext mainContext testWorld).2 testWorld rfl).2.2.2.2.2.2.2.2.2.2.1
      rfl).1⟩

/-! ## The reported call site -/

/-- C12: `captureStackTrace` always asks for `runtime.Caller(4)`. Reached through an instance
method (frames: `captureStackTrace`, `logWritter`, the method, the application function
`f0`, its caller `f1`) the record names `f1`, the caller of the application function, and
is `unknown` when the application function has no caller frame; reached through a registry
free function (one more frame of the logger) it names the application function `f0`. On
the stack of `main.main` calling the logger, every instance method records the frame of
`runtime.main`, every registry function the frame of `main.main`. -/
theorem stack_trace_depth_fits_registry_functions_only (l : OmniLogger) (level : LogLevel)
    (message : String) (env : Env) (method mirror f0 f1 : Frame) (rest : List Frame) :
    (recordOf l level message env (method :: f0 :: f1 :: rest)).StackTrace = renderFrame f1 ∧
    (recordOf l level message env [method, f0]).StackTrace = "unknown" ∧
    (recordOf l level message env (method :: mirror :: f0 :: rest)).StackTrace = renderFrame f0 ∧
    renderFrame ⟨"main.go", 40, "main.main"⟩ = "main.go:40 main.main" ∧
    [stackTraces (allLevelsLogger.Log INFO "m" testEnv testStack testWorld).2.calls,
     stackTraces (allLevelsLogger.Debug "m" testEnv testStack testWorld).2.calls,
     stackTraces (allLevelsLogger.Info "m" testEnv testStack testWorld).2.calls,
     stackTraces (allLevelsLogger.Warn "m" testEnv testStack testWorld).2.calls,
     stackTraces (allLevelsLogger.Error "m" testEnv testStack testWorld).2.calls,
     stackTraces (allLevelsLogger.Logf INFO "m" [] testEnv testStack testWorld).2.calls,
     stackTraces (allLevelsLogger.Debugf "m" [] testEnv testStack testWorld).2.calls,
     stackTraces (allLevelsLogger.Infof "m" [] testEnv testStack testWorld).2.calls,
     stackTraces (allLevelsLogger.Warnf "m" [] testEnv testStack testWorld).2.calls,
     stackTraces (allLevelsLogger.Errorf "m" [] testEnv testStack testWorld).2.calls]
      = List.replicate 10 ["proc.go:271 runtime.main"] ∧
    [stackTraces (Log INFO "m" testEnv testStack allLevelsRegistry).2.calls,
     stackTraces (Debug "m" testEnv testStack allLevelsRegistry).2.calls,
     stackTraces (Info "m" testEnv testStack allLevelsRegistry).2.calls,
     stackTraces (Warn "m" testEnv testStack allLevelsRegistry).2.calls,
     stackTraces (Error "m" testEnv testStack allLevelsRegistry).2.calls,
     stackTraces (Logf INFO "m" [] testEnv testStack allLevelsRegistry).2.calls,
     stackTraces (Debugf "m" [] testEnv testStack allLevelsRegistry).2.calls,
     stackTraces (Infof "m" [] testEnv testStack allLevelsRegistry).2.calls,
     stackTraces (Warnf "m" [] testEnv testStack allLevelsRegistry).2.calls,
     stackTraces (Errorf "m" [] testEnv testStack allLevelsRegistry).2.calls]
      = List.replicate 10 ["main.go:40 main.main"] ∧
    stackTraces (allLevelsLogger.Debug "m" testEnv [⟨"worker.go", 12, "main.worker"⟩]
      testWorld).2.calls = ["unknown"] := by
  refine ⟨?_, ?_, ?_, by decide, by decide, by decide, by decide⟩
  · simp [recordOf, OmniLogger.captureStackTrace, runtimeCaller, renderFrame]
  · simp [recordOf, OmniLogger.captureStackTrace, runtimeCaller]
  · simp [recordOf, OmniLogger.captureStackTrace, runtimeCaller, renderFrame]

/-! ## The barrier of `wg.Wait()` -/

theorem sum_map_set (f : Worker → Nat) (ws : List Worker) (i : Nat) (x : Worker)
    (hi : i < ws.length) :
    ((ws.set i x).map f).sum + f (ws.getD i Worker.finished) = (ws.map f).sum + f x := by
  induction ws generalizing i with
  | nil => simp at hi
  | cons y rest ih =>
    cases i with
    | zero =>
      simp only [List.set_cons_zero, List.getD_cons_zero, List.map_cons, List.sum_cons]
      omega
    | succ j =>
      have hj : j < rest.length := by simpa using hi
      have := ih j hj
      simp only [List.set_cons_succ, List.getD_cons_succ, List.map_cons, List.sum_cons] at this ⊢
      omega

theorem unfinished_append (ws : List Worker) :
    unfinished (ws ++ [Worker.callFormat]) = unfinished ws + 1 := by
  simp [unfinished, Worker.live]

theorem unfinished_zero (ws : List Worker) (h : unfinished ws = 0) :
    ∀ x ∈ ws, x = Worker.finished := by
  induction ws with
  | nil => simp
  | cons y rest ih =>
    intro x hx
    simp only [unfinished, List.map_cons, List.sum_cons] at h
    rcases List.mem_cons.mp hx with hx | hx
    · subst hx
      cases x <;> simp [Worker.live] at h ⊢
    · exact ih (by simp only [unfinished]; omega) x hx

/-- What one step of a goroutine that has not finished does: its program point advances,
the counter drops by one exactly when it reaches `finished`, the calls that returned in
this step are on its own driver and extend its history, and only the state behind the
drivers and the two records of the world change. -/
theorem stepWorker_spec {σ : Type} (d : LoggerDriver σ) (i : Nat) (md : MessageData)
    (s : Conc σ) (hlive : (s.workers.getD i Worker.finished).live = 1) :
    ∃ x1 add,
      (stepWorker d i md s).workers = s.workers.set i x1 ∧
      (stepWorker d i md s).main = s.main ∧
      (stepWorker d i md s).wg = s.wg - (1 - x1.live) ∧
      x1.weight < (s.workers.getD i Worker.finished).weight ∧
      (stepWorker d i md s).world.calls = s.world.calls ++ add ∧
      (∀ c ∈ add, c.driver = i) ∧
      (∀ h, WorkerHist d i md (s.workers.getD i Worker.finished) h →
        WorkerHist d i md x1 (h ++ add)) ∧
      (stepWorker d i md s).world.maps = s.world.maps ∧
      (stepWorker d i md s).world.arrays = s.world.arrays ∧
      (stepWorker d i md s).world.singleton = s.world.singleton := by
  cases hx : s.workers.getD i Worker.finished with
  | callFormat =>
    have hstep : stepWorker d i md s = { s with workers := s.workers.set i Worker.inFormat } := by
      simp only [stepWorker, hx]
    rw [hstep]
    refine ⟨Worker.inFormat, [], ?_, ?_, ?_, ?_, ?_, ?_, ?_, ?_, ?_, ?_⟩ <;>
      simp [Worker.live, Worker.weight, WorkerHist]
  | inFormat =>
    cases hr : (d.FormatLog md s.world.ext).1.2 with
    | some err =>
      have hstep : stepWorker d i md s =
          { s with
            workers := s.workers.set i (Worker.reportFormat (d.FormatLog md s.world.ext).1.1 err),
            world := { s.world with
              ext := (d.FormatLog md s.world.ext).2,
              calls := s.world.calls ++
                [Call.FormatLog i md (d.FormatLog md s.world.ext).1.1 (some err)] } } := by
        simp only [stepWorker, hx, hr]
      rw [hstep]
      refine ⟨Worker.reportFormat (d.FormatLog md s.world.ext).1.1 err,
        [Call.FormatLog i md (d.FormatLog md s.world.ext).1.1 (some err)],
        rfl, rfl, ?_, ?_, rfl, ?_, ?_, rfl, rfl, rfl⟩
      · simp [Worker.live]
      · simp [Worker.weight]
      · intro c hc; simp at hc; subst hc; rfl
      · intro h hh
        simp only [WorkerHist] at hh
        subst hh
        exact ⟨rfl, s.world.ext, by rw [← hr]⟩
    | none =>
      have hstep : stepWorker d i md s =
          { s with
            workers := s.workers.set i (Worker.callWrite (d.FormatLog md s.world.ext).1.1),
            world := { s.world with
              ext := (d.FormatLog md s.world.ext).2,
              calls := s.world.calls ++
                [Call.FormatLog i md (d.FormatLog md s.world.ext).1.1 none] } } := by
        simp only [stepWorker, hx, hr]
      rw [hstep]
      refine ⟨Worker.callWrite (d.FormatLog md s.world.ext).1.1,
        [Call.FormatLog i md (d.FormatLog md s.world.ext).1.1 none],
        rfl, rfl, ?_, ?_, rfl, ?_, ?_, rfl, rfl, rfl⟩
      · simp [Worker.live]
      · simp [Worker.weight]
      · intro c hc; simp at hc; subst hc; rfl
      · intro h hh
        simp only [WorkerHist] at hh
        subst hh
        exact ⟨none, rfl, s.world.ext, by rw [← hr]⟩
  | reportFormat out err =>
    have hstep : stepWorker d i md s =
        { s with
          workers := s.workers.set i (Worker.callWrite out),
          world := { s.world with
            stdout := s.world.stdout ++ ["Error formatting log: " ++ err] } } := by
      simp only [stepWorker, hx]
    rw [hstep]
    refine ⟨Worker.callWrite out, [], rfl, rfl, ?_, ?_, ?_, ?_, ?_, rfl, rfl, rfl⟩
    · simp [Worker.live]
    · simp [Worker.weight]
    · simp
    · simp
    · intro h hh
      simp only [WorkerHist, List.append_nil] at hh ⊢
      exact ⟨some err, hh.1, hh.2⟩
  | callWrite out =>
    have hstep : stepWorker d i md s = { s with workers := s.workers.set i (Worker.inWrite out) } := by
      simp only [stepWorker, hx]
    rw [hstep]
    refine ⟨Worker.inWrite out, [], ?_, ?_, ?_, ?_, ?_, ?_, ?_, ?_, ?_, ?_⟩ <;>
      simp [Worker.live, Worker.weight, WorkerHist]
  | inWrite out =>
    have hserved : ∀ h, WorkerHist d i md (Worker.inWrite out) h →
        Served d i md (h ++ [Call.WriteLog i out (d.WriteLog out s.world.ext).1]) := by
      intro h hh
      obtain ⟨e, hh1, hs⟩ := hh
      subst hh1
      exact ⟨out, e, (d.WriteLog out s.world.ext).1, rfl, hs, s.world.ext, rfl⟩
    cases hr : (d.WriteLog out s.world.ext).1 with
    | some err =>
      rw [hr] at hserved
      have hstep : stepWorker d i md s =
          { s with
            workers := s.workers.set i (Worker.reportWrite err),
            world := { s.world with
              ext := (d.WriteLog out s.world.ext).2,
              calls := s.world.calls ++ [Call.WriteLog i out (some err)] } } := by
        simp only [stepWorker, hx, hr]
      rw [hstep]
      refine ⟨Worker.reportWrite err, [Call.WriteLog i out (some err)],
        rfl, rfl, ?_, ?_, rfl, ?_, hserved, rfl, rfl, rfl⟩
      · simp [Worker.live]
      · simp [Worker.weight]
      · intro c hc; simp at hc; subst hc; rfl
    | none =>
      rw [hr] at hserved
      have hstep : stepWorker d i md s =
          { s with
            workers := s.workers.set i Worker.deferred,
            world := { s.world with
              ext := (d.WriteLog out s.world.ext).2,
              calls := s.world.calls ++ [Call.WriteLog i out none] } } := by
        simp only [stepWorker, hx, hr]
      rw [hstep]
      refine ⟨Worker.deferred, [Call.WriteLog i out none],
        rfl, rfl, ?_, ?_, rfl, ?_, hserved, rfl, rfl, rfl⟩
      · simp [Worker.live]
      · simp [Worker.weight]
      · intro c hc; simp at hc; subst hc; rfl
  | reportWrite err =>
    have hstep : stepWorker d i md s =
        { s with
          workers := s.workers.set i Worker.deferred,
          world := { s.world with
            stdout := s.world.stdout ++ ["Error writing log: " ++ err] } } := by
      simp only [stepWorker, hx]
    rw [hstep]
    refine ⟨Worker.deferred, [], rfl, rfl, ?_, ?_, ?_, ?_, ?_, rfl, rfl, rfl⟩
    · simp [Worker.live]
    · simp [Worker.weight]
    · simp
    · simp
    · intro h hh
      simpa [WorkerHist] using hh
  | deferred =>
    have hstep : stepWorker d i md s =
        { s with workers := s.workers.set i Worker.finished, wg := s.wg - 1 } := by
      simp only [stepWorker, hx]
    rw [hstep]
    refine ⟨Worker.finished, [], rfl, rfl, ?_, ?_, ?_, ?_, ?_, rfl, rfl, rfl⟩
    · simp [Worker.live]
    · simp [Worker.weight]
    · simp
    · simp
    · intro h hh
      simpa [WorkerHist] using hh
  | finished =>
    rw [hx] at hlive
    simp [Worker.live] at hlive

theorem live_of_not_finished (x : Worker) (h : x.isFinished = false) : x.live = 1 := by
  cases x <;> simp [Worker.isFinished, Worker.live] at h ⊢

theorem concStep_spec {σ : Type} (sched : Nat → Nat) (ds : List (LoggerDriver σ))
    (md : MessageData) (t : Nat) (s s1 : Conc σ) (h : concStep sched ds md t s = some s1) :
    (mainEnabled s = true ∧ s1 = stepMain ds.length s) ∨
    ∃ i d, i < s.workers.length ∧ (s.workers.getD i Worker.finished).live = 1 ∧
      ds[i]? = some d ∧ s1 = stepWorker d i md s := by
  unfold concStep at h
  cases he : enabledThreads s with
  | nil => simp [he] at h
  | cons e0 rest =>
    simp only [he] at h
    have hlt : sched t % (rest.length + 1) < (e0 :: rest).length := by
      simp only [List.length_cons]
      exact Nat.mod_lt _ (Nat.succ_pos _)
    have hmem : (e0 :: rest).getD (sched t % (rest.length + 1)) e0 ∈ enabledThreads s := by
      rw [he, List.getD_eq_getElem _ _ hlt]
      exact List.getElem_mem hlt
    cases hth : (e0 :: rest).getD (sched t % (rest.length + 1)) e0 with
    | zero =>
      rw [hth] at hmem h
      simp only [Option.some.injEq] at h
      left
      refine ⟨?_, h.symm⟩
      unfold enabledThreads at hmem
      rcases List.mem_append.mp hmem with hm | hm
      · by_cases hen : mainEnabled s = true
        · exact hen
        · simp [hen] at hm
      · simp at hm
    | succ i =>
      rw [hth] at hmem h
      right
      unfold enabledThreads at hmem
      have hw : i < s.workers.length ∧ (s.workers.getD i Worker.finished).isFinished = false := by
        rcases List.mem_append.mp hmem with hm | hm
        · by_cases hen : mainEnabled s = true <;> simp [hen] at hm
        · rw [List.mem_map] at hm
          obtain ⟨j, hj, hji⟩ := hm
          have hji2 : j = i := by omega
          subst hji2
          rw [List.mem_filter, List.mem_range] at hj
          exact ⟨hj.1, by simpa using hj.2⟩
      cases hd : ds[i]? with
      | none => simp [hd] at h
      | some d =>
        simp only [hd, Option.some.injEq] at h
        exact ⟨i, d, hw.1, live_of_not_finished _ hw.2, hd, h.symm⟩

theorem enabledThreads_nil {σ : Type} (s : Conc σ) (h : enabledThreads s = []) :
    mainEnabled s = false ∧ unfinished s.workers = 0 := by
  unfold enabledThreads at h
  rw [List.append_eq_nil] at h
  obtain ⟨h1, h2⟩ := h
  constructor
  · by_cases hen : mainEnabled s = true
    · simp [hen] at h1
    · simpa using hen
  · have hall : ∀ i, i < s.workers.length →
        (s.workers.getD i Worker.finished).isFinished = true := by
      intro i hi
      by_contra hnf
      have hmem : i ∈ (List.range s.workers.length).filter
          (fun i => !(s.workers.getD i Worker.finished).isFinished) := by
        rw [List.mem_filter, List.mem_range]
        exact ⟨hi, by simpa using hnf⟩
      have hmap := List.mem_map_of_mem (fun i => i + 1) hmem
      rw [h2] at hmap
      exact List.not_mem_nil _ hmap
    have hzero : ∀ x ∈ s.workers, x.live = 0 := by
      intro x hx
      obtain ⟨i, hi, hget⟩ := List.getElem_of_mem hx
      have := hall i hi
      rw [List.getD_eq_getElem _ _ hi, hget] at this
      cases x <;> simp [Worker.isFinished, Worker.live] at this ⊢
    unfold unfinished
    apply List.sum_eq_zero
    intro n hn
    rw [List.mem_map] at hn
    obtain ⟨x, hx, hxn⟩ := hn
    rw [← hxn]
    exact hzero x hx

theorem getD_append_callFormat (ws : List Worker) (i : Nat) :
    (ws ++ [Worker.callFormat]).getD i Worker.callFormat = ws.getD i Worker.callFormat := by
  induction ws generalizing i with
  | nil => cases i <;> simp
  | cons y rest ih =>
    cases i with
    | zero => rfl
    | succ j => simpa using ih j

theorem live_le_one (x : Worker) : x.live ≤ 1 := by
  cases x <;> simp [Worker.live]

/-- A step of `logWritter` itself keeps the invariant, leaves the world alone and lowers
the measure. -/
theorem stepMain_inv {σ : Type} (ds : List (LoggerDriver σ)) (md : MessageData)
    (base : List Call) (s : Conc σ) (inv : ConcInv ds md base s)
    (hen : mainEnabled s = true) :
    ConcInv ds md base (stepMain ds.length s) ∧
    concMeasure ds.length (stepMain ds.length s) < concMeasure ds.length s ∧
    (stepMain ds.length s).world = s.world := by
  obtain ⟨hpos, hwg, hret, new, hcalls, hbound, hhist⟩ := inv
  cases hm : s.main with
  | loop k =>
    rw [hm] at hpos hwg
    simp only [MainPc.position, MainPc.pending] at hpos hwg
    by_cases hk : k < ds.length
    · have hstep : stepMain ds.length s = { s with wg := s.wg + 1, main := MainPc.spawn k } := by
        simp only [stepMain, hm, if_pos hk]
      rw [hstep]
      refine ⟨⟨?_, ?_, ?_, new, hcalls, hbound, hhist⟩, ?_, rfl⟩
      · exact ⟨hpos.1, hk⟩
      · simp only [MainPc.pending]; omega
      · intro h; cases h
      · simp only [concMeasure, hm, MainPc.weight]; omega
    · have hstep : stepMain ds.length s = { s with main := MainPc.wait } := by
        simp only [stepMain, hm, if_neg hk]
      rw [hstep]
      refine ⟨⟨?_, ?_, ?_, new, hcalls, hbound, hhist⟩, ?_, rfl⟩
      · simp only [MainPc.position]; omega
      · simp only [MainPc.pending]; omega
      · intro h; cases h
      · simp only [concMeasure, hm, MainPc.weight]; omega
  | spawn k =>
    rw [hm] at hpos hwg
    simp only [MainPc.position, MainPc.pending] at hpos hwg
    have hstep : stepMain ds.length s =
        { s with workers := s.workers ++ [Worker.callFormat], main := MainPc.loop (k + 1) } := by
      simp only [stepMain, hm]
    rw [hstep]
    refine ⟨⟨?_, ?_, ?_, new, hcalls, hbound, ?_⟩, ?_, rfl⟩
    · simp only [MainPc.position, List.length_append, List.length_singleton]; omega
    · simp only [MainPc.pending, unfinished_append]; omega
    · intro h; cases h
    · intro i d hd
      simp only [getD_append_callFormat]
      exact hhist i d hd
    · simp only [concMeasure, hm, MainPc.weight, List.map_append, List.sum_append,
        List.length_append, List.length_singleton, List.map_cons, List.map_nil, List.sum_cons,
        List.sum_nil, Worker.weight]
      omega
  | wait =>
    rw [hm] at hpos hwg
    simp only [MainPc.position, MainPc.pending] at hpos hwg
    have hz : s.wg = 0 := by
      simpa [mainEnabled, hm] using hen
    have hstep : stepMain ds.length s = { s with main := MainPc.returned } := by
      simp only [stepMain, hm, if_pos hz]
    rw [hstep]
    refine ⟨⟨?_, ?_, ?_, new, hcalls, hbound, hhist⟩, ?_, rfl⟩
    · exact hpos
    · simp only [MainPc.pending]; omega
    · intro _; exact hz
    · simp only [concMeasure, hm, MainPc.weight]; omega
  | returned =>
    simp [mainEnabled, hm] at hen

/-- A step of a goroutine keeps the invariant, touches neither the heap nor the singleton,
and lowers the measure. -/
theorem stepWorker_inv {σ : Type} (ds : List (LoggerDriver σ)) (md : MessageData)
    (base : List Call) (s : Conc σ) (inv : ConcInv ds md base s) (i : Nat)
    (d : LoggerDriver σ) (hi : i < s.workers.length)
    (hlive : (s.workers.getD i Worker.finished).live = 1) (hd : ds[i]? = some d) :
    ConcInv ds md base (stepWorker d i md s) ∧
    concMeasure ds.length (stepWorker d i md s) < concMeasure ds.length s ∧
    (stepWorker d i md s).world.maps = s.world.maps ∧
    (stepWorker d i md s).world.arrays = s.world.arrays ∧
    (stepWorker d i md s).world.singleton = s.world.singleton := by
  obtain ⟨hpos, hwg, hret, new, hcalls, hbound, hhist⟩ := inv
  obtain ⟨x1, add, hws, hmain, hwg1, hweight, hadd, hdrv, hnext, hmaps, harr, hsing⟩ :=
    stepWorker_spec d i md s hlive
  have hsum := sum_map_set Worker.live s.workers i x1 hi
  have hsumw := sum_map_set Worker.weight s.workers i x1 hi
  have hx1 := live_le_one x1
  have hil : i < ds.length := (List.getElem?_eq_some.mp hd).1
  have hold : s.workers.getD i Worker.callFormat = s.workers.getD i Worker.finished := by
    rw [List.getD_eq_getElem _ _ hi, List.getD_eq_getElem _ _ hi]
  refine ⟨⟨?_, ?_, ?_, new ++ add, ?_, ?_, ?_⟩, ?_, hmaps, harr, hsing⟩
  · rw [hmain, hws]
    cases hm : s.main <;> rw [hm] at hpos <;>
      simpa [MainPc.position] using hpos
  · rw [hmain, hwg1, hws]
    simp only [unfinished] at hwg ⊢
    omega
  · intro hr
    rw [hmain] at hr
    have := hret hr
    rw [hwg1]
    omega
  · rw [hadd, hcalls, List.append_assoc]
  · intro c hc
    rcases List.mem_append.mp hc with hc | hc
    · exact hbound c hc
    · rw [hdrv c hc]; exact hil
  · intro j dj hj
    rw [hws]
    by_cases hji : j = i
    · subst hji
      have hdd : dj = d := by rw [hd] at hj; exact (Option.some.inj hj).symm
      subst hdd
      have hget : (s.workers.set j x1).getD j Worker.callFormat = x1 := by
        simp [List.getElem?_set_self hi]
      rw [hget, callsOf_append, callsOf_same j add hdrv]
      apply hnext
      rw [← hold]
      exact hhist j dj hj
    · have hget : (s.workers.set i x1).getD j Worker.callFormat
          = s.workers.getD j Worker.callFormat := by
        simp [List.getElem?_set_ne (Ne.symm hji)]
      rw [hget, callsOf_append, callsOf_other i j add hdrv hji, List.append_nil]
      exact hhist j dj hj
  · simp only [concMeasure, hmain, hws, List.length_set]
    omega

theorem concInit_inv {σ : Type} (ds : List (LoggerDriver σ)) (md : MessageData) (w : World σ) :
    ConcInv ds md w.calls (concInit w) ∧ concMeasure ds.length (concInit w) = 9 * ds.length + 2 := by
  refine ⟨⟨?_, ?_, ?_, [], ?_, ?_, ?_⟩, ?_⟩
  · simp [concInit, MainPc.position]
  · simp [concInit, unfinished, MainPc.pending]
  · intro h; simp [concInit] at h
  · simp [concInit]
  · simp
  · intro i d _
    simp [concInit, WorkerHist, callsOf]
  · simp only [concMeasure, concInit, MainPc.weight, List.map_nil, List.sum_nil, List.length_nil]
    omega

theorem concStep_inv {σ : Type} (sched : Nat → Nat) (ds : List (LoggerDriver σ))
    (md : MessageData) (base : List Call) (t : Nat) (s s1 : Conc σ)
    (h : concStep sched ds md t s = some s1) (inv : ConcInv ds md base s) :
    ConcInv ds md base s1 ∧ concMeasure ds.length s1 < concMeasure ds.length s ∧
    s1.world.maps = s.world.maps ∧ s1.world.arrays = s.world.arrays ∧
    s1.world.singleton = s.world.singleton := by
  rcases concStep_spec sched ds md t s s1 h with ⟨hen, hs1⟩ | ⟨i, d, hi, hlive, hd, hs1⟩
  · subst hs1
    obtain ⟨h1, h2, h3⟩ := stepMain_inv ds md base s inv hen
    exact ⟨h1, h2, by rw [h3], by rw [h3], by rw [h3]⟩
  · subst hs1
    exact stepWorker_inv ds md base s inv i d hi hlive hd

/-- The fan-out cannot get stuck: when no thread can make a step, `logWritter` has
returned. -/
theorem concStep_none {σ : Type} (sched : Nat → Nat) (ds : List (LoggerDriver σ))
    (md : MessageData) (base : List Call) (t : Nat) (s : Conc σ)
    (h : concStep sched ds md t s = none) (inv : ConcInv ds md base s) :
    s.main = MainPc.returned := by
  obtain ⟨hpos, hwg, _, _⟩ := inv
  cases he : enabledThreads s with
  | nil =>
    obtain ⟨hmain, hunf⟩ := enabledThreads_nil s he
    cases hm : s.main with
    | loop k => simp [mainEnabled, hm] at hmain
    | spawn k => simp [mainEnabled, hm] at hmain
    | wait =>
      rw [hm] at hwg
      simp only [MainPc.pending] at hwg
      simp [mainEnabled, hm] at hmain
      omega
    | returned => rfl
  | cons e0 rest =>
    exfalso
    have hlt : sched t % (rest.length + 1) < (e0 :: rest).length := by
      simp only [List.length_cons]
      exact Nat.mod_lt _ (Nat.succ_pos _)
    have hmem : (e0 :: rest).getD (sched t % (rest.length + 1)) e0 ∈ enabledThreads s := by
      rw [he, List.getD_eq_getElem _ _ hlt]
      exact List.getElem_mem hlt
    unfold concStep at h
    simp only [he] at h
    cases hth : (e0 :: rest).getD (sched t % (rest.length + 1)) e0 with
    | zero =>
      rw [hth] at h
      simp at h
    | succ i =>
      rw [hth] at hmem h
      simp only [] at h
      have hi : i < s.workers.length := by
        unfold enabledThreads at hmem
        rcases List.mem_append.mp hmem with hm | hm
        · by_cases hen : mainEnabled s = true <;> simp [hen] at hm
        · rw [List.mem_map] at hm
          obtain ⟨j, hj, hji⟩ := hm
          have hji2 : j = i := by omega
          subst hji2
          rw [List.mem_filter, List.mem_range] at hj
          exact hj.1
      have hle : s.workers.length ≤ ds.length := by
        cases hm : s.main <;> rw [hm] at hpos <;> simp only [MainPc.position] at hpos <;> omega
      have hil : i < ds.length := Nat.lt_of_lt_of_le hi hle
      simp [List.getElem?_eq_getElem hil] at h

theorem concRun_inv {σ : Type} (sched : Nat → Nat) (ds : List (LoggerDriver σ))
    (md : MessageData) (base : List Call) (fuel : Nat) :
    ∀ (t : Nat) (s : Conc σ), ConcInv ds md base s →
      ConcInv ds md base (concRun sched ds md fuel t s) ∧
      (concRun sched ds md fuel t s).world.maps = s.world.maps ∧
      (concRun sched ds md fuel t s).world.arrays = s.world.arrays ∧
      (concRun sched ds md fuel t s).world.singleton = s.world.singleton := by
  induction fuel with
  | zero => intro t s inv; exact ⟨inv, rfl, rfl, rfl⟩
  | succ n ih =>
    intro t s inv
    cases hs : concStep sched ds md t s with
    | none => simpa [concRun, hs] using inv
    | some s1 =>
      simp only [concRun, hs]
      obtain ⟨h1, _, hm, ha, hsg⟩ := concStep_inv sched ds md base t s s1 hs inv
      obtain ⟨h2, hm2, ha2, hsg2⟩ := ih (t + 1) s1 h1
      exact ⟨h2, hm2.trans hm, ha2.trans ha, hsg2.trans hsg⟩

theorem concRun_returns {σ : Type} (sched : Nat → Nat) (ds : List (LoggerDriver σ))
    (md : MessageData) (base : List Call) (fuel : Nat) :
    ∀ (t : Nat) (s : Conc σ), ConcInv ds md base s → concMeasure ds.length s ≤ fuel →
      (concRun sched ds md fuel t s).main = MainPc.returned := by
  induction fuel with
  | zero =>
    intro t s inv hm
    simp only [concRun]
    cases hmain : s.main with
    | returned => rfl
    | loop k => simp [concMeasure, hmain, MainPc.weight] at hm
    | spawn k => simp [concMeasure, hmain, MainPc.weight] at hm
    | wait => simp [concMeasure, hmain, MainPc.weight] at hm
  | succ n ih =>
    intro t s inv hm
    cases hs : concStep sched ds md t s with
    | none =>
      simp only [concRun, hs]
      exact concStep_none sched ds md base t s hs inv
    | some s1 =>
      simp only [concRun, hs]
      obtain ⟨h1, hlt, _⟩ := concStep_inv sched ds md base t s s1 hs inv
      exact ih (t + 1) s1 h1 (by omega)

/-- Past `wg.Wait()` every goroutine has finished and every driver has been served. -/
theorem returned_all_served {σ : Type} (ds : List (LoggerDriver σ)) (md : MessageData)
    (base : List Call) (s : Conc σ) (inv : ConcInv ds md base s)
    (hret : s.main = MainPc.returned) :
    s.workers.length = ds.length ∧ (∀ x ∈ s.workers, x = Worker.finished) ∧
    ∃ new, s.world.calls = base ++ new ∧ (∀ c ∈ new, c.driver < ds.length) ∧
      ∀ i d, ds[i]? = some d → Served d i md (callsOf i new) := by
  obtain ⟨hpos, hwg, hz, new, hcalls, hbound, hhist⟩ := inv
  rw [hret] at hpos hwg
  simp only [MainPc.position, MainPc.pending] at hpos hwg
  have hunf : unfinished s.workers = 0 := by
    have := hz hret
    omega
  have hall := unfinished_zero s.workers hunf
  refine ⟨hpos, hall, new, hcalls, hbound, ?_⟩
  intro i d hd
  have hi : i < s.workers.length := by
    rw [hpos]
    exact (List.getElem?_eq_some.mp hd).1
  have hh := hhist i d hd
  rw [List.getD_eq_getElem _ _ hi, hall _ (List.getElem_mem hi)] at hh
  exact hh

/-! ## Every run of the fan-out with its WaitGroup is a run of `fanOut` -/

theorem absTasks_length (n : Nat) (ws : List Worker) : (absTasks n ws).length = n := by
  simp [absTasks]

theorem absTasks_getD (n : Nat) (ws : List Worker) (i : Nat) (hi : i < n) :
    (absTasks n ws).getD i Task.done = absTask (ws.getD i Worker.callFormat) := by
  rw [List.getD_eq_getElem _ _ (by rw [absTasks_length]; exact hi)]
  simp [absTasks]

theorem absTasks_append (n : Nat) (ws : List Worker) :
    absTasks n (ws ++ [Worker.callFormat]) = absTasks n ws := by
  simp only [absTasks, getD_append_callFormat]

theorem absTasks_set (n : Nat) (ws : List Worker) (i : Nat) (x : Worker)
    (hi : i < ws.length) :
    absTasks n (ws.set i x) = (absTasks n ws).set i (absTask x) := by
  apply List.ext_getElem
  · simp [absTasks]
  · intro j h1 h2
    have hj : j < n := by simpa [absTasks] using h1
    by_cases hji : j = i
    · subst hji
      simp [absTasks, List.getElem?_set_self hi]
    · have hne : i ≠ j := fun h => hji h.symm
      simp [absTasks, List.getElem_set_ne hne, List.getElem?_set_ne hne]

theorem absTasks_set_same (n : Nat) (ws : List Worker) (i : Nat) (x : Worker)
    (hi : i < ws.length)
    (h : absTask x = absTask (ws.getD i Worker.finished)) :
    absTasks n (ws.set i x) = absTasks n ws := by
  rw [absTasks_set n ws i x hi, h]
  apply List.ext_getElem
  · simp
  · intro j h1 h2
    by_cases hji : j = i
    · subst hji
      have hjn : j < n := by simpa [absTasks] using h2
      have hsame : ws.getD j Worker.finished = ws.getD j Worker.callFormat := by
        rw [List.getD_eq_getElem _ _ hi, List.getD_eq_getElem _ _ hi]
      simp only [List.getElem_set_self, hsame]
      simp [absTasks]
    · have hne : i ≠ j := fun h => hji h.symm
      simp [List.getElem_set_ne hne]

theorem positionOf_spec (i : Nat) (l : List Nat) (h : i ∈ l) :
    positionOf i l < l.length ∧ l.getD (positionOf i l) 0 = i := by
  induction l with
  | nil => simp at h
  | cons j rest ih =>
    by_cases hji : j = i
    · simp [positionOf, hji]
    · have hin : i ∈ rest := by
        rcases List.mem_cons.mp h with h | h
        · exact absurd h.symm hji
        · exact h
      obtain ⟨h1, h2⟩ := ih hin
      simp only [positionOf, if_neg hji, List.length_cons, List.getD_cons_succ]
      exact ⟨by omega, h2⟩

/-- A scheduler that asks for the position of a runnable goroutine gets that goroutine. -/
theorem pick_position (sched : Nat → Nat) (t : Nat) (ts : List Task) (i : Nat)
    (hi : i < ts.length) (hnd : (ts.getD i Task.done).isDone = false)
    (hs : sched t = positionOf i (runnable ts)) : pick sched t ts = some i := by
  have hmem : i ∈ runnable ts := by
    unfold runnable
    rw [List.mem_filter, List.mem_range]
    exact ⟨hi, by simpa using hnd⟩
  obtain ⟨hlt, hget⟩ := positionOf_spec i (runnable ts) hmem
  unfold pick
  cases hr : runnable ts with
  | nil => rw [hr] at hmem; simp at hmem
  | cons i0 rest =>
    rw [hr] at hlt hget
    simp only [List.length_cons] at hlt
    rw [hs, hr]
    simp only [Nat.mod_eq_of_lt hlt]
    congr 1
    rw [List.getD_eq_getElem _ _ (by simpa using hlt)] at hget ⊢
    exact hget

theorem runTasks_all_done {σ : Type} (sched : Nat → Nat) (ds : List (LoggerDriver σ))
    (md : MessageData) (fuel t : Nat) (ts : List Task) (w : World σ)
    (h : ∀ x ∈ ts, x = Task.done) : runTasks sched ds md fuel t ts w = (ts, w) := by
  cases fuel with
  | zero => rfl
  | succ n =>
    have hr : runnable ts = [] := by
      unfold runnable
      rw [List.filter_eq_nil_iff]
      intro i hi
      rw [List.mem_range] at hi
      rw [List.getD_eq_getElem _ _ hi, h _ (List.getElem_mem hi)]
      simp [Task.isDone]
    simp [runTasks, schedStep, pick, hr]

/-- A step of a goroutine of the finer model is either invisible to `fanOut` (an invocation,
or the deferred `wg.Done()`) or exactly the step `stepTask` makes from the corresponding
program point. -/
theorem stepWorker_abs {σ : Type} (d : LoggerDriver σ) (i : Nat) (md : MessageData)
    (s : Conc σ) (hlive : (s.workers.getD i Worker.finished).live = 1) :
    ∃ x1, (stepWorker d i md s).workers = s.workers.set i x1 ∧
      ((absTask x1 = absTask (s.workers.getD i Worker.finished) ∧
          (stepWorker d i md s).world = s.world) ∨
       ((absTask (s.workers.getD i Worker.finished)).isDone = false ∧
          stepTask d i md (absTask (s.workers.getD i Worker.finished)) s.world
            = (absTask x1, (stepWorker d i md s).world))) := by
  cases hx : s.workers.getD i Worker.finished with
  | callFormat =>
    have hstep : stepWorker d i md s = { s with workers := s.workers.set i Worker.inFormat } := by
      simp only [stepWorker, hx]
    rw [hstep]
    exact ⟨Worker.inFormat, rfl, Or.inl ⟨rfl, rfl⟩⟩
  | inFormat =>
    cases hr : (d.FormatLog md s.world.ext).1.2 with
    | some err =>
      have hstep : stepWorker d i md s =
          { s with
            workers := s.workers.set i (Worker.reportFormat (d.FormatLog md s.world.ext).1.1 err),
            world := { s.world with
              ext := (d.FormatLog md s.world.ext).2,
              calls := s.world.calls ++
                [Call.FormatLog i md (d.FormatLog md s.world.ext).1.1 (some err)] } } := by
        simp only [stepWorker, hx, hr]
      rw [hstep]
      refine ⟨Worker.reportFormat (d.FormatLog md s.world.ext).1.1 err, rfl, Or.inr ⟨rfl, ?_⟩⟩
      simp only [absTask, stepTask, hr]
    | none =>
      have hstep : stepWorker d i md s =
          { s with
            workers := s.workers.set i (Worker.callWrite (d.FormatLog md s.world.ext).1.1),
            world := { s.world with
              ext := (d.FormatLog md s.world.ext).2,
              calls := s.world.calls ++
                [Call.FormatLog i md (d.FormatLog md s.world.ext).1.1 none] } } := by
        simp only [stepWorker, hx, hr]
      rw [hstep]
      refine ⟨Worker.callWrite (d.FormatLog md s.world.ext).1.1, rfl, Or.inr ⟨rfl, ?_⟩⟩
      simp only [absTask, stepTask, hr]
  | reportFormat out err =>
    have hstep : stepWorker d i md s =
        { s with
          workers := s.workers.set i (Worker.callWrite out),
          world := { s.world with
            stdout := s.world.stdout ++ ["Error formatting log: " ++ err] } } := by
      simp only [stepWorker, hx]
    rw [hstep]
    exact ⟨Worker.callWrite out, rfl, Or.inr ⟨rfl, rfl⟩⟩
  | callWrite out =>
    have hstep : stepWorker d i md s = { s with workers := s.workers.set i (Worker.inWrite out) } := by
      simp only [stepWorker, hx]
    rw [hstep]
    exact ⟨Worker.inWrite out, rfl, Or.inl ⟨rfl, rfl⟩⟩
  | inWrite out =>
    cases hr : (d.WriteLog out s.world.ext).1 with
    | some err =>
      have hstep : stepWorker d i md s =
          { s with
            workers := s.workers.set i (Worker.reportWrite err),
            world := { s.world with
              ext := (d.WriteLog out s.world.ext).2,
              calls := s.world.calls ++ [Call.WriteLog i out (some err)] } } := by
        simp only [stepWorker, hx, hr]
      rw [hstep]
      refine ⟨Worker.reportWrite err, rfl, Or.inr ⟨rfl, ?_⟩⟩
      simp only [absTask, stepTask, hr]
    | none =>
      have hstep : stepWorker d i md s =
          { s with
            workers := s.workers.set i Worker.deferred,
            world := { s.world with
              ext := (d.WriteLog out s.world.ext).2,
              calls := s.world.calls ++ [Call.WriteLog i out none] } } := by
        simp only [stepWorker, hx, hr]
      rw [hstep]
      refine ⟨Worker.deferred, rfl, Or.inr ⟨rfl, ?_⟩⟩
      simp only [absTask, stepTask, hr]
  | reportWrite err =>
    have hstep : stepWorker d i md s =
        { s with
          workers := s.workers.set i Worker.deferred,
          world := { s.world with
            stdout := s.world.stdout ++ ["Error writing log: " ++ err] } } := by
      simp only [stepWorker, hx]
    rw [hstep]
    exact ⟨Worker.deferred, rfl, Or.inr ⟨rfl, rfl⟩⟩
  | deferred =>
    have hstep : stepWorker d i md s =
        { s with workers := s.workers.set i Worker.finished, wg := s.wg - 1 } := by
      simp only [stepWorker, hx]
    rw [hstep]
    exact ⟨Worker.finished, rfl, Or.inl ⟨rfl, rfl⟩⟩
  | finished =>
    rw [hx] at hlive
    simp [Worker.live] at hlive

theorem stepMain_abs {σ : Type} (n : Nat) (s : Conc σ) :
    absTasks n (stepMain n s).workers = absTasks n s.workers := by
  unfold stepMain
  cases s.main with
  | loop k => by_cases hk : k < n <;> simp [hk]
  | spawn k => simp [absTasks_append]
  | wait => by_cases hz : s.wg = 0 <;> simp [hz]
  | returned => rfl

theorem returned_abs_done {σ : Type} (ds : List (LoggerDriver σ)) (md : MessageData)
    (base : List Call) (s : Conc σ) (inv : ConcInv ds md base s)
    (hret : s.main = MainPc.returned) :
    ∀ x ∈ absTasks ds.length s.workers, x = Task.done := by
  obtain ⟨hlen, hall, _⟩ := returned_all_served ds md base s inv hret
  intro x hx
  simp only [absTasks, List.mem_map, List.mem_range] at hx
  obtain ⟨i, hi, hxi⟩ := hx
  have hiw : i < s.workers.length := by rw [hlen]; exact hi
  rw [List.getD_eq_getElem _ _ hiw, hall _ (List.getElem_mem hiw)] at hxi
  rw [← hxi]
  rfl

theorem measure_zero_returned {σ : Type} (n : Nat) (s : Conc σ) (h : concMeasure n s ≤ 0) :
    s.main = MainPc.returned := by
  cases hmain : s.main with
  | returned => rfl
  | loop k => simp [concMeasure, hmain, MainPc.weight] at h
  | spawn k => simp [concMeasure, hmain, MainPc.weight] at h
  | wait => simp [concMeasure, hmain, MainPc.weight] at h

/-- Every run of the finer model is matched by `runTasks` under a scheduler that makes the
same visible steps in the same order: both end in the same world. -/
theorem concRun_simulated {σ : Type} (sched : Nat → Nat) (ds : List (LoggerDriver σ))
    (md : MessageData) (base : List Call) (f : Nat) :
    ∀ (t : Nat) (s : Conc σ), ConcInv ds md base s → concMeasure ds.length s ≤ f →
      ∃ picks : List Nat, ∀ (sched1 : Nat → Nat) (t0 fuel1 : Nat),
        (∀ j, j < picks.length → sched1 (t0 + j) = picks.getD j 0) →
        remaining (absTasks ds.length s.workers) ≤ fuel1 →
        (runTasks sched1 ds md fuel1 t0 (absTasks ds.length s.workers) s.world).2
          = (concRun sched ds md f t s).world := by
  induction f with
  | zero =>
    intro t s inv hm
    refine ⟨[], ?_⟩
    intro sched1 t0 fuel1 _ _
    rw [runTasks_all_done sched1 ds md fuel1 t0 _ _
      (returned_abs_done ds md base s inv (measure_zero_returned _ s hm))]
    rfl
  | succ n ih =>
    intro t s inv hm
    cases hs : concStep sched ds md t s with
    | none =>
      refine ⟨[], ?_⟩
      intro sched1 t0 fuel1 _ _
      rw [runTasks_all_done sched1 ds md fuel1 t0 _ _
        (returned_abs_done ds md base s inv (concStep_none sched ds md base t s hs inv))]
      simp [concRun, hs]
    | some s1 =>
      obtain ⟨hinv1, hlt, _⟩ := concStep_inv sched ds md base t s s1 hs inv
      obtain ⟨picks1, hp1⟩ := ih (t + 1) s1 hinv1 (by omega)
      have hrun : concRun sched ds md (n + 1) t s = concRun sched ds md n (t + 1) s1 := by
        simp only [concRun, hs]
      rw [hrun]
      rcases concStep_spec sched ds md t s s1 hs with ⟨hen, hs1⟩ | ⟨i, d, hi, hlive, hd, hs1⟩
      · -- a step of logWritter itself: nothing visible
        have habs : absTasks ds.length s1.workers = absTasks ds.length s.workers := by
          rw [hs1]; exact stepMain_abs ds.length s
        have hw : s1.world = s.world := by
          rw [hs1]; exact (stepMain_inv ds md base s inv hen).2.2
        refine ⟨picks1, ?_⟩
        intro sched1 t0 fuel1 hpicks hfuel
        have := hp1 sched1 t0 fuel1 hpicks (by rw [habs]; exact hfuel)
        rw [habs, hw] at this
        exact this
      · obtain ⟨x1, hws, hcase⟩ := stepWorker_abs d i md s hlive
        rw [← hs1] at hws hcase
        rcases hcase with ⟨hsame, hw⟩ | ⟨hnd, hstep⟩
        · -- an invocation or the deferred wg.Done(): nothing visible
          have habs : absTasks ds.length s1.workers = absTasks ds.length s.workers := by
            rw [hws]
            exact absTasks_set_same ds.length s.workers i x1 hi hsame
          refine ⟨picks1, ?_⟩
          intro sched1 t0 fuel1 hpicks hfuel
          have := hp1 sched1 t0 fuel1 hpicks (by rw [habs]; exact hfuel)
          rw [habs, hw] at this
          exact this
        · -- a visible step: the coarse scheduler picks the same goroutine
          have hil : i < ds.length := (List.getElem?_eq_some.mp hd).1
          have hold : s.workers.getD i Worker.callFormat = s.workers.getD i Worker.finished := by
            rw [List.getD_eq_getElem _ _ hi, List.getD_eq_getElem _ _ hi]
          have hget : (absTasks ds.length s.workers).getD i Task.done
              = absTask (s.workers.getD i Worker.finished) := by
            rw [absTasks_getD ds.length s.workers i hil, hold]
          have habs : absTasks ds.length s1.workers
              = (absTasks ds.length s.workers).set i (absTask x1) := by
            rw [hws]
            exact absTasks_set ds.length s.workers i x1 hi
          refine ⟨positionOf i (runnable (absTasks ds.length s.workers)) :: picks1, ?_⟩
          intro sched1 t0 fuel1 hpicks hfuel
          have hpick : pick sched1 t0 (absTasks ds.length s.workers) = some i := by
            apply pick_position
            · rw [absTasks_length]; exact hil
            · rw [hget]; exact hnd
            · have := hpicks 0 (by simp)
              simpa using this
          have hsched : schedStep sched1 ds md t0 (absTasks ds.length s.workers) s.world
              = some (absTasks ds.length s1.workers, s1.world) := by
            simp only [schedStep, hpick, hd, hget, hstep, habs]
          have hdec : remaining (absTasks ds.length s1.workers)
              < remaining (absTasks ds.length s.workers) := by
            rw [habs]
            apply remaining_set _ i _ (by rw [absTasks_length]; exact hil)
            rw [hget]
            have := stepTask_weight d i md (absTask (s.workers.getD i Worker.finished)) s.world hnd
            rw [hstep] at this
            exact this
          cases fuel1 with
          | zero => omega
          | succ m =>
            simp only [runTasks, hsched]
            apply hp1 sched1 (t0 + 1) m
            · intro j hj
              have := hpicks (j + 1) (by simp; omega)
              simp only [List.getD_cons_succ] at this
              rw [← this]
              congr 1
              omega
            · omega

theorem absTasks_start {σ : Type} (ds : List (LoggerDriver σ)) :
    absTasks ds.length [] = ds.map (fun _ => Task.callFormat) := by
  apply List.ext_getElem
  · simp [absTasks]
  · intro j h1 h2
    simp [absTasks, absTask]

/-- The world in which the finer model returns is a world `fanOut` returns under some
scheduler: what is proved of `fanOut` for every scheduler holds of every run of the fan-out
with its WaitGroup. -/
theorem fanOut_covers_waitgroup_runs {σ : Type} (sched : Nat → Nat)
    (ds : List (LoggerDriver σ)) (md : MessageData) (w : World σ) (fuel : Nat)
    (hfuel : 9 * ds.length + 2 ≤ fuel) :
    ∃ sched1, (fanOut sched1 ds md w).2 = (concRun sched ds md fuel 0 (concInit w)).world := by
  obtain ⟨hinit, hmeasure⟩ := concInit_inv ds md w
  obtain ⟨picks, hp⟩ := concRun_simulated sched ds md w.calls fuel 0 (concInit w) hinit
    (by rw [hmeasure]; exact hfuel)
  refine ⟨fun t => picks.getD t 0, ?_⟩
  have := hp (fun t => picks.getD t 0) 0 (4 * ds.length) (by intro j _; simp)
    (by
      have h1 : (concInit w).workers = [] := rfl
      rw [h1, absTasks_start, remaining_start])
  have h1 : (concInit w).workers = [] := rfl
  have h2 : (concInit w).world = w := rfl
  rw [h1, h2, absTasks_start] at this
  exact this

/-! ## The barrier as the caller sees it -/

theorem logWritterAfter_enabled {σ : Type} (l : OmniLogger) (level : LogLevel)
    (message : String) (env : Env) (cs : List Frame) (fuel : Nat) (w : World σ)
    (h : mapIndex (derefMap w l.config.LogLevels) level = some true) :
    l.logWritterAfter level message env cs fuel w =
      concRun env.sched (readSlice w l.drivers) (recordOf l level message env cs) fuel 0
        (concInit w) := by
  simp [OmniLogger.logWritterAfter, lookupLevel_enabled l w level h, OmniLogger.levelToString,
    recordOf]

/-- C13: in the fan-out of a log call at an enabled level, with `wg.Add`, `go`, `wg.Done`
and `wg.Wait` as steps of their own and every driver call split into invocation and return,
at whatever moment of whatever schedule `logWritter` is observed past `wg.Wait()`, one
goroutine has been started for every driver, each of them has run to its end (none stands
inside `FormatLog` or `WriteLog`), and the record of calls holds for every driver its
`FormatLog` and then its `WriteLog`, both returned, whatever errors they returned. The call
does get there: after at most `9 * n + 2` scheduling steps over `n` drivers `logWritter` has
returned, and heap and singleton are as before the call. The world the caller then sees is
one that `logWritter` with the coarse fan-out returns under some scheduler. -/
theorem log_call_returns_only_after_every_driver {σ : Type} (l : OmniLogger) (level : LogLevel)
    (message : String) (env : Env) (cs : List Frame) (w : World σ)
    (h : mapIndex (derefMap w l.config.LogLevels) level = some true) :
    (∀ fuel, (l.logWritterAfter level message env cs fuel w).main = MainPc.returned →
      (l.logWritterAfter level message env cs fuel w).workers.length
        = (readSlice w l.drivers).length ∧
      (∀ x ∈ (l.logWritterAfter level message env cs fuel w).workers, x = Worker.finished) ∧
      ∃ new, (l.logWritterAfter level message env cs fuel w).world.calls = w.calls ++ new ∧
        ∀ i d, (readSlice w l.drivers)[i]? = some d →
          ∃ out e r,
            callsOf i new = [Call.FormatLog i (recordOf l level message env cs) out e,
                             Call.WriteLog i out r] ∧
            (∃ s, (d.FormatLog (recordOf l level message env cs) s).1 = (out, e)) ∧
            (∃ s, (d.WriteLog out s).1 = r)) ∧
    (∀ fuel, 9 * (readSlice w l.drivers).length + 2 ≤ fuel →
      (l.logWritterAfter level message env cs fuel w).main = MainPc.returned) ∧
    (∀ fuel, (l.logWritterAfter level message env cs fuel w).world.maps = w.maps ∧
      (l.logWritterAfter level message env cs fuel w).world.arrays = w.arrays ∧
      (l.logWritterAfter level message env cs fuel w).world.singleton = w.singleton) ∧
    (∀ fuel, 9 * (readSlice w l.drivers).length + 2 ≤ fuel →
      ∃ sched1, l.logWritter level message { env with sched := sched1 } cs w
        = (l.logWritterAfter level message env cs fuel w).world) := by
  obtain ⟨hinit, hmeasure⟩ :=
    concInit_inv (readSlice w l.drivers) (recordOf l level message env cs) w
  refine ⟨?_, ?_, ?_, ?_⟩
  rotate_left 3
  · intro fuel hfuel
    obtain ⟨sched1, hs⟩ := fanOut_covers_waitgroup_runs env.sched (readSlice w l.drivers)
      (recordOf l level message env cs) w fuel hfuel
    refine ⟨sched1, ?_⟩
    rw [logWritterAfter_enabled l level message env cs fuel w h,
      logWritter_enabled l level message { env with sched := sched1 } cs w h]
    exact hs
  · intro fuel hret
    rw [logWritterAfter_enabled l level message env cs fuel w h] at hret ⊢
    obtain ⟨hinv, _⟩ := concRun_inv env.sched (readSlice w l.drivers)
      (recordOf l level message env cs) w.calls fuel 0 (concInit w) hinit
    obtain ⟨hlen, hall, new, hcalls, _, hserved⟩ :=
      returned_all_served _ _ _ _ hinv hret
    exact ⟨hlen, hall, new, hcalls, hserved⟩
  · intro fuel hfuel
    rw [logWritterAfter_enabled l level message env cs fuel w h]
    exact concRun_returns env.sched (readSlice w l.drivers) (recordOf l level message env cs)
      w.calls fuel 0 (concInit w) hinit (by omega)
  · intro fuel
    rw [logWritterAfter_enabled l level message env cs fuel w h]
    exact (concRun_inv env.sched (readSlice w l.drivers) (recordOf l level message env cs)
      w.calls fuel 0 (concInit w) hinit).2

/-- Witness for C13: two drivers, the first failing in both methods. After 20 steps the call
has returned with both goroutines finished; after 13 steps of the same schedule a
`WriteLog` is still running and `logWritter` is held in `wg.Wait()` with the counter at 2. -/
theorem log_call_returns_only_after_every_driver_witness :
    mapIndex (derefMap testWorld failingLogger.config.LogLevels) ERROR = some true ∧
    (failingLogger.logWritterAfter ERROR "x" lastFirstEnv testStack 20 testWorld).main
      = MainPc.returned ∧
    (∀ x ∈ (failingLogger.logWritterAfter ERROR "x" lastFirstEnv testStack 20 testWorld).workers,
      x = Worker.finished) ∧
    (failingLogger.logWritterAfter ERROR "x" lastFirstEnv testStack 13 testWorld).main
      = MainPc.wait ∧
    (failingLogger.logWritterAfter ERROR "x" lastFirstEnv testStack 13 testWorld).wg = 2 ∧
    (failingLogger.logWritterAfter ERROR "x" lastFirstEnv testStack 13 testWorld).workers
      = [Worker.reportWrite "disk full", Worker.inWrite "x"] :=
  ⟨by decide,
   (log_call_returns_only_after_every_driver failingLogger ERROR "x" lastFirstEnv testStack
      testWorld (by decide)).2.1 20 (by decide),
   ((log_call_returns_only_after_every_driver failingLogger ERROR "x" lastFirstEnv testStack
      testWorld (by decide)).1 20
      ((log_call_returns_only_after_every_driver failingLogger ERROR "x" lastFirstEnv testStack
        testWorld (by decide)).2.1 20 (by decide))).2.1,
   by decide, by decide, by decide⟩

end omnilogger
